import Mathlib

/-!
# Icecream daemon: the worker side of `handle_connection`

A shallow embedding of `src/daemon/serve.cpp` (functions `error_client`,
`write_output_file` and the child half of `handle_connection`).

Every call that leaves the program (system calls, the client channel, the
compiler runner `work_it`, the helpers of `file_util`, the allocators of
`tempfile.c`) is answered by a field of `Env`; every such call is recorded, in
program order, as an `Event` of a trace.  C++ exceptions are the `throw`
result; a loop that has used up its fuel gives `stuck` and keeps the trace
it produced so far, so that ordering properties hold of every prefix of a run.
-/

namespace Icecream

/-- C and C++ strings, as lists of characters. -/
abbrev Str := List Char

/-- The messages the worker sends on the client channel (`comm.h`).  A
`FileChunkMsg` is represented by the length of its payload. -/
inductive Msg where
  | StatusTextMsg (text : Str)
  | CompileResultMsg (status : Int) (was_out_of_memory : Bool) (have_dwo_file : Bool)
  | FileChunkMsg (len : Nat)
  | EndMsg
  deriving DecidableEq, Repr

/-- The fields of `CompileResultMsg` that `handle_connection` reads or writes. -/
structure CompileResult where
  status : Int
  was_out_of_memory : Bool
  have_dwo_file : Bool
  deriving DecidableEq, Repr

/-- The part of `CompileJob` (`job.h`) that `handle_connection` reads. -/
structure CompileJob where
  jobID : Nat
  targetPlatform : Str
  environmentVersion : Str
  workingDirectory : Str
  outputFile : Str
  dwarfFissionEnabled : Bool
  deriving DecidableEq, Repr

/-- What one `read(2)` call gives: its return value and the `errno` it leaves. -/
structure ReadResult where
  bytes : Int
  errno : Int
  deriving DecidableEq, Repr

/-- What `work_it` leaves behind: its return value, the result message and the
statistics array it filled in. -/
structure WorkItResult where
  ret : Int
  rmsg : CompileResult
  job_stat : List Nat
  deriving DecidableEq, Repr

/-- One externally visible action of the worker, in program order. -/
inductive Event where
  | send (m : Msg) (ok : Bool)
  | access_X (path : Str) (r : Int)
  | access_W (path : Str) (r : Int)
  | chdir_to_environment (dirname : Str)
  | make_tmpdir (ret : Int) (name : Str)
  | make_tmpnam (pfx sfx : Str) (ret : Int) (name : Str)
  | mkpath (path : Str) (ok : Bool)
  | work_it (tmp_root build_path file_name : Str) (ret : Int)
  | stat (path : Str) (size : Option Nat)
  | pipe_write (job_stat : List Nat)
  | pipe_close
  | sys_open (file : Str) (fd : Int)
  | sys_read (fd : Int) (bytes : Int) (errno : Int)
  | sys_close (fd : Int)
  | delete_client
  | unlink (path : Str)
  | rmpath (path : Str)
  | delete_job
  | sys_exit (code : Int)
  deriving DecidableEq, Repr

/-- Everything outside `serve.cpp` that the worker consults.  The three exit
codes come from `exitcode.h`, `IS_PROTOCOL_22`, the default `CompileResultMsg`
and `JobStatistics::out_uncompressed` from `comm.h` and `job.h`, the two path
functions and `mkpath` from `file_util`; none of these files is among the
sources, so they are parameters. -/
structure Env where
  EXIT_DISTCC_FAILED : Int
  EXIT_OUT_OF_MEMORY : Int
  EXIT_IO_ERROR : Int
  /-- Value of `IS_PROTOCOL_22(client)`. -/
  is_protocol_22 : Bool
  /-- Outcome of the `n`-th `send_msg` on the client channel, counted from 0. -/
  send_ok : Nat → Bool
  /-- Return value of `::access(path, X_OK)`. -/
  access_X_OK : Str → Int
  /-- Return value of `::access(path, W_OK)`. -/
  access_W_OK : Str → Int
  /-- Contents of `temp_dir_path` once it is prepared. -/
  temp_dir_path : Str
  /-- Return value of `dcc_make_tmpdir` and the name it stores on success. -/
  dcc_make_tmpdir : Int × Str
  /-- Return value of `dcc_make_tmpnam pfx sfx _ 0` and the name it stores. -/
  dcc_make_tmpnam : Str → Str → Int × Str
  mkpath : Str → Bool
  get_canonicalized_path : Str → Str
  get_relative_path : Str → Str → Str
  /-- State of a default-constructed `CompileResultMsg`. -/
  rmsg_init : CompileResult
  /-- The compiler runner, applied to the job, the temp root, the build
  directory, the output file name and the memory limit. -/
  work_it : CompileJob → Str → Str → Str → Nat → WorkItResult
  /-- Index `JobStatistics::out_uncompressed`. -/
  out_uncompressed : Nat
  /-- Size reported by `_stat(path)`, or `none` when it fails. -/
  stat : Str → Option Nat
  /-- Return value of `open(file, O_RDONLY | O_LARGEFILE)`. -/
  sys_open : Str → Int
  /-- Outcome of the `i`-th `read` on descriptor `fd`, counted from 0. -/
  read : Int → Nat → ReadResult

/-- A string literal of the source. -/
def lit (s : String) : Str := s.toList

/-- Result of running a piece of the worker. -/
inductive Res (α : Type) where
  | ret (a : α)
  | throw (code : Int)
  | stuck
  deriving DecidableEq, Repr

/-- Value of `EINTR` in `errno.h`. -/
def EINTR : Int := 4

/-- Value of `sizeof(buffer)` in `write_output_file`. -/
def buffer_size : Nat := 100000

/-- Number of `send_msg` calls recorded in a trace. -/
def sendCount : List Event → Nat
  | [] => 0
  | Event.send _ _ :: tr => sendCount tr + 1
  | _ :: tr => sendCount tr

/-- The call `client->send_msg(m)`: the outcome and the extended trace. -/
def send_msg (env : Env) (m : Msg) (tr : List Event) : Bool × List Event :=
  let ok := env.send_ok (sendCount tr)
  (ok, tr ++ [Event.send m ok])

/-- Function `error_client` (serve.cpp 191-197). -/
def error_client (env : Env) (error : Str) (tr : List Event) : List Event :=
  if env.is_protocol_22 then (send_msg env (Msg.StatusTextMsg error) tr).2 else tr

/-- The `do ... while (1)` loop of `write_output_file` (serve.cpp 213-238);
`i` counts the reads already made on `obj_fd`. -/
def write_output_loop (env : Env) (obj_fd : Int) :
    Nat → Nat → List Event → Res Unit × List Event
  | 0, _, tr => (Res.stuck, tr)
  | fuel + 1, i, tr =>
    let r := env.read obj_fd i
    let tr1 := tr ++ [Event.sys_read obj_fd r.bytes r.errno]
    if r.bytes < 0 then
      if r.errno = EINTR then write_output_loop env obj_fd fuel (i + 1) tr1
      else (Res.throw env.EXIT_DISTCC_FAILED, tr1)
    else if r.bytes = 0 then
      let s := send_msg env Msg.EndMsg tr1
      if s.1 = false then (Res.throw env.EXIT_DISTCC_FAILED, s.2)
      else (Res.ret (), s.2)
    else
      let s := send_msg env (Msg.FileChunkMsg r.bytes.toNat) tr1
      if s.1 = false then (Res.throw env.EXIT_DISTCC_FAILED, s.2)
      else write_output_loop env obj_fd fuel (i + 1) s.2

/-- The `catch (...)` block of `write_output_file` (serve.cpp 240-246), applied
to the outcome of the `try` block: a propagating exception closes `obj_fd`
when it is not `-1` and is thrown again; anything else passes through. -/
def write_output_catch (obj_fd : Int) (r : Res Unit × List Event) :
    Res Unit × List Event :=
  match r.1 with
  | Res.throw code =>
    if obj_fd ≠ -1 then (Res.throw code, r.2 ++ [Event.sys_close obj_fd])
    else (Res.throw code, r.2)
  | _ => r

/-- Function `write_output_file` (serve.cpp 199-247). -/
def write_output_file (env : Env) (file : Str) (fuel : Nat) (tr : List Event) :
    Res Unit × List Event :=
  let obj_fd := env.sys_open file
  let tr1 := tr ++ [Event.sys_open file obj_fd]
  write_output_catch obj_fd
    (if obj_fd = -1 then
      (Res.throw env.EXIT_DISTCC_FAILED,
        error_client env (lit "open of object file failed") tr1)
    else write_output_loop env obj_fd fuel 0 tr1)

/-- The locals of `handle_connection` that outlive its `try` block
(serve.cpp 315), together with the trace. -/
structure State where
  tmp_path : Str
  obj_file : Str
  dwo_file : Str
  trace : List Event
  deriving DecidableEq, Repr

/-- Sequencing: the second step runs only after a normal return of the first. -/
def andThen {α β : Type} (x : Res α × State) (f : α → State → Res β × State) :
    Res β × State :=
  match x with
  | (Res.ret a, s) => f a s
  | (Res.throw code, s) => (Res.throw code, s)
  | (Res.stuck, s) => (Res.stuck, s)

/-- Appends one event to the trace of a state. -/
def State.emit (s : State) (e : Event) : State :=
  { s with trace := s.trace ++ [e] }

/-- The call `error_client(client, error)` on the trace of a state. -/
def State.error_client (s : State) (env : Env) (error : Str) : State :=
  { s with trace := Icecream.error_client env error s.trace }

/-- The call `s.rfind(c)` of `std::string`: index of the last `c`, `none` for
`npos`. -/
def rfind : Str → Char → Option Nat
  | [], _ => none
  | x :: xs, c =>
    match rfind xs c with
    | some i => some (i + 1)
    | none => if x = c then some 0 else none

/-- The call `s.substr(0, s.rfind(c))`; with `npos` the whole string. -/
def substr_to_rfind (s : Str) (c : Char) : Str :=
  match rfind s c with
  | some i => s.take i
  | none => s

/-- The call `s.substr(s.rfind(c) + 1)`; `npos + 1` wraps around to 0. -/
def substr_after_rfind (s : Str) (c : Char) : Str :=
  match rfind s c with
  | some i => s.drop (i + 1)
  | none => s

/-- The output of `sprintf(_, "%u", n)` for an `unsigned int`. -/
def format_u (n : Nat) : Str := Nat.toDigits 10 (n % 2 ^ 32)

/-- The statement `job_stat[i] += size` on an array of `unsigned int`. -/
def add_stat (job_stat : List Nat) (i : Nat) (size : Nat) : List Nat :=
  job_stat.modify (fun v => (v + size) % 2 ^ 32) i

/-- Environment validation and the temp directory probe (serve.cpp 319-342). -/
def hc_validate (env : Env) (basedir : Str) (job : CompileJob) (s : State) :
    Res Unit × State :=
  let v : Res Unit × State :=
    if job.environmentVersion.length ≠ 0 then
      let dirname := basedir ++ (lit "/target=") ++ job.targetPlatform ++ (lit "/")
        ++ job.environmentVersion
      let r := env.access_X_OK (dirname ++ (lit "/usr/bin/as"))
      let s1 := s.emit (Event.access_X (dirname ++ (lit "/usr/bin/as")) r)
      if r < 0 then
        (Res.throw env.EXIT_DISTCC_FAILED,
          s1.error_client env (dirname
            ++ (lit "/usr/bin/as is not executable, installed environment removed?")))
      else (Res.ret (), s1.emit (Event.chdir_to_environment dirname))
    else
      (Res.throw env.EXIT_DISTCC_FAILED, s.error_client env (lit "empty environment"))
  andThen v fun _ s2 =>
    let r := env.access_W_OK (env.temp_dir_path.drop 1)
    let s3 := s2.emit (Event.access_W (env.temp_dir_path.drop 1) r)
    if r < 0 then
      (Res.throw (-1), s3.error_client env (lit "can't write to " ++ env.temp_dir_path))
    else (Res.ret (), s3)

/-- The local `file_dir` of the fission branch (serve.cpp 373-381): the
output file up to its last `'/'`, empty when there is none. -/
def file_dir (job_output_file : Str) : Str :=
  match rfind job_output_file '/' with
  | some slash_index => job_output_file.take slash_index
  | none => []

/-- The local `file_name` of the fission branch (serve.cpp 373-381): the
output file after its last `'/'`, all of it when there is none. -/
def file_name (job_output_file : Str) : Str :=
  match rfind job_output_file '/' with
  | some slash_index => job_output_file.drop (slash_index + 1)
  | none => job_output_file

/-- The test `!file_dir.empty() && file_dir[0] == '/'` (serve.cpp 384). -/
def output_dir_is_absolute (job_output_file : Str) : Bool :=
  !(file_dir job_output_file).isEmpty && (file_dir job_output_file).head? == some '/'

/-- The local `relative_file_path` of the fission branch (serve.cpp 383-392). -/
def relative_file_path (env : Env) (job_working_dir job_output_file : Str) : Str :=
  if output_dir_is_absolute job_output_file then
    env.get_relative_path (env.get_canonicalized_path job_output_file)
      (env.get_canonicalized_path job_working_dir)
  else
    let canonicalized_dir :=
      env.get_canonicalized_path (job_working_dir ++ '/' :: file_dir job_output_file)
    env.get_relative_path (canonicalized_dir ++ '/' :: file_name job_output_file)
      (env.get_canonicalized_path job_working_dir)

/-- The local `output_dir` of the fission branch (serve.cpp 383-392). -/
def output_dir (env : Env) (tmp_path job_working_dir job_output_file : Str) : Str :=
  if output_dir_is_absolute job_output_file then
    tmp_path ++ env.get_canonicalized_path (file_dir job_output_file)
  else
    let canonicalized_dir :=
      env.get_canonicalized_path (job_working_dir ++ '/' :: file_dir job_output_file)
    tmp_path ++ canonicalized_dir

/-- The DWARF fission branch of sandbox preparation, after `dcc_make_tmpdir`
returned 0 with the name `tmp_output` (serve.cpp 356-406). -/
def hc_fission (env : Env) (job : CompileJob) (mem_limit : Nat) (tmp_output : Str)
    (s : State) : Res WorkItResult × State :=
  let s1 := { s with tmp_path := tmp_output }
  let job_output_file := job.outputFile
  let job_working_dir := job.workingDirectory
  let od := output_dir env s1.tmp_path job_working_dir job_output_file
  let s2 := s1.emit (Event.mkpath od (env.mkpath od))
  if env.mkpath od = false then
    (Res.throw env.EXIT_IO_ERROR,
      s2.error_client env (lit "could not create object file location in tmp directory"))
  else
    let wd := s2.tmp_path ++ job_working_dir
    let s3 := s2.emit (Event.mkpath wd (env.mkpath wd))
    if env.mkpath wd = false then
      (Res.throw env.EXIT_IO_ERROR,
        s3.error_client env
          (lit "could not create compiler working directory in tmp directory"))
    else
      let obj_file := od ++ '/' :: file_name job_output_file
      let s4 := { s3 with obj_file := obj_file,
                          dwo_file := substr_to_rfind obj_file '.' ++ lit ".dwo" }
      let rfp := relative_file_path env job_working_dir job_output_file
      let w := env.work_it job s4.tmp_path job_working_dir rfp mem_limit
      (Res.ret w, s4.emit (Event.work_it s4.tmp_path job_working_dir rfp w.ret))

/-- The branch without DWARF fission, after `dcc_make_tmpnam` returned 0 with
the name `tmp_output` (serve.cpp 409-414). -/
def hc_plain (env : Env) (job : CompileJob) (mem_limit : Nat) (tmp_output : Str)
    (s : State) : Res WorkItResult × State :=
  let s1 := { s with obj_file := tmp_output }
  let build_path := substr_to_rfind s1.obj_file '/'
  let file_name := substr_after_rfind s1.obj_file '/'
  let w := env.work_it job build_path [] file_name mem_limit
  (Res.ret w, s1.emit (Event.work_it build_path [] file_name w.ret))

/-- Sandbox preparation and the compiler run (serve.cpp 344-415).  The result
holds `ret`, `rmsg` and `job_stat` as they are at line 416: when the allocator
fails, `ret` is its error code and `rmsg`, `job_stat` are untouched. -/
def hc_compile (env : Env) (job : CompileJob) (mem_limit : Nat) (s : State) :
    Res WorkItResult × State :=
  let job_stat : List Nat := List.replicate 8 0
  let rmsg := env.rmsg_init
  let pfx_output : Str := (lit "icecc-") ++ format_u job.jobID
  if job.dwarfFissionEnabled then
    let a := env.dcc_make_tmpdir
    let s1 := s.emit (Event.make_tmpdir a.1 a.2)
    if a.1 = 0 then hc_fission env job mem_limit a.2 s1
    else (Res.ret { ret := a.1, rmsg := rmsg, job_stat := job_stat }, s1)
  else
    let a := env.dcc_make_tmpnam pfx_output (lit ".o")
    let s1 := s.emit (Event.make_tmpnam pfx_output (lit ".o") a.1 a.2)
    if a.1 = 0 then hc_plain env job mem_limit a.2 s1
    else (Res.ret { ret := a.1, rmsg := rmsg, job_stat := job_stat }, s1)

/-- Interpretation of the runner result `ret` (serve.cpp 417-428): gives the
result message, or throws `ret`. -/
def hc_interpret (env : Env) (w : WorkItResult) (s : State) :
    Res CompileResult × State :=
  if w.ret ≠ 0 then
    if w.ret = env.EXIT_OUT_OF_MEMORY then
      (Res.ret { w.rmsg with was_out_of_memory := true }, s)
    else if w.ret = env.EXIT_IO_ERROR then
      (Res.ret { w.rmsg with was_out_of_memory := true }, s)
    else (Res.throw w.ret, s)
  else (Res.ret w.rmsg, s)

/-- Reporting (serve.cpp 430-450): the two `_stat` calls, the result message,
the statistics written to the notification pipe `out_fd`, and its close. -/
def hc_report (env : Env) (job_stat : List Nat) (rmsg : CompileResult) (s : State) :
    Res CompileResult × State :=
  let st1 := env.stat s.obj_file
  let s1 := s.emit (Event.stat s.obj_file st1)
  let job_stat1 :=
    match st1 with
    | some size => add_stat job_stat env.out_uncompressed size
    | none => job_stat
  let st2 := env.stat s.dwo_file
  let s2 := s1.emit (Event.stat s.dwo_file st2)
  let job_stat2 :=
    match st2 with
    | some size => add_stat job_stat1 env.out_uncompressed size
    | none => job_stat1
  let rmsg2 : CompileResult := { rmsg with have_dwo_file := st2.isSome }
  let m := send_msg env
    (Msg.CompileResultMsg rmsg2.status rmsg2.was_out_of_memory rmsg2.have_dwo_file) s2.trace
  let s3 := { s2 with trace := m.2 }
  if m.1 = false then (Res.throw env.EXIT_DISTCC_FAILED, s3)
  else (Res.ret rmsg2, (s3.emit (Event.pipe_write job_stat2)).emit Event.pipe_close)

/-- The call `write_output_file(file, client)` on the trace of a state. -/
def State.write_output_file (s : State) (env : Env) (file : Str) (fuel : Nat) :
    Res Unit × State :=
  let r := Icecream.write_output_file env file fuel s.trace
  (r.1, { s with trace := r.2 })

/-- Streaming and the final `throw` (serve.cpp 452-459). -/
def hc_stream (env : Env) (fuel : Nat) (rmsg : CompileResult) (s : State) :
    Res Unit × State :=
  let streamed : Res Unit × State :=
    if rmsg.status = 0 then
      andThen (s.write_output_file env s.obj_file fuel) fun _ s1 =>
        if rmsg.have_dwo_file then s1.write_output_file env s1.dwo_file fuel
        else (Res.ret (), s1)
    else (Res.ret (), s)
  andThen streamed fun _ s2 => (Res.throw rmsg.status, s2)

/-- The `try` block of `handle_connection` (serve.cpp 318-459), entered with
empty `tmp_path`, `obj_file` and `dwo_file`. -/
def handle_connection_try (env : Env) (basedir : Str) (job : CompileJob)
    (mem_limit : Nat) (fuel : Nat) : Res Unit × State :=
  let s0 : State := { tmp_path := [], obj_file := [], dwo_file := [], trace := [] }
  andThen (hc_validate env basedir job s0) fun _ s1 =>
  andThen (hc_compile env job mem_limit s1) fun w s2 =>
  andThen (hc_interpret env w s2) fun rmsg s3 =>
  andThen (hc_report env w.job_stat rmsg s3) fun rmsg2 s4 =>
  hc_stream env fuel rmsg2 s4

/-- The handler `catch (const myexception& e)` of `handle_connection`
(serve.cpp 461-482): the events it adds. -/
def hc_handler (s : State) : List Event :=
  [Event.delete_client]
    ++ (if s.obj_file.isEmpty then [] else [Event.unlink s.obj_file])
    ++ (if s.dwo_file.isEmpty then [] else [Event.unlink s.dwo_file])
    ++ (if s.tmp_path.isEmpty then [] else [Event.rmpath s.tmp_path])
    ++ [Event.delete_job]

/-- How the child ends. -/
inductive Outcome where
  /-- The call `_exit(code)` was reached. -/
  | exited (code : Int)
  /-- The fuel ran out inside a streaming loop. -/
  | running
  deriving DecidableEq, Repr

/-- The child half of `handle_connection` from line 315 on (`pid == 0`, after
the pipe and priority set-up): the `try` block, the handler, and `_exit`.
When the `try` block returns without an exception `exit_code` is still 0 and
the handler is skipped. -/
def handle_connection_child (env : Env) (basedir : Str) (job : CompileJob)
    (mem_limit : Nat) (fuel : Nat) : Outcome × List Event :=
  let r := handle_connection_try env basedir job mem_limit fuel
  match r.1 with
  | Res.throw code =>
    (Outcome.exited code, r.2.trace ++ hc_handler r.2 ++ [Event.sys_exit code])
  | Res.ret _ => (Outcome.exited 0, r.2.trace ++ [Event.sys_exit 0])
  | Res.stuck => (Outcome.running, r.2.trace)

/-! ## Vocabulary of the statements -/

/-- The messages of all `send_msg` calls of a trace, failed ones included. -/
def sent : List Event → List Msg
  | [] => []
  | Event.send m _ :: tr => m :: sent tr
  | _ :: tr => sent tr

/-- The messages of the `send_msg` calls of a trace that succeeded. -/
def delivered : List Event → List Msg
  | [] => []
  | Event.send m true :: tr => m :: delivered tr
  | _ :: tr => delivered tr

/-- Bytes of an `N`-byte file not yet read before the `i`-th `read` on `fd`. -/
def remaining (env : Env) (fd : Int) (N : Nat) : Nat → Int
  | 0 => N
  | i + 1 => remaining env fd N i - (env.read fd i).bytes

/-- An environment for an empty file: `open` gives descriptor 5, the first
`read` gives 0, every send succeeds. -/
def envEmptyFile : Env :=
  { EXIT_DISTCC_FAILED := 100, EXIT_OUT_OF_MEMORY := 105, EXIT_IO_ERROR := 107,
    is_protocol_22 := true, send_ok := fun _ => true,
    access_X_OK := fun _ => 0, access_W_OK := fun _ => 0,
    temp_dir_path := (lit "/tmp"),
    dcc_make_tmpdir := (0, (lit "/tmp/icecc-ab12cd")),
    dcc_make_tmpnam := fun p s => (0, (lit "/tmp/") ++ p ++ (lit "_0000abcd") ++ s),
    mkpath := fun _ => true, get_canonicalized_path := id,
    get_relative_path := fun a _ => a,
    rmsg_init := { status := 0, was_out_of_memory := false, have_dwo_file := false },
    work_it := fun _ _ _ _ _ =>
      { ret := 0,
        rmsg := { status := 0, was_out_of_memory := false, have_dwo_file := false },
        job_stat := List.replicate 8 0 },
    out_uncompressed := 3,
    stat := fun p => if p.isEmpty then none else some 0,
    sys_open := fun p => if p.isEmpty then -1 else 5,
    read := fun _ _ => { bytes := 0, errno := 0 } }

/-- An `N`-byte file behind every descriptor, read in full blocks; everything
else as in `envEmptyFile`. -/
def envFile (N : Nat) : Env :=
  { envEmptyFile with
    read := fun _ i => { bytes := ((min (N - buffer_size * i) buffer_size : Nat) : Int),
                         errno := 0 } }

/-- The event lists one run of the loop of `write_output_file` on descriptor
`fd` can add to the trace, with the way the loop is left. -/
inductive LoopRun (env : Env) (fd : Int) : Res Unit → List Event → Prop where
  | stuck : LoopRun env fd Res.stuck []
  | eintr (b errno : Int) (r : Res Unit) (L : List Event) :
      b < 0 → errno = EINTR → LoopRun env fd r L →
      LoopRun env fd r (Event.sys_read fd b errno :: L)
  | chunk (b errno : Int) (r : Res Unit) (L : List Event) :
      0 < b → LoopRun env fd r L →
      LoopRun env fd r
        (Event.sys_read fd b errno :: Event.send (Msg.FileChunkMsg b.toNat) true :: L)
  | eof_ok (errno : Int) :
      LoopRun env fd (Res.ret ()) [Event.sys_read fd 0 errno, Event.send Msg.EndMsg true]
  | eof_fail (errno : Int) :
      LoopRun env fd (Res.throw env.EXIT_DISTCC_FAILED)
        [Event.sys_read fd 0 errno, Event.send Msg.EndMsg false]
  | chunk_fail (b errno : Int) :
      0 < b →
      LoopRun env fd (Res.throw env.EXIT_DISTCC_FAILED)
        [Event.sys_read fd b errno, Event.send (Msg.FileChunkMsg b.toNat) false]
  | read_fail (b errno : Int) :
      b < 0 → errno ≠ EINTR →
      LoopRun env fd (Res.throw env.EXIT_DISTCC_FAILED) [Event.sys_read fd b errno]

/-- The event lists one call `write_output_file(file, client)` can add to the
trace, with the way the call ends. -/
inductive StreamRun (env : Env) (file : Str) : Res Unit → List Event → Prop where
  | open_failed (L : List Event) :
      env.sys_open file = -1 →
      (L = [] ∨ ∃ ok, L = [Event.send
        (Msg.StatusTextMsg (lit "open of object file failed")) ok]) →
      StreamRun env file (Res.throw env.EXIT_DISTCC_FAILED)
        (Event.sys_open file (-1) :: L)
  | threw (L : List Event) :
      env.sys_open file ≠ -1 →
      LoopRun env (env.sys_open file) (Res.throw env.EXIT_DISTCC_FAILED) L →
      StreamRun env file (Res.throw env.EXIT_DISTCC_FAILED)
        (Event.sys_open file (env.sys_open file) :: L
          ++ [Event.sys_close (env.sys_open file)])
  | returned (L : List Event) :
      env.sys_open file ≠ -1 →
      LoopRun env (env.sys_open file) (Res.ret ()) L →
      StreamRun env file (Res.ret ()) (Event.sys_open file (env.sys_open file) :: L)
  | stuck (L : List Event) :
      env.sys_open file ≠ -1 →
      LoopRun env (env.sys_open file) Res.stuck L →
      StreamRun env file Res.stuck (Event.sys_open file (env.sys_open file) :: L)

/-- Events of environment validation, sandbox preparation and the compiler
run: the probes, the allocator calls, `mkpath`, `work_it`, and diagnostics. -/
def Event.isSetup : Event → Bool
  | Event.access_X _ _ => true
  | Event.access_W _ _ => true
  | Event.chdir_to_environment _ => true
  | Event.make_tmpdir _ _ => true
  | Event.make_tmpnam _ _ _ _ => true
  | Event.mkpath _ _ => true
  | Event.work_it _ _ _ _ => true
  | Event.send (Msg.StatusTextMsg _) _ => true
  | _ => false

/-- A `FileChunkMsg` or an `EndMsg`. -/
def Msg.isArtifact : Msg → Bool
  | Msg.FileChunkMsg _ => true
  | Msg.EndMsg => true
  | _ => false

/-- A `send_msg` of a `FileChunkMsg` or an `EndMsg`, successful or not. -/
def Event.isArtifact : Event → Bool
  | Event.send m _ => m.isArtifact
  | _ => false

/-- A `send_msg` of a `CompileResultMsg`, successful or not. -/
def Event.isResult : Event → Bool
  | Event.send (Msg.CompileResultMsg _ _ _) _ => true
  | _ => false

/-- Any `send_msg`. -/
def Event.isSend : Event → Bool
  | Event.send _ _ => true
  | _ => false

/-- A `send_msg` of a `FileChunkMsg` or an `EndMsg` that failed. -/
def Event.isFailedArtifact : Event → Bool
  | Event.send m false => m.isArtifact
  | _ => false

/-- The write of the statistics array to the notification pipe. -/
def Event.isPipeWrite : Event → Bool
  | Event.pipe_write _ => true
  | _ => false

/-- An `open` of a file to stream. -/
def Event.isOpen : Event → Bool
  | Event.sys_open _ _ => true
  | _ => false

/-- An event of the top-level handler. -/
def Event.isCleanup : Event → Bool
  | Event.delete_client => true
  | Event.unlink _ => true
  | Event.rmpath _ => true
  | Event.delete_job => true
  | _ => false

/-- A failure inside `write_output_file`: a failed `open`, a failed `read`
that is not an interrupted call, or a failed send. -/
def Event.isStreamError : Event → Bool
  | Event.sys_open _ fd => fd == -1
  | Event.sys_read _ bytes errno => decide (bytes < 0) && !(errno == EINTR)
  | Event.send m false => m.isArtifact
  | _ => false

/-- The files handed to `open`, in order. -/
def opened : List Event → List Str
  | [] => []
  | Event.sys_open file _ :: tr => file :: opened tr
  | _ :: tr => opened tr

/-- The statement `throw myexception(code)` after a piece that returned. -/
def thenThrow (r : Res Unit) (code : Int) : Res Unit :=
  match r with
  | Res.ret _ => Res.throw code
  | Res.throw c => Res.throw c
  | Res.stuck => Res.stuck

/-- The result message as it is sent at line 440 when the runner result is
`w` and the locals are those of `s`. -/
def reported_rmsg (env : Env) (s : State) (w : WorkItResult) : CompileResult :=
  { status := w.rmsg.status,
    was_out_of_memory := if w.ret = 0 then w.rmsg.was_out_of_memory else true,
    have_dwo_file := (env.stat s.dwo_file).isSome }

/-- The statistics array as it is written at line 447. -/
def reported_stat (env : Env) (s : State) (w : WorkItResult) : List Nat :=
  let js1 := match env.stat s.obj_file with
    | some size => add_stat w.job_stat env.out_uncompressed size
    | none => w.job_stat
  match env.stat s.dwo_file with
  | some size => add_stat js1 env.out_uncompressed size
  | none => js1

/-- The two `_stat` calls and the send of the result message. -/
def report_events (env : Env) (s : State) (w : WorkItResult) (ok : Bool) : List Event :=
  [Event.stat s.obj_file (env.stat s.obj_file),
   Event.stat s.dwo_file (env.stat s.dwo_file),
   Event.send (Msg.CompileResultMsg (reported_rmsg env s w).status
     (reported_rmsg env s w).was_out_of_memory (reported_rmsg env s w).have_dwo_file) ok]

/-- The write of the statistics to the notification pipe and its close. -/
def pipe_events (env : Env) (s : State) (w : WorkItResult) : List Event :=
  [Event.pipe_write (reported_stat env s w), Event.pipe_close]

/-- The runner result is one the worker reports: 0, or one of the two codes
folded into `was_out_of_memory`. -/
def Soft (env : Env) (w : WorkItResult) : Prop :=
  w.ret = 0 ∨ w.ret = env.EXIT_OUT_OF_MEMORY ∨ w.ret = env.EXIT_IO_ERROR

/-- The event lists lines 417-459 can add to the trace when they are entered
with runner result `w` and locals `s`, with the way the `try` block ends. -/
inductive FinishRun (env : Env) (s : State) (w : WorkItResult) :
    Res Unit → List Event → Prop where
  | hard_failure : ¬ Soft env w → FinishRun env s w (Res.throw w.ret) []
  | result_failed : Soft env w →
      FinishRun env s w (Res.throw env.EXIT_DISTCC_FAILED) (report_events env s w false)
  | not_streamed : Soft env w → w.rmsg.status ≠ 0 →
      FinishRun env s w (Res.throw w.rmsg.status)
        (report_events env s w true ++ pipe_events env s w)
  | primary (r1 : Res Unit) (S1 : List Event) : Soft env w → w.rmsg.status = 0 →
      StreamRun env s.obj_file r1 S1 →
      (r1 = Res.ret () → (env.stat s.dwo_file).isSome = false) →
      FinishRun env s w (thenThrow r1 0)
        (report_events env s w true ++ pipe_events env s w ++ S1)
  | both (S1 : List Event) (r2 : Res Unit) (S2 : List Event) : Soft env w →
      w.rmsg.status = 0 → (env.stat s.dwo_file).isSome = true →
      StreamRun env s.obj_file (Res.ret ()) S1 → StreamRun env s.dwo_file r2 S2 →
      FinishRun env s w (thenThrow r2 0)
        (report_events env s w true ++ pipe_events env s w ++ S1 ++ S2)

/-- Lines 318-415 of the `try` block: validation, sandbox preparation and
the compiler run, from the initial locals. -/
def hc_setup (env : Env) (basedir : Str) (job : CompileJob) (mem_limit : Nat) :
    Res WorkItResult × State :=
  andThen (hc_validate env basedir job
    { tmp_path := [], obj_file := [], dwo_file := [], trace := [] })
    fun _ s1 => hc_compile env job mem_limit s1

/-- Lines 417-459 of the `try` block, entered with runner result `w`. -/
def hc_finish (env : Env) (fuel : Nat) (w : WorkItResult) (s : State) : Res Unit × State :=
  andThen (hc_interpret env w s) fun rmsg s3 =>
  andThen (hc_report env w.job_stat rmsg s3) fun rmsg2 s4 =>
  hc_stream env fuel rmsg2 s4

/-- Events of environment validation: the two `access` probes, the change
into the environment, and diagnostics. -/
def Event.isProbe : Event → Bool
  | Event.access_X _ _ => true
  | Event.access_W _ _ => true
  | Event.chdir_to_environment _ => true
  | Event.send (Msg.StatusTextMsg _) _ => true
  | _ => false

/-- What holds of the outcome `r` of lines 318-415: the trace has setup events
only, the stage is not stuck, and the locals agree with the allocator calls. -/
structure SetupFacts (r : Res WorkItResult × State) : Prop where
  setup : ∀ e ∈ r.2.trace, e.isSetup = true
  not_stuck : r.1 ≠ Res.stuck
  tmp_path_of : ∀ name, Event.make_tmpdir 0 name ∈ r.2.trace → r.2.tmp_path = name
  made_tmp_path : r.2.tmp_path ≠ [] → Event.make_tmpdir 0 r.2.tmp_path ∈ r.2.trace
  named : ∀ w, r.1 = Res.ret w → (∃ name, Event.make_tmpdir 0 name ∈ r.2.trace) →
    r.2.obj_file ≠ [] ∧ r.2.dwo_file ≠ []
  obj_file_of : ∀ p sfx name, Event.make_tmpnam p sfx 0 name ∈ r.2.trace →
    r.2.obj_file = name

/-- The events after the `try` block: the handler and `_exit` when an
exception arrived, `_exit(0)` alone after a plain return. -/
def closing (s : State) (r : Res Unit) : List Event :=
  match r with
  | Res.throw code => hc_handler s ++ [Event.sys_exit code]
  | Res.ret _ => [Event.sys_exit 0]
  | Res.stuck => []

/-- The way the child ends after the `try` block ended with `r`. -/
def outcomeOf (r : Res Unit) : Outcome :=
  match r with
  | Res.throw code => Outcome.exited code
  | Res.ret _ => Outcome.exited 0
  | Res.stuck => Outcome.running

/-- An event of the streaming loop: a `read`, or a send of a `FileChunkMsg`
or an `EndMsg`. -/
def Event.isLoop : Event → Bool
  | Event.sys_read _ _ _ => true
  | Event.send m _ => m.isArtifact
  | _ => false

/-- An event of `write_output_file`: those of its loop, its `open`, its
`close` and its diagnostic. -/
def Event.isStream : Event → Bool
  | Event.sys_open _ _ => true
  | Event.sys_close _ => true
  | Event.send (Msg.StatusTextMsg _) _ => true
  | e => e.isLoop

/-- An event of reporting: a `_stat`, the send of the result message, the
write to the notification pipe or its close. -/
def Event.isReport : Event → Bool
  | Event.stat _ _ => true
  | Event.send (Msg.CompileResultMsg _ _ _) _ => true
  | Event.pipe_write _ => true
  | Event.pipe_close => true
  | _ => false

/-- An event after the `try` block: one of the handler, or `_exit`. -/
def Event.isClosing : Event → Bool
  | Event.sys_exit _ => true
  | e => e.isCleanup

/-- A job without DWARF fission for the environment `abc`. -/
def jobPlain : CompileJob :=
  { jobID := 42, targetPlatform := lit "x86_64", environmentVersion := lit "abc",
    workingDirectory := lit "/home/u/proj", outputFile := lit "out/foo.o",
    dwarfFissionEnabled := false }

/-- The same job with DWARF fission. -/
def jobFission : CompileJob := { jobPlain with dwarfFissionEnabled := true }

/-- The result of a runner that fails with code 3. -/
def wHard : WorkItResult :=
  { ret := 3,
    rmsg := { status := 0, was_out_of_memory := false, have_dwo_file := false },
    job_stat := List.replicate 8 0 }

/-- As `envEmptyFile`, with a runner that fails with code 3. -/
def envHard : Env := { envEmptyFile with work_it := fun _ _ _ _ _ => wHard }

/-- The `k`-th `read` on `fd` ends the loop of `write_output_file`: it reports
the end of the file, or an error other than an interrupted call. -/
def ReadEnds (env : Env) (fd : Int) (k : Nat) : Prop :=
  (env.read fd k).bytes = 0 ∨ ((env.read fd k).bytes < 0 ∧ (env.read fd k).errno ≠ EINTR)

/-- A 250000-byte file and a client that disconnects after two messages: the
third `send_msg` and all later ones fail. -/
def envDisconnect : Env := { envFile 250000 with send_ok := fun n => decide (n < 2) }

/-- The trace of the fission job with the client that disconnects. -/
def traceDisconnect : List Event :=
  (handle_connection_child envDisconnect (lit "/var/icecc") jobFission 0 5).2

/-- As `envEmptyFile`, for a client older than protocol 22. -/
def envOldClient : Env := { envEmptyFile with is_protocol_22 := false }

/-- A job with an empty environment version. -/
def jobNoEnvironment : CompileJob := { jobPlain with environmentVersion := [] }

/-- Modelled from the spec: `rmpath` (of `file_util`, not among the sources)
removes a directory tree (the TempRoot is "destroyed (recursively removed)"),
and a `dcc_make_tmpdir` that returns 0 has created one.  The step of
`liveTempRoots` for one event. -/
def tempRootsStep (live : List Str) : Event → List Str
  | Event.make_tmpdir ret name => if ret = 0 then name :: live else live
  | Event.rmpath path => live.filter (fun p => decide (p ≠ path))
  | _ => live

/-- The temp roots made during a trace that still exist at its end. -/
def liveTempRoots (tr : List Event) : List Str := tr.foldl tempRootsStep []

/-- Modelled from the spec: the splitting step of `get_canonicalized_path`
(`file_util`, not among the sources): the segments of a path between its
separators, "trailing separators normalized", so that empty segments are
dropped.  `cur` is the segment being read. -/
def segmentsAux (cur : Str) : Str → List Str
  | [] => if cur.isEmpty then [] else [cur]
  | c :: cs =>
    if c = '/' then
      if cur.isEmpty then segmentsAux [] cs else cur :: segmentsAux [] cs
    else segmentsAux (cur ++ [c]) cs

/-- Modelled from the spec: the segments of a path (see `segmentsAux`). -/
def segments (path : Str) : List Str := segmentsAux [] path

/-- Modelled from the spec: the resolution step of `get_canonicalized_path`,
"`.`/`..` resolved": a `.` is dropped, a `..` removes the segment before it
and is dropped at the root ("reject/clamp").  `stack` holds the segments kept
so far. -/
def resolve (stack : List Str) : List Str → List Str
  | [] => stack
  | seg :: rest =>
    if seg = ['.', '.'] then resolve stack.dropLast rest
    else if seg = ['.'] then resolve stack rest
    else resolve (stack ++ [seg]) rest

/-- Modelled from the spec: the path with the given segments below the root. -/
def join : List Str → Str
  | [] => []
  | seg :: rest => '/' :: seg ++ join rest

/-- Modelled from the spec: `get_canonicalized_path` of `file_util` (not among
the sources), on an absolute path: "`.`/`..` resolved, trailing separators
normalized", and "canonicalizing an already-canonical path returns it
unchanged".  The root is `/`.  The spec says nothing of a path that is not
absolute; it is left as it is. -/
def canonicalize (path : Str) : Str :=
  if path.head? = some '/' then
    match resolve [] (segments path) with
    | [] => ['/']
    | segs => join segs
  else path

/-- As `envEmptyFile`, with the canonicalization modelled from the spec. -/
def envCanon : Env := { envEmptyFile with get_canonicalized_path := canonicalize }

/-- A DWARF fission job whose working directory climbs above the root. -/
def jobEscape : CompileJob :=
  { jobFission with workingDirectory := lit "/a/../../etc", outputFile := lit "foo.o" }

/-- A DWARF fission job whose output file has no extension, in a working
directory whose name has a dot. -/
def jobNoExtension : CompileJob :=
  { jobFission with workingDirectory := lit "/home/u/proj.d", outputFile := lit "foo" }

/-- A segment that canonicalization keeps as it is: not empty, without a
separator, and neither `.` nor `..`. -/
def OrdinarySegment (seg : Str) : Prop :=
  seg ≠ [] ∧ '/' ∉ seg ∧ seg ≠ ['.'] ∧ seg ≠ ['.', '.']

/-- A DWARF fission job whose output file is absolute, in a directory that is
not the root. -/
def jobAbsolute : CompileJob := { jobFission with outputFile := lit "/home/u/proj/out/foo.o" }

/-! ## `tempfile.c` -/

/-- Value of `EACCES` in `errno.h`. -/
def EACCES : Int := 13

/-- Value of `EEXIST` in `errno.h`. -/
def EEXIST : Int := 17

/-- Value of `EISDIR` in `errno.h`. -/
def EISDIR : Int := 21

/-- Value of `ELOOP` in `errno.h`. -/
def ELOOP : Int := 40

/-- Value of `EINVAL` in `errno.h`. -/
def EINVAL : Int := 22

/-- Value of `ENOMEM` in `errno.h`. -/
def ENOMEM : Int := 12

/-- What a call of `mkdtemp(template)` leaves behind: whether it returned a
pointer (not `NULL`), `errno`, and the contents of the buffer `template`. -/
structure MkdtempResult where
  returned : Bool
  errno : Int
  template : Str
  deriving DecidableEq, Repr

/-- Everything outside `tempfile.c` that the allocators consult, over a state
`σ` of the world outside the process (the filesystem).  The two exit codes
come from `exitcode.h`, which is not among the sources, so they are
parameters. -/
structure TempSys (σ : Type) where
  EXIT_OUT_OF_MEMORY : Int
  EXIT_IO_ERROR : Int
  /-- Width of `unsigned long` in bits. -/
  ulong_bits : Nat
  /-- Contents of `temp_dir_path` once it is prepared. -/
  temp_dir_path : Str
  /-- Whether `malloc(size)` returns a pointer. -/
  malloc : Nat → Bool
  /-- Value of `getpid()`. -/
  getpid : Nat
  /-- Value of `tv.tv_sec` after `gettimeofday`. -/
  tv_sec : Nat
  /-- Value of `tv.tv_usec` after `gettimeofday`. -/
  tv_usec : Nat
  /-- Whether `snprintf` returns -1 when it is to write the given text. -/
  snprintf_fails : Str → Bool
  /-- The call `open(name, O_WRONLY | O_CREAT | O_EXCL, 0600)`: descriptor and
  `errno`, and the world after it. -/
  sys_creat : σ → Str → (Int × Int) × σ
  /-- The call `close(fd)`. -/
  sys_close : σ → Int → Int × σ
  /-- The call `mkdtemp(template)`. -/
  mkdtemp : σ → Str → MkdtempResult × σ
  /-- The call `mkdir(name)`: return value and `errno`, and the world after it. -/
  mkdir : σ → Str → (Int × Int) × σ

/-- One call of the creation function: the name it was given, the descriptor
it returned and `errno`. -/
structure Attempt where
  name : Str
  fd : Int
  errno : Int
  deriving DecidableEq, Repr

/-- What an allocator leaves behind: its return value (`none` when the model
ran out of fuel), the value written to `*name_ret` (`none` when it was not
written), the calls of the creation function in order, and the world. -/
structure TmpResult (σ α : Type) where
  ret : Option Int
  name_ret : Option Str
  tried : List α
  world : σ

/-- The output of `printf("%x", v)`, padded with `'0'` to `width` characters:
the conversions `%08lx` and `%06x`. -/
def format_0x (width v : Nat) : Str :=
  List.replicate (width - (Nat.toDigits 16 v).length) '0' ++ Nat.toDigits 16 v

/-- The cases `EACCES`, `EEXIST`, `EISDIR`, `ELOOP` of the `switch (errno)`
(tempfile.c 176-184, 228-234): "try again". -/
def try_again (errno : Int) : Bool :=
  errno == EACCES || errno == EEXIST || errno == EISDIR || errno == ELOOP

/-- The initial value of `random_bits` (tempfile.c 134-141, 78-85). -/
def random_bits_init {σ : Type} (sys : TempSys σ) : Nat :=
  (((sys.getpid % 2 ^ sys.ulong_bits) <<< 16) % 2 ^ sys.ulong_bits
    ^^^ ((sys.tv_usec <<< 16) % 2 ^ sys.ulong_bits))
    ^^^ (sys.tv_sec % 2 ^ sys.ulong_bits)

/-- The value of `tmpname_length` in `dcc_make_tmpnam` (tempfile.c 127). -/
def tmpname_length {σ : Type} (sys : TempSys σ) (pfx sfx : Str) : Nat :=
  sys.temp_dir_path.length + 1 + pfx.length + 1 + 8 + sfx.length + 1

/-- The text of the format `"%s/%s_%08lx%s"` (tempfile.c 148-152) before it is
cut to the size of the buffer. -/
def tmpname_text {σ : Type} (sys : TempSys σ) (pfx sfx : Str) (relative : Int)
    (random_bits : Nat) : Str :=
  (if relative ≠ 0 then sys.temp_dir_path.drop 1 else sys.temp_dir_path)
    ++ '/' :: pfx ++ '_' :: format_0x 8 (random_bits &&& 0xffffffff) ++ sfx

/-- The contents of `tmpname` after the `snprintf` of tempfile.c 148: at most
`tmpname_length - 1` characters of the text. -/
def tmpname_of {σ : Type} (sys : TempSys σ) (pfx sfx : Str) (relative : Int)
    (random_bits : Nat) : Str :=
  (tmpname_text sys pfx sfx relative random_bits).take (tmpname_length sys pfx sfx - 1)

/-- The loop of `dcc_make_tmpnam` (tempfile.c 147-196) from the locals `tries`
and `random_bits`; `tried` holds the calls of `open` made so far.  `fuel`
bounds the number of rounds of the model. -/
def dcc_make_tmpnam_loop {σ : Type} (sys : TempSys σ) (pfx sfx : Str) (relative : Int) :
    Nat → Nat → Nat → σ → List Attempt → TmpResult σ Attempt
  | 0, _, _, w, tried => { ret := none, name_ret := none, tried := tried, world := w }
  | fuel + 1, tries, random_bits, w, tried =>
    let tmpname := tmpname_of sys pfx sfx relative random_bits
    if sys.snprintf_fails (tmpname_text sys pfx sfx relative random_bits) then
      { ret := some sys.EXIT_OUT_OF_MEMORY, name_ret := none, tried := tried, world := w }
    else
      let r := sys.sys_creat w tmpname
      let fd := r.1.1
      let errno := r.1.2
      let tried1 := tried ++ [{ name := tmpname, fd := fd, errno := errno }]
      if fd = -1 then
        let tries1 := (tries + 1) % 2 ^ sys.ulong_bits
        if tries1 > 1000000 then
          { ret := some sys.EXIT_IO_ERROR, name_ret := none, tried := tried1, world := r.2 }
        else if try_again errno then
          dcc_make_tmpnam_loop sys pfx sfx relative fuel tries1
            ((random_bits + 7777) % 2 ^ sys.ulong_bits) r.2 tried1
        else
          { ret := some sys.EXIT_IO_ERROR, name_ret := none, tried := tried1, world := r.2 }
      else
        let c := sys.sys_close r.2 fd
        if c.1 = -1 then
          { ret := some sys.EXIT_IO_ERROR, name_ret := none, tried := tried1, world := c.2 }
        else
          { ret := some 0, name_ret := some tmpname, tried := tried1, world := c.2 }

/-- The function `dcc_make_tmpnam(prefix, suffix, name_ret, relative)`
(tempfile.c 117-201) in the world `w`. -/
def dcc_make_tmpnam {σ : Type} (sys : TempSys σ) (fuel : Nat) (pfx sfx : Str)
    (relative : Int) (w : σ) : TmpResult σ Attempt :=
  if sys.malloc (tmpname_length sys pfx sfx) = false then
    { ret := some sys.EXIT_OUT_OF_MEMORY, name_ret := none, tried := [], world := w }
  else
    dcc_make_tmpnam_loop sys pfx sfx relative fuel 0 (random_bits_init sys) w []

/-- The loop of `dcc_make_tmpdir` (tempfile.c 221-241) from the local `tries`
and the contents of `tmpname`; `tried` holds the calls of `mkdtemp` made so
far, each with the template it was given. -/
def dcc_make_tmpdir_loop {σ : Type} (sys : TempSys σ) :
    Nat → Nat → Str → σ → List (Str × MkdtempResult) → TmpResult σ (Str × MkdtempResult)
  | 0, _, _, w, tried => { ret := none, name_ret := none, tried := tried, world := w }
  | fuel + 1, tries, tmpname, w, tried =>
    let r := sys.mkdtemp w tmpname
    let tried1 := tried ++ [(tmpname, r.1)]
    if r.1.returned = false then
      let tries1 := (tries + 1) % 2 ^ sys.ulong_bits
      if tries1 > 1000000 then
        { ret := some sys.EXIT_IO_ERROR, name_ret := none, tried := tried1, world := r.2 }
      else if try_again r.1.errno then
        dcc_make_tmpdir_loop sys fuel tries1 r.1.template r.2 tried1
      else
        { ret := some sys.EXIT_IO_ERROR, name_ret := none, tried := tried1, world := r.2 }
    else
      { ret := some 0, name_ret := some r.1.template, tried := tried1, world := r.2 }

/-- The contents of `tmpname` after the `snprintf` of `dcc_make_tmpdir`
(tempfile.c 208-216): the format `"%s/%s"` of `temp_dir_path` and the template
`"icecc-XXXXXX"`, cut to the size of the buffer. -/
def tmpdir_template {σ : Type} (sys : TempSys σ) : Str :=
  (sys.temp_dir_path ++ '/' :: lit "icecc-XXXXXX").take
    (sys.temp_dir_path.length + 1 + (lit "icecc-XXXXXX").length + 1 - 1)

/-- The function `dcc_make_tmpdir(name_ret)` (tempfile.c 203-246) in the world
`w`. -/
def dcc_make_tmpdir {σ : Type} (sys : TempSys σ) (fuel : Nat) (w : σ) :
    TmpResult σ (Str × MkdtempResult) :=
  if sys.malloc (sys.temp_dir_path.length + 1 + (lit "icecc-XXXXXX").length + 1) = false then
    { ret := some sys.EXIT_OUT_OF_MEMORY, name_ret := none, tried := [], world := w }
  else if sys.snprintf_fails (sys.temp_dir_path ++ '/' :: lit "icecc-XXXXXX") then
    { ret := some sys.EXIT_OUT_OF_MEMORY, name_ret := none, tried := [], world := w }
  else
    dcc_make_tmpdir_loop sys fuel 0 (tmpdir_template sys) w []

/-- The bundled `mkdtemp(template)` of the Windows build (tempfile.c 62-98).
`len` is an `unsigned int`, and so is the index of the loop, which starts at
`len - 7`.  The `snprintf` of line 88 has size 6: it writes five characters of
the six digits and the terminator, at `buf + len - 7`.  For a template shorter
than seven characters that address is before the buffer; the result is then
`none`. -/
def mkdtemp_fallback {σ : Type} (sys : TempSys σ) (w : σ) (template : Str) :
    Option (MkdtempResult × σ) :=
  let len := template.length % 2 ^ 32
  let start := (len + 2 ^ 32 - 7) % 2 ^ 32
  if (List.range' start (len - start)).all (fun i => template.get? i == some 'X') = false
  then
    some ({ returned := false, errno := EINVAL, template := template }, w)
  else if sys.malloc (len + 1) = false then
    some ({ returned := false, errno := ENOMEM, template := template }, w)
  else if len < 7 then none
  else
    let random_bits := random_bits_init sys
    let buf := template.take (len - 7)
      ++ (format_0x 6 ((random_bits &&& 0xFFFFFF) % 2 ^ 32)).take 5
    let r := sys.mkdir w buf
    if r.1.1 < 0 then
      some ({ returned := false, errno := r.1.2, template := template }, r.2)
    else
      some ({ returned := true, errno := r.1.2, template := buf }, r.2)

/-- The call `mkdtemp(template)` in the Windows build: the bundled fallback (a
template shorter than seven characters, which `dcc_make_tmpdir` never builds,
is left to the `mkdtemp` of `sys`). -/
def windows_mkdtemp {σ : Type} (sys : TempSys σ) (w : σ) (template : Str) :
    MkdtempResult × σ :=
  (mkdtemp_fallback sys w template).getD (sys.mkdtemp w template)

/-- The Windows build: `mkdtemp` is the bundled fallback. -/
def windows {σ : Type} (sys : TempSys σ) : TempSys σ :=
  { sys with mkdtemp := windows_mkdtemp sys }

/-- A filesystem that is a set of names: an exclusive create fails with
`EEXIST` when the name is there and makes it otherwise; `close` succeeds. -/
def fsSys : TempSys (List Str) :=
  { EXIT_OUT_OF_MEMORY := 105, EXIT_IO_ERROR := 107, ulong_bits := 64,
    temp_dir_path := lit "/tmp",
    malloc := fun _ => true, getpid := 4242, tv_sec := 1700000000, tv_usec := 123456,
    snprintf_fails := fun _ => false,
    sys_creat := fun fs name => if name ∈ fs then ((-1, EEXIST), fs) else ((3, 0), name :: fs),
    sys_close := fun fs _ => (0, fs),
    mkdtemp := fun fs template =>
      if template.take (template.length - 6) ++ lit "ab12cd" ∈ fs then
        ({ returned := false, errno := EEXIST, template := template }, fs)
      else
        ({ returned := true, errno := 0,
           template := template.take (template.length - 6) ++ lit "ab12cd" },
          (template.take (template.length - 6) ++ lit "ab12cd") :: fs),
    mkdir := fun fs name => if name ∈ fs then ((-1, EEXIST), fs) else ((0, 0), name :: fs) }

/-- A world in which every creation call fails because the name exists. -/
def fullSys : TempSys Unit :=
  { EXIT_OUT_OF_MEMORY := 105, EXIT_IO_ERROR := 107, ulong_bits := 64,
    temp_dir_path := lit "/tmp",
    malloc := fun _ => true, getpid := 4242, tv_sec := 1700000000, tv_usec := 123456,
    snprintf_fails := fun _ => false,
    sys_creat := fun _ _ => ((-1, EEXIST), ()),
    sys_close := fun _ _ => (0, ()),
    mkdtemp := fun _ template =>
      ({ returned := false, errno := EEXIST, template := template }, ()),
    mkdir := fun _ _ => ((-1, EEXIST), ()) }

/-- The filesystem as a set of existing names: an exclusive create succeeds if
and only if the name is absent and then adds it; a failed create and `close`
leave the set as it is. -/
def ExclusiveCreate (sys : TempSys (List Str)) : Prop :=
  (∀ fs name, name ∈ fs →
    (sys.sys_creat fs name).1.1 = -1 ∧ (sys.sys_creat fs name).2 = fs)
  ∧ (∀ fs name, name ∉ fs →
    (sys.sys_creat fs name).1.1 ≠ -1 ∧ (sys.sys_creat fs name).2 = name :: fs)
  ∧ ∀ fs fd, (sys.sys_close fs fd).2 = fs

/-- The complete runs of the loop of `dcc_make_tmpnam` from the locals `tries`
and `random_bits` in the world `w`: the calls of `open` it makes, the return
value with the value written to `*name_ret`, and the world it leaves. -/
inductive TmpnamRun {σ : Type} (sys : TempSys σ) (pfx sfx : Str) (relative : Int) :
    Nat → Nat → σ → List Attempt → Int × Option Str → σ → Prop where
  | snprintf_failed (tries random_bits : Nat) (w : σ)
      (hs : sys.snprintf_fails (tmpname_text sys pfx sfx relative random_bits) = true) :
      TmpnamRun sys pfx sfx relative tries random_bits w []
        (sys.EXIT_OUT_OF_MEMORY, none) w
  | created (tries random_bits : Nat) (w : σ)
      (hs : sys.snprintf_fails (tmpname_text sys pfx sfx relative random_bits) = false)
      (hfd : (sys.sys_creat w (tmpname_of sys pfx sfx relative random_bits)).1.1 ≠ -1)
      (hc : (sys.sys_close (sys.sys_creat w (tmpname_of sys pfx sfx relative random_bits)).2
        (sys.sys_creat w (tmpname_of sys pfx sfx relative random_bits)).1.1).1 ≠ -1) :
      TmpnamRun sys pfx sfx relative tries random_bits w
        [{ name := tmpname_of sys pfx sfx relative random_bits,
           fd := (sys.sys_creat w (tmpname_of sys pfx sfx relative random_bits)).1.1,
           errno := (sys.sys_creat w (tmpname_of sys pfx sfx relative random_bits)).1.2 }]
        (0, some (tmpname_of sys pfx sfx relative random_bits))
        (sys.sys_close (sys.sys_creat w (tmpname_of sys pfx sfx relative random_bits)).2
          (sys.sys_creat w (tmpname_of sys pfx sfx relative random_bits)).1.1).2
  | close_failed (tries random_bits : Nat) (w : σ)
      (hs : sys.snprintf_fails (tmpname_text sys pfx sfx relative random_bits) = false)
      (hfd : (sys.sys_creat w (tmpname_of sys pfx sfx relative random_bits)).1.1 ≠ -1)
      (hc : (sys.sys_close (sys.sys_creat w (tmpname_of sys pfx sfx relative random_bits)).2
        (sys.sys_creat w (tmpname_of sys pfx sfx relative random_bits)).1.1).1 = -1) :
      TmpnamRun sys pfx sfx relative tries random_bits w
        [{ name := tmpname_of sys pfx sfx relative random_bits,
           fd := (sys.sys_creat w (tmpname_of sys pfx sfx relative random_bits)).1.1,
           errno := (sys.sys_creat w (tmpname_of sys pfx sfx relative random_bits)).1.2 }]
        (sys.EXIT_IO_ERROR, none)
        (sys.sys_close (sys.sys_creat w (tmpname_of sys pfx sfx relative random_bits)).2
          (sys.sys_creat w (tmpname_of sys pfx sfx relative random_bits)).1.1).2
  | exhausted (tries random_bits : Nat) (w : σ)
      (hs : sys.snprintf_fails (tmpname_text sys pfx sfx relative random_bits) = false)
      (hfd : (sys.sys_creat w (tmpname_of sys pfx sfx relative random_bits)).1.1 = -1)
      (ht : 1000000 < tries + 1) :
      TmpnamRun sys pfx sfx relative tries random_bits w
        [{ name := tmpname_of sys pfx sfx relative random_bits,
           fd := (sys.sys_creat w (tmpname_of sys pfx sfx relative random_bits)).1.1,
           errno := (sys.sys_creat w (tmpname_of sys pfx sfx relative random_bits)).1.2 }]
        (sys.EXIT_IO_ERROR, none)
        (sys.sys_creat w (tmpname_of sys pfx sfx relative random_bits)).2
  | fatal (tries random_bits : Nat) (w : σ)
      (hs : sys.snprintf_fails (tmpname_text sys pfx sfx relative random_bits) = false)
      (hfd : (sys.sys_creat w (tmpname_of sys pfx sfx relative random_bits)).1.1 = -1)
      (ht : tries + 1 ≤ 1000000)
      (he : try_again (sys.sys_creat w (tmpname_of sys pfx sfx relative random_bits)).1.2
        = false) :
      TmpnamRun sys pfx sfx relative tries random_bits w
        [{ name := tmpname_of sys pfx sfx relative random_bits,
           fd := (sys.sys_creat w (tmpname_of sys pfx sfx relative random_bits)).1.1,
           errno := (sys.sys_creat w (tmpname_of sys pfx sfx relative random_bits)).1.2 }]
        (sys.EXIT_IO_ERROR, none)
        (sys.sys_creat w (tmpname_of sys pfx sfx relative random_bits)).2
  | again (tries random_bits : Nat) (w : σ) (atts : List Attempt) (res : Int × Option Str)
      (w2 : σ)
      (hs : sys.snprintf_fails (tmpname_text sys pfx sfx relative random_bits) = false)
      (hfd : (sys.sys_creat w (tmpname_of sys pfx sfx relative random_bits)).1.1 = -1)
      (ht : tries + 1 ≤ 1000000)
      (he : try_again (sys.sys_creat w (tmpname_of sys pfx sfx relative random_bits)).1.2
        = true)
      (next : TmpnamRun sys pfx sfx relative (tries + 1)
        ((random_bits + 7777) % 2 ^ sys.ulong_bits)
        (sys.sys_creat w (tmpname_of sys pfx sfx relative random_bits)).2 atts res w2) :
      TmpnamRun sys pfx sfx relative tries random_bits w
        ({ name := tmpname_of sys pfx sfx relative random_bits,
           fd := (sys.sys_creat w (tmpname_of sys pfx sfx relative random_bits)).1.1,
           errno := (sys.sys_creat w (tmpname_of sys pfx sfx relative random_bits)).1.2 }
          :: atts)
        res w2

/-- The characters of a lower-case hexadecimal number. -/
def hex_digits : Str := lit "0123456789abcdef"

/-- The value of a hexadecimal digit. -/
def hex_digit_value (c : Char) : Nat := hex_digits.indexOf c

/-- The number a text of hexadecimal digits stands for. -/
def hex_value (s : Str) : Nat := s.foldl (fun acc c => 16 * acc + hex_digit_value c) 0

/-! ## `platform.cpp` -/

/-- The fields of `struct utsname` that `determine_platform_once` reads. -/
structure utsname where
  sysname : Str
  release : Str
  machine : Str
  deriving DecidableEq, Repr

/-- How a call of `determine_platform_once` ends: it returns `platform`, it
throws (a `const char *` or a `std::string`, here the text), or the model ran
out of fuel. -/
inductive PlatformRes where
  | ret (platform : Str)
  | throw (what : Str)
  | stuck
  deriving DecidableEq, Repr

/-- The call `s.find(c)` of `std::string`: index of the first `c`, `none` for
`npos`. -/
def find : Str → Char → Option Nat
  | [], _ => none
  | x :: xs, c => if x = c then some 0 else (find xs c).map (· + 1)

/-- The loop of `determine_platform_once` (platform.cpp 206-214): as long as
`platform.find(" ")` is not `npos`, `platform.erase(pos, 1)`.  `fuel` bounds
the number of rounds of the model. -/
def erase_spaces : Nat → Str → PlatformRes
  | 0, _ => PlatformRes.stuck
  | fuel + 1, platform =>
    match find platform ' ' with
    | none => PlatformRes.ret platform
    | some pos => erase_spaces fuel (platform.eraseIdx pos)

/-- The function `determine_platform_once()` of the build that is not for
Windows (platform.cpp 174-217), with the return value of `uname` and the
buffer it filled.  The call of `log_perror` is left out. -/
def determine_platform_once (uname_ret : Int) (uname_buf : utsname) (fuel : Nat) :
    PlatformRes :=
  if uname_ret ≠ 0 then
    PlatformRes.throw
      (lit "determine_platform: cannot determine OS version and machine architecture")
  else
    let os := uname_buf.sysname
    if os = lit "Darwin" then
      let release := uname_buf.release
      match find release '.' with
      | none =>
        PlatformRes.throw
          (lit "determine_platform: Cannot determine Darwin release from release string \""
            ++ release ++ lit "\"")
      | some pos =>
        let os := os ++ release.take pos
        if os ≠ lit "Linux" then erase_spaces fuel (os ++ '_' :: uname_buf.machine)
        else erase_spaces fuel uname_buf.machine
    else
      if os ≠ lit "Linux" then erase_spaces fuel (os ++ '_' :: uname_buf.machine)
      else erase_spaces fuel uname_buf.machine

/-- The platform name before the spaces are taken out, in the words of the
claim: `machine` on Linux, `Darwin` with the release up to its first `'.'`,
`'_'` and `machine` on Darwin, `sysname`, `'_'` and `machine` otherwise. -/
def platform_name (u : utsname) : Str :=
  if u.sysname = lit "Linux" then u.machine
  else if u.sysname = lit "Darwin" then
    lit "Darwin" ++ u.release.takeWhile (fun c => c != '.') ++ '_' :: u.machine
  else u.sysname ++ '_' :: u.machine

/-- The result of `uname` on a PowerPC Mac. -/
def unamePowerMac : utsname :=
  { sysname := lit "Darwin", release := lit "8.11.0", machine := lit "Power Macintosh" }

/-! ## Theorems -/

section Streaming

theorem sent_append (a b : List Event) : sent (a ++ b) = sent a ++ sent b := by
  induction a with
  | nil => rfl
  | cons e a ih => cases e <;> simp [sent, ih]

theorem delivered_append (a b : List Event) :
    delivered (a ++ b) = delivered a ++ delivered b := by
  induction a with
  | nil => rfl
  | cons e a ih =>
    cases e with
    | send m ok => cases ok <;> simp [delivered, ih]
    | _ => simp [delivered, ih]

/-- With full reads, the bytes left before the `i`-th read are what the earlier
reads did not take. -/
theorem remaining_eq (env : Env) (fd : Int) (N : Nat)
    (hread : ∀ i, (env.read fd i).bytes = min (remaining env fd N i) buffer_size)
    (i : Nat) : remaining env fd N i = ((N - buffer_size * i : Nat) : Int) := by
  induction i with
  | zero => simp [remaining]
  | succ i ih =>
    have h := hread i
    simp only [remaining, h, ih, buffer_size]
    omega

/-- The loop on a file with `R` bytes left, full reads and a working channel. -/
theorem write_output_loop_full (env : Env) (fd : Int) (N : Nat)
    (hread : ∀ i, (env.read fd i).bytes = min (remaining env fd N i) buffer_size)
    (hsend : ∀ n, env.send_ok n = true) :
    ∀ (R i fuel : Nat) (tr : List Event), N - buffer_size * i = R →
      (R + (buffer_size - 1)) / buffer_size + 1 ≤ fuel →
      ∃ (new : List Event) (lens : List Nat),
        write_output_loop env fd fuel i tr = (Res.ret (), tr ++ new)
        ∧ sent new = lens.map Msg.FileChunkMsg ++ [Msg.EndMsg]
        ∧ delivered new = sent new
        ∧ lens.length = (R + (buffer_size - 1)) / buffer_size ∧ lens.sum = R := by
  intro R
  induction R using Nat.strong_induction_on with
  | _ R ih =>
    intro i fuel tr hR hfuel
    have hb : (env.read fd i).bytes = min ((R : Nat) : Int) buffer_size := by
      rw [hread i, remaining_eq env fd N hread i, hR]
    cases fuel with
    | zero => simp only [buffer_size] at hfuel; omega
    | succ fuel =>
      by_cases h0 : R = 0
      · subst h0
        have hb0 : (env.read fd i).bytes = 0 := by
          rw [hb]; simp [buffer_size]
        refine ⟨[Event.sys_read fd 0 (env.read fd i).errno, Event.send Msg.EndMsg true],
          [], ?_, ?_, ?_, ?_, ?_⟩
        · simp [write_output_loop, hb0, send_msg, hsend]
        · simp [sent]
        · simp [sent, delivered]
        · simp [buffer_size]
        · simp
      · have hpos : 0 < (env.read fd i).bytes := by
          rw [hb]; simp only [buffer_size]; omega
        have hnat : ((env.read fd i).bytes.toNat : Int) = (env.read fd i).bytes :=
          Int.toNat_of_nonneg (le_of_lt hpos)
        have hm : (env.read fd i).bytes.toNat = min R buffer_size := by
          have : ((env.read fd i).bytes.toNat : Int) = ((min R buffer_size : Nat) : Int) := by
            rw [hnat, hb]; simp
          exact_mod_cast this
        have hlt : R - min R buffer_size < R := by
          simp only [buffer_size]; omega
        have hR2 : N - buffer_size * (i + 1) = R - min R buffer_size := by
          simp only [buffer_size] at hR ⊢; omega
        have hf2 : (R - min R buffer_size + (buffer_size - 1)) / buffer_size + 1 ≤ fuel := by
          simp only [buffer_size] at hfuel ⊢; omega
        obtain ⟨new, lens, hrun, hsent, hdel, hlen, hsum⟩ :=
          ih (R - min R buffer_size) hlt (i + 1) fuel
            (tr ++ [Event.sys_read fd (env.read fd i).bytes (env.read fd i).errno]
              ++ [Event.send (Msg.FileChunkMsg (env.read fd i).bytes.toNat) true]) hR2 hf2
        refine ⟨[Event.sys_read fd (env.read fd i).bytes (env.read fd i).errno,
            Event.send (Msg.FileChunkMsg (env.read fd i).bytes.toNat) true] ++ new,
          min R buffer_size :: lens, ?_, ?_, ?_, ?_, ?_⟩
        · have hn1 : ¬ (env.read fd i).bytes < 0 := by omega
          have hn2 : ¬ (env.read fd i).bytes = 0 := by omega
          simp only [write_output_loop, hn1, hn2, if_false, send_msg, hsend]
          simp only [Bool.true_eq_false, if_false]
          rw [hrun]
          simp
        · simp [sent, sent_append, hsent, hm]
        · simp [sent, delivered, sent_append, delivered_append, hdel]
        · simp only [List.length_cons, hlen, buffer_size]; omega
        · simp only [List.sum_cons, hsum, buffer_size]; omega

end Streaming

section Claims_1_2

theorem remaining_envFile (N : Nat) (fd : Int) (i : Nat) :
    remaining (envFile N) fd N i = ((N - buffer_size * i : Nat) : Int) := by
  induction i with
  | zero => simp [remaining]
  | succ i ih =>
    rw [remaining, ih]
    simp only [envFile, buffer_size]
    omega

/-- Every run of the loop of `write_output_file` is a `LoopRun`. -/
theorem write_output_loop_run (env : Env) (fd : Int) :
    ∀ (fuel i : Nat) (tr : List Event), ∃ L : List Event,
      (write_output_loop env fd fuel i tr).2 = tr ++ L
      ∧ LoopRun env fd (write_output_loop env fd fuel i tr).1 L := by
  intro fuel
  induction fuel with
  | zero => intro i tr; exact ⟨[], by simp [write_output_loop], LoopRun.stuck⟩
  | succ fuel ih =>
    intro i tr
    simp only [write_output_loop, send_msg]
    by_cases hneg : (env.read fd i).bytes < 0
    · by_cases he : (env.read fd i).errno = EINTR
      · obtain ⟨L, h1, h2⟩ := ih (i + 1)
          (tr ++ [Event.sys_read fd (env.read fd i).bytes (env.read fd i).errno])
        refine ⟨Event.sys_read fd (env.read fd i).bytes (env.read fd i).errno :: L, ?_, ?_⟩
        · simp only [hneg, he, if_true] at h1 ⊢
          rw [h1]; simp
        · simp only [hneg, he, if_true] at h2 ⊢
          exact LoopRun.eintr _ _ _ _ hneg rfl h2
      · exact ⟨[Event.sys_read fd (env.read fd i).bytes (env.read fd i).errno],
          by simp [hneg, he], by simpa [hneg, he] using LoopRun.read_fail _ _ hneg he⟩
    · by_cases hz : (env.read fd i).bytes = 0
      · cases hs : env.send_ok (sendCount
            (tr ++ [Event.sys_read fd (env.read fd i).bytes (env.read fd i).errno]))
        · refine ⟨[Event.sys_read fd 0 (env.read fd i).errno, Event.send Msg.EndMsg false], ?_, ?_⟩
          · simp [hz, hs]
          · simpa [hz, hs] using LoopRun.eof_fail _
        · refine ⟨[Event.sys_read fd 0 (env.read fd i).errno, Event.send Msg.EndMsg true], ?_, ?_⟩
          · simp [hz, hs]
          · simpa [hz, hs] using LoopRun.eof_ok _
      · have hpos : 0 < (env.read fd i).bytes := by omega
        cases hs : env.send_ok (sendCount
            (tr ++ [Event.sys_read fd (env.read fd i).bytes (env.read fd i).errno]))
        · refine ⟨[Event.sys_read fd (env.read fd i).bytes (env.read fd i).errno,
            Event.send (Msg.FileChunkMsg (env.read fd i).bytes.toNat) false], ?_, ?_⟩
          · simp [hneg, hz, hs]
          · simpa [hneg, hz, hs] using LoopRun.chunk_fail _ _ hpos
        · obtain ⟨L, h1, h2⟩ := ih (i + 1)
            (tr ++ [Event.sys_read fd (env.read fd i).bytes (env.read fd i).errno]
              ++ [Event.send (Msg.FileChunkMsg (env.read fd i).bytes.toNat) true])
          simp only [List.append_assoc, List.singleton_append, List.cons_append,
            List.nil_append] at h1 h2
          refine ⟨Event.sys_read fd (env.read fd i).bytes (env.read fd i).errno ::
            Event.send (Msg.FileChunkMsg (env.read fd i).bytes.toNat) true :: L, ?_, ?_⟩
          · simp [hneg, hz, hs, h1]
          · simpa [hneg, hz, hs] using LoopRun.chunk _ _ _ _ hpos h2

end Claims_1_2

section Claims_1_2b

/-- The loop of `write_output_file` throws nothing but `EXIT_DISTCC_FAILED`. -/
theorem LoopRun.throw_code {env : Env} {fd : Int} {r : Res Unit} {L : List Event}
    (h : LoopRun env fd r L) :
    ∀ code, r = Res.throw code → code = env.EXIT_DISTCC_FAILED := by
  induction h with
  | stuck => intro code hc; cases hc
  | eintr b errno r L _ _ _ ih => exact ih
  | chunk b errno r L _ _ ih => exact ih
  | eof_ok errno => intro code hc; cases hc
  | eof_fail errno => intro code hc; cases hc; rfl
  | chunk_fail b errno _ => intro code hc; cases hc; rfl
  | read_fail b errno _ _ => intro code hc; cases hc; rfl

/-- Every call of `write_output_file` is a `StreamRun`. -/
theorem write_output_file_run (env : Env) (file : Str) (fuel : Nat) (tr : List Event) :
    ∃ L : List Event, (write_output_file env file fuel tr).2 = tr ++ L
      ∧ StreamRun env file (write_output_file env file fuel tr).1 L := by
  by_cases ho : env.sys_open file = -1
  · cases hp : env.is_protocol_22
    · exact ⟨[Event.sys_open file (-1)],
        by simp [write_output_file, write_output_catch, ho, error_client, hp],
        by simpa [write_output_file, write_output_catch, ho, error_client, hp]
          using StreamRun.open_failed [] ho (Or.inl rfl)⟩
    · exact ⟨[Event.sys_open file (-1), Event.send
          (Msg.StatusTextMsg (lit "open of object file failed"))
          (env.send_ok (sendCount (tr ++ [Event.sys_open file (-1)])))],
        by simp [write_output_file, write_output_catch, ho, error_client, hp, send_msg],
        by simpa [write_output_file, write_output_catch, ho, error_client, hp, send_msg]
          using StreamRun.open_failed _ ho (Or.inr ⟨_, rfl⟩)⟩
  · obtain ⟨L, h1, h2⟩ := write_output_loop_run env (env.sys_open file) fuel 0
      (tr ++ [Event.sys_open file (env.sys_open file)])
    simp only [write_output_file, ho, if_false, write_output_catch]
    generalize write_output_loop env (env.sys_open file) fuel 0
      (tr ++ [Event.sys_open file (env.sys_open file)]) = r at h1 h2
    obtain ⟨r1, r2⟩ := r
    simp only at h1 h2
    subst h1
    cases r1 with
    | ret a => exact ⟨_ :: L, by simp, StreamRun.returned L ho h2⟩
    | stuck => exact ⟨_ :: L, by simp, StreamRun.stuck L ho h2⟩
    | throw code =>
      have hc : code = env.EXIT_DISTCC_FAILED := h2.throw_code code rfl
      subst hc
      refine ⟨Event.sys_open file (env.sys_open file) :: L
        ++ [Event.sys_close (env.sys_open file)], by simp [ho], ?_⟩
      simpa [ho] using StreamRun.threw L ho h2

/-- C1: on a file of `N` bytes whose reads are full (each read returns the
smaller of the bytes left and 100000) and with a channel on which every send
succeeds, `write_output_file` returns normally and has sent `ceil(N / 100000)`
`FileChunkMsg` messages whose lengths add up to `N`, then one `EndMsg`, and
nothing else; for `N = 0` that is the single `EndMsg`. -/
theorem C1_write_output_file_chunks (env : Env) (file : Str) (N fuel : Nat)
    (tr : List Event)
    (hopen : env.sys_open file ≠ -1)
    (hread : ∀ i, (env.read (env.sys_open file) i).bytes
      = min (remaining env (env.sys_open file) N i) buffer_size)
    (hsend : ∀ n, env.send_ok n = true)
    (hfuel : (N + (buffer_size - 1)) / buffer_size + 1 ≤ fuel) :
    ∃ (new : List Event) (lens : List Nat),
      write_output_file env file fuel tr = (Res.ret (), tr ++ new)
      ∧ sent new = lens.map Msg.FileChunkMsg ++ [Msg.EndMsg]
      ∧ delivered new = sent new
      ∧ lens.length = (N + (buffer_size - 1)) / buffer_size
      ∧ lens.sum = N
      ∧ (N = 0 → sent new = [Msg.EndMsg]) := by
  obtain ⟨new, lens, hrun, hsent, hdel, hlen, hsum⟩ :=
    write_output_loop_full env (env.sys_open file) N hread hsend N 0 fuel
      (tr ++ [Event.sys_open file (env.sys_open file)]) (by simp) hfuel
  refine ⟨Event.sys_open file (env.sys_open file) :: new, lens, ?_, ?_, ?_, hlen, hsum, ?_⟩
  · simp [write_output_file, hopen, hrun, write_output_catch]
  · simpa [sent] using hsent
  · simpa [sent, delivered] using hdel
  · intro h0
    subst h0
    have : lens = [] := List.length_eq_zero.mp (by simpa [buffer_size] using hlen)
    simp [sent, hsent, this]

/-- Witness of C1: a file of 250000 bytes, read in full blocks, with fuel 4. -/
theorem C1_write_output_file_chunks_witness :
    ∃ (new : List Event) (lens : List Nat),
      write_output_file (envFile 250000) (lit "a.o") 4 [] = (Res.ret (), [] ++ new)
      ∧ sent new = lens.map Msg.FileChunkMsg ++ [Msg.EndMsg]
      ∧ delivered new = sent new
      ∧ lens.length = (250000 + (buffer_size - 1)) / buffer_size
      ∧ lens.sum = 250000
      ∧ (250000 = 0 → sent new = [Msg.EndMsg]) :=
  C1_write_output_file_chunks (envFile 250000) (lit "a.o") 250000 4 []
    (by decide)
    (fun i => by
      rw [remaining_envFile]
      simp only [envFile, envEmptyFile, buffer_size]
      omega)
    (fun _ => rfl) (by decide)

/-- C2 (failing input): on an empty file that opens as descriptor 5, with a
working channel, `write_output_file` returns normally after the end marker and
its trace has no `close` of descriptor 5. -/
theorem C2_descriptor_left_open_on_return :
    write_output_file envEmptyFile (lit "a.o") 1 []
      = (Res.ret (), [Event.sys_open (lit "a.o") 5, Event.sys_read 5 0 0,
          Event.send Msg.EndMsg true]) := by
  decide

end Claims_1_2b

section Shape

theorem andThen_assoc {α β γ : Type} (x : Res α × State)
    (f : α → State → Res β × State) (g : β → State → Res γ × State) :
    andThen (andThen x f) g = andThen x (fun a s => andThen (f a s) g) := by
  obtain ⟨r, s⟩ := x
  cases r <;> rfl

theorem handle_connection_try_eq (env : Env) (basedir : Str) (job : CompileJob)
    (mem_limit fuel : Nat) :
    handle_connection_try env basedir job mem_limit fuel
      = andThen (hc_setup env basedir job mem_limit) (hc_finish env fuel) := by
  unfold handle_connection_try hc_setup
  rw [andThen_assoc]
  rfl

/-- A call of `write_output_file` on a state changes nothing but the trace. -/
theorem State.write_output_file_spec (env : Env) (file : Str) (fuel : Nat) (s : State) :
    ∃ L : List Event,
      (s.write_output_file env file fuel).2 = { s with trace := s.trace ++ L }
      ∧ StreamRun env file (s.write_output_file env file fuel).1 L := by
  obtain ⟨L, h1, h2⟩ := Icecream.write_output_file_run env file fuel s.trace
  exact ⟨L, by simp [State.write_output_file, h1], by simpa [State.write_output_file] using h2⟩

/-- Streaming with status 0: the primary file, then the `.dwo` file when it is
announced and the primary file went through. -/
theorem hc_stream_run (env : Env) (fuel : Nat) (rm : CompileResult) (s : State)
    (hst : rm.status = 0) :
    (∃ (r1 : Res Unit) (S1 : List Event), StreamRun env s.obj_file r1 S1
        ∧ (r1 = Res.ret () → rm.have_dwo_file = false)
        ∧ hc_stream env fuel rm s = (thenThrow r1 0, { s with trace := s.trace ++ S1 }))
    ∨ (∃ (S1 : List Event) (r2 : Res Unit) (S2 : List Event), rm.have_dwo_file = true
        ∧ StreamRun env s.obj_file (Res.ret ()) S1 ∧ StreamRun env s.dwo_file r2 S2
        ∧ hc_stream env fuel rm s
          = (thenThrow r2 0, { s with trace := s.trace ++ S1 ++ S2 })) := by
  obtain ⟨L1, h1, hS1⟩ := State.write_output_file_spec env s.obj_file fuel s
  generalize hx : s.write_output_file env s.obj_file fuel = x at h1 hS1
  obtain ⟨r1, t1⟩ := x
  simp only at h1 hS1
  subst h1
  cases r1 with
  | throw code =>
    refine Or.inl ⟨Res.throw code, L1, hS1, ?_, ?_⟩
    · intro h; cases h
    · simp [hc_stream, hst, hx, andThen, thenThrow]
  | stuck =>
    refine Or.inl ⟨Res.stuck, L1, hS1, ?_, ?_⟩
    · intro h; cases h
    · simp [hc_stream, hst, hx, andThen, thenThrow]
  | ret a =>
    cases hd : rm.have_dwo_file
    · refine Or.inl ⟨Res.ret (), L1, hS1, fun _ => rfl, ?_⟩
      simp [hc_stream, hst, hx, andThen, thenThrow, hd]
    · obtain ⟨L2, h2, hS2⟩ := State.write_output_file_spec env s.dwo_file fuel
        { s with trace := s.trace ++ L1 }
      generalize hy : State.write_output_file { s with trace := s.trace ++ L1 } env
        s.dwo_file fuel = y at h2 hS2
      obtain ⟨r2, t2⟩ := y
      simp only at h2 hS2
      subst h2
      refine Or.inr ⟨L1, r2, L2, rfl, hS1, hS2, ?_⟩
      cases r2 <;> simp [hc_stream, hst, hx, andThen, thenThrow, hd, hy]

/-- A reported runner result passes line 417-428 with the message of
`reported_rmsg`, up to the flag `have_dwo_file` that is set later. -/
theorem hc_interpret_soft (env : Env) (w : WorkItResult) (s : State) (hsoft : Soft env w) :
    hc_interpret env w s = (Res.ret
      { status := w.rmsg.status,
        was_out_of_memory := if w.ret = 0 then w.rmsg.was_out_of_memory else true,
        have_dwo_file := w.rmsg.have_dwo_file }, s) := by
  unfold hc_interpret
  by_cases h0 : w.ret = 0
  · rw [if_neg (not_not.mpr h0), if_pos h0]
  · rw [if_pos h0, if_neg h0]
    by_cases h1 : w.ret = env.EXIT_OUT_OF_MEMORY
    · rw [if_pos h1]
    · have h2 : w.ret = env.EXIT_IO_ERROR := by
        rcases hsoft with h | h | h
        · exact absurd h h0
        · exact absurd h h1
        · exact h
      rw [if_neg h1, if_pos h2]

/-- Any other runner result is thrown at line 426. -/
theorem hc_interpret_hard (env : Env) (w : WorkItResult) (s : State) (h : ¬ Soft env w) :
    hc_interpret env w s = (Res.throw w.ret, s) := by
  unfold hc_interpret
  have h0 : w.ret ≠ 0 := fun h0 => h (Or.inl h0)
  have h1 : w.ret ≠ env.EXIT_OUT_OF_MEMORY := fun h1 => h (Or.inr (Or.inl h1))
  have h2 : w.ret ≠ env.EXIT_IO_ERROR := fun h2 => h (Or.inr (Or.inr h2))
  rw [if_pos h0, if_neg h1, if_neg h2]

/-- Reporting after a reported runner result, when the send at line 440
gives `ok`. -/
theorem hc_report_run (env : Env) (w : WorkItResult) (s : State) (dwo : Bool) :
    hc_report env w.job_stat
        { status := w.rmsg.status,
          was_out_of_memory := if w.ret = 0 then w.rmsg.was_out_of_memory else true,
          have_dwo_file := dwo } s
      = if env.send_ok (sendCount (s.trace ++
            [Event.stat s.obj_file (env.stat s.obj_file),
             Event.stat s.dwo_file (env.stat s.dwo_file)])) = false then
          (Res.throw env.EXIT_DISTCC_FAILED,
            { s with trace := s.trace ++ report_events env s w false })
        else
          (Res.ret (reported_rmsg env s w),
            { s with trace := s.trace ++ (report_events env s w true
              ++ pipe_events env s w) }) := by
  cases hok : env.send_ok (sendCount (s.trace ++
      [Event.stat s.obj_file (env.stat s.obj_file),
       Event.stat s.dwo_file (env.stat s.dwo_file)]))
  · simp [hc_report, send_msg, State.emit, hok, report_events, reported_rmsg]
  · simp [hc_report, send_msg, State.emit, hok, report_events, reported_rmsg, pipe_events,
      reported_stat]

/-- Lines 417-459 change nothing but the trace, and add a `FinishRun`. -/
theorem hc_finish_run (env : Env) (fuel : Nat) (w : WorkItResult) (s : State) :
    ∃ F : List Event, (hc_finish env fuel w s).2 = { s with trace := s.trace ++ F }
      ∧ FinishRun env s w (hc_finish env fuel w s).1 F := by
  by_cases hsoft : Soft env w
  · unfold hc_finish
    rw [hc_interpret_soft env w s hsoft]
    simp only [andThen]
    rw [hc_report_run env w s]
    cases hok : env.send_ok (sendCount (s.trace ++
        [Event.stat s.obj_file (env.stat s.obj_file),
         Event.stat s.dwo_file (env.stat s.dwo_file)]))
    · exact ⟨report_events env s w false, by simp, by
        simpa using FinishRun.result_failed hsoft⟩
    · simp only [Bool.true_eq_false, if_false]
      by_cases hst : w.rmsg.status = 0
      · have hst2 : (reported_rmsg env s w).status = 0 := hst
        rcases hc_stream_run env fuel (reported_rmsg env s w)
            { s with trace := s.trace ++ (report_events env s w true ++ pipe_events env s w) }
            hst2 with ⟨r1, S1, hS1, hd, heq⟩ | ⟨S1, r2, S2, hd, hS1, hS2, heq⟩
        · rw [heq]
          exact ⟨report_events env s w true ++ pipe_events env s w ++ S1, by simp,
            FinishRun.primary r1 S1 hsoft hst hS1 hd⟩
        · rw [heq]
          exact ⟨report_events env s w true ++ pipe_events env s w ++ S1 ++ S2, by simp,
            FinishRun.both S1 r2 S2 hsoft hst hd hS1 hS2⟩
      · refine ⟨report_events env s w true ++ pipe_events env s w, ?_, ?_⟩
        · simp [hc_stream, reported_rmsg, hst, andThen]
        · have : (hc_stream env fuel (reported_rmsg env s w)
              { s with trace := s.trace ++ (report_events env s w true
                ++ pipe_events env s w) }).1 = Res.throw w.rmsg.status := by
            simp [hc_stream, reported_rmsg, hst, andThen]
          rw [this]
          exact FinishRun.not_streamed hsoft hst
  · refine ⟨[], ?_, ?_⟩
    · simp [hc_finish, hc_interpret_hard env w s hsoft, andThen]
    · simpa [hc_finish, hc_interpret_hard env w s hsoft, andThen]
        using FinishRun.hard_failure hsoft

end Shape

section Setup

theorem Event.isSetup_of_isProbe {e : Event} (h : e.isProbe = true) : e.isSetup = true := by
  cases e <;> simp_all [Event.isProbe, Event.isSetup]
  rename_i m ok
  cases m <;> simp_all [Event.isProbe, Event.isSetup]

/-- Validation changes nothing but the trace, to which it adds probes, and it
does not get stuck. -/
theorem hc_validate_run (env : Env) (basedir : Str) (job : CompileJob) (s : State) :
    ∃ A : List Event,
      (hc_validate env basedir job s).2 = { s with trace := s.trace ++ A }
      ∧ (∀ e ∈ A, e.isProbe = true)
      ∧ (hc_validate env basedir job s).1 ≠ Res.stuck := by
  by_cases hv : job.environmentVersion.length = 0 <;>
  by_cases hx : env.access_X_OK (basedir ++ lit "/target=" ++ job.targetPlatform ++ lit "/"
    ++ job.environmentVersion ++ lit "/usr/bin/as") < 0 <;>
  by_cases hw : env.access_W_OK (env.temp_dir_path.drop 1) < 0 <;>
  cases hp : env.is_protocol_22 <;>
  simp only [hc_validate, andThen, State.emit, State.error_client, error_client, send_msg,
    hp, hv, hx, hw, if_true, if_false, not_true_eq_false, not_false_eq_true, ne_eq,
    Bool.false_eq_true] <;>
  simp [Event.isProbe]

end Setup

section Setup2

theorem lit_dwo_ne_nil : lit ".dwo" ≠ [] := by decide

/-- Sandbox preparation and the compiler run add setup events, do not get
stuck, and set the locals from the allocator results. -/
theorem hc_compile_run (env : Env) (job : CompileJob) (mem_limit : Nat) (s : State)
    (hs : s.tmp_path = []) :
    ∃ A : List Event,
      (hc_compile env job mem_limit s).2.trace = s.trace ++ A
      ∧ (∀ e ∈ A, e.isSetup = true)
      ∧ (hc_compile env job mem_limit s).1 ≠ Res.stuck
      ∧ (∀ name, Event.make_tmpdir 0 name ∈ A →
          (hc_compile env job mem_limit s).2.tmp_path = name)
      ∧ ((hc_compile env job mem_limit s).2.tmp_path ≠ [] →
          Event.make_tmpdir 0 (hc_compile env job mem_limit s).2.tmp_path ∈ A)
      ∧ (∀ w, (hc_compile env job mem_limit s).1 = Res.ret w →
          (∃ name, Event.make_tmpdir 0 name ∈ A) →
          (hc_compile env job mem_limit s).2.obj_file ≠ []
          ∧ (hc_compile env job mem_limit s).2.dwo_file ≠ [])
      ∧ (∀ p sfx name, Event.make_tmpnam p sfx 0 name ∈ A →
          (hc_compile env job mem_limit s).2.obj_file = name) := by
  cases hf : job.dwarfFissionEnabled
  · by_cases ha : (env.dcc_make_tmpnam (lit "icecc-" ++ format_u job.jobID) (lit ".o")).1 = 0
    · simp only [hc_compile, hf, ha, hc_plain, State.emit, if_true, if_false,
        Bool.false_eq_true]
      simp [Event.isSetup, hs]
      intro p sfx name _ _ h
      exact h.symm
    · simp only [hc_compile, hf, ha, hc_plain, State.emit, if_true, if_false,
        Bool.false_eq_true]
      simp [Event.isSetup, hs, ha]
      intro p sfx name _ _ h
      exact absurd h.symm ha
  · by_cases ha : env.dcc_make_tmpdir.1 = 0
    · by_cases h1 : env.mkpath (output_dir env env.dcc_make_tmpdir.2 job.workingDirectory
          job.outputFile) = false <;>
      by_cases h2 : env.mkpath (env.dcc_make_tmpdir.2 ++ job.workingDirectory) = false <;>
      cases hp : env.is_protocol_22 <;>
      simp only [hc_compile, hf, ha, hc_fission, State.emit, State.error_client,
        error_client, send_msg, h1, h2, hp, if_true, if_false, Bool.false_eq_true] <;>
      simp [Event.isSetup, hs, ha, lit_dwo_ne_nil]
    · simp only [hc_compile, hf, ha, State.emit, if_true, if_false]
      simp [Event.isSetup, hs, ha]
      exact ⟨fun h => absurd h.symm ha, fun h => absurd h.symm ha⟩

/-- The facts about lines 318-415. -/
theorem hc_setup_facts (env : Env) (basedir : Str) (job : CompileJob) (mem_limit : Nat) :
    SetupFacts (hc_setup env basedir job mem_limit) := by
  obtain ⟨A, hA, hprobe, hns⟩ := hc_validate_run env basedir job
    { tmp_path := [], obj_file := [], dwo_file := [], trace := [] }
  unfold hc_setup
  generalize hc_validate env basedir job
    { tmp_path := [], obj_file := [], dwo_file := [], trace := [] } = v at hA hns
  obtain ⟨r, s1⟩ := v
  simp only [List.nil_append] at hA
  subst hA
  have hprobe2 : ∀ name, Event.make_tmpdir 0 name ∉ A := fun name h => by
    simpa [Event.isProbe] using hprobe _ h
  have hprobe3 : ∀ p sfx name, Event.make_tmpnam p sfx 0 name ∉ A := fun p sfx name h => by
    simpa [Event.isProbe] using hprobe _ h
  cases r with
  | stuck => exact absurd rfl hns
  | throw code =>
    simp only [andThen]
    exact ⟨fun e he => Event.isSetup_of_isProbe (hprobe e he), by simp,
      fun name h => absurd h (hprobe2 name), fun h => absurd rfl h,
      fun w h => (by cases h), fun p sfx name h => absurd h (hprobe3 p sfx name)⟩
  | ret a =>
    simp only [andThen]
    obtain ⟨B, hB, hsetup, hns2, h1, h2, h3, h4⟩ := hc_compile_run env job mem_limit
      { tmp_path := [], obj_file := [], dwo_file := [], trace := A } rfl
    simp only at hB
    refine ⟨?_, hns2, ?_, ?_, ?_, ?_⟩
    · intro e he
      rw [hB, List.mem_append] at he
      rcases he with he | he
      · exact Event.isSetup_of_isProbe (hprobe e he)
      · exact hsetup e he
    · intro name h
      rw [hB, List.mem_append] at h
      rcases h with h | h
      · exact absurd h (hprobe2 name)
      · exact h1 name h
    · intro h
      rw [hB, List.mem_append]
      exact Or.inr (h2 h)
    · intro w hw ⟨name, h⟩
      rw [hB, List.mem_append] at h
      rcases h with h | h
      · exact absurd h (hprobe2 name)
      · exact h3 w hw ⟨name, h⟩
    · intro p sfx name h
      rw [hB, List.mem_append] at h
      rcases h with h | h
      · exact absurd h (hprobe3 p sfx name)
      · exact h4 p sfx name h

theorem handle_connection_child_eq (env : Env) (basedir : Str) (job : CompileJob)
    (mem_limit fuel : Nat) :
    handle_connection_child env basedir job mem_limit fuel
      = (outcomeOf (handle_connection_try env basedir job mem_limit fuel).1,
          (handle_connection_try env basedir job mem_limit fuel).2.trace
            ++ closing (handle_connection_try env basedir job mem_limit fuel).2
                (handle_connection_try env basedir job mem_limit fuel).1) := by
  unfold handle_connection_child
  generalize handle_connection_try env basedir job mem_limit fuel = t
  obtain ⟨r, s⟩ := t
  cases r <;> simp [outcomeOf, closing]

/-- The shape of every run of the child: setup events `s.trace`, then either
nothing more (the setup threw) or a `FinishRun`, then the closing events. -/
theorem child_shape (env : Env) (basedir : Str) (job : CompileJob) (mem_limit fuel : Nat) :
    ∃ (s : State) (r : Res Unit) (F : List Event),
      (hc_setup env basedir job mem_limit).2 = s
      ∧ handle_connection_try env basedir job mem_limit fuel
          = (r, { s with trace := s.trace ++ F })
      ∧ handle_connection_child env basedir job mem_limit fuel
          = (outcomeOf r, s.trace ++ F ++ closing s r)
      ∧ ((F = [] ∧ ∃ code, r = Res.throw code
            ∧ (hc_setup env basedir job mem_limit).1 = Res.throw code)
        ∨ ∃ w, (hc_setup env basedir job mem_limit).1 = Res.ret w
            ∧ FinishRun env s w r F) := by
  have hfacts := hc_setup_facts env basedir job mem_limit
  have hchild := handle_connection_child_eq env basedir job mem_limit fuel
  rw [handle_connection_try_eq] at hchild
  rw [handle_connection_try_eq]
  generalize hc_setup env basedir job mem_limit = su at hfacts hchild
  obtain ⟨r0, s⟩ := su
  cases r0 with
  | stuck => exact absurd rfl hfacts.not_stuck
  | throw code =>
    refine ⟨s, Res.throw code, [], rfl, by simp [andThen], ?_, Or.inl ⟨rfl, code, rfl, rfl⟩⟩
    rw [hchild]
    simp [andThen, closing, hc_handler]
  | ret w =>
    obtain ⟨F, hF, hrun⟩ := hc_finish_run env fuel w s
    simp only [andThen] at hchild ⊢
    refine ⟨s, (hc_finish env fuel w s).1, F, rfl, ?_, ?_, Or.inr ⟨w, rfl, hrun⟩⟩
    · rw [← hF]
    · rw [hchild, hF]
      cases (hc_finish env fuel w s).1 <;> simp [closing, hc_handler]

end Setup2

section Lists

theorem split_cases {α : Type} (X Y pre post : List α) (e : α)
    (h : X ++ Y = pre ++ e :: post) :
    (∃ t, X = pre ++ e :: t ∧ post = t ++ Y) ∨ (∃ t, pre = X ++ t ∧ Y = t ++ e :: post) := by
  rcases List.append_eq_append_iff.mp h with ⟨a, h1, h2⟩ | ⟨c, h1, h2⟩
  · exact Or.inr ⟨a, h1, h2⟩
  · cases c with
    | nil => exact Or.inr ⟨[], by simpa using h1.symm, by simpa using h2.symm⟩
    | cons x c =>
      simp only [List.cons_append, List.cons.injEq] at h2
      obtain ⟨hx, hpost⟩ := h2
      subst hx
      exact Or.inl ⟨c, h1, hpost⟩

theorem split_first {α : Type} (p : α → Bool) (X Y pre post : List α) (a e : α)
    (h : X ++ a :: Y = pre ++ e :: post) (hp : p e = true) (hX : ∀ x ∈ X, p x = false) :
    (pre = X ∧ e = a ∧ post = Y) ∨ (∃ t, pre = X ++ a :: t ∧ Y = t ++ e :: post) := by
  rcases split_cases X (a :: Y) pre post e h with ⟨t, h1, _⟩ | ⟨t, h1, h2⟩
  · have := hX e (by rw [h1]; simp)
    rw [hp] at this
    cases this
  · cases t with
    | nil =>
      simp only [List.nil_append, List.cons.injEq] at h2
      exact Or.inl ⟨by simpa using h1, h2.1.symm, h2.2.symm⟩
    | cons x t =>
      simp only [List.cons_append, List.cons.injEq] at h2
      obtain ⟨hx, hY⟩ := h2
      subst hx
      exact Or.inr ⟨t, h1, hY⟩

theorem split_unique {α : Type} (p : α → Bool) (X Y pre post : List α) (a e : α)
    (h : X ++ a :: Y = pre ++ e :: post) (hp : p e = true) (hX : ∀ x ∈ X, p x = false)
    (hY : ∀ y ∈ Y, p y = false) : pre = X ∧ e = a ∧ post = Y := by
  rcases split_first p X Y pre post a e h hp hX with h1 | ⟨t, _, h2⟩
  · exact h1
  · have := hY e (by rw [h2]; simp)
    rw [hp] at this
    cases this

theorem not_split_of_forall {α : Type} (p : α → Bool) (T pre post : List α) (e : α)
    (h : T = pre ++ e :: post) (hp : p e = true) (hT : ∀ x ∈ T, p x = false) : False := by
  have := hT e (by rw [h]; simp)
  rw [hp] at this
  cases this

end Lists

section Segments

theorem LoopRun.isLoop {env : Env} {fd : Int} {r : Res Unit} {L : List Event}
    (h : LoopRun env fd r L) : ∀ e ∈ L, e.isLoop = true := by
  induction h <;> simp_all [Event.isLoop, Msg.isArtifact]

theorem LoopRun.ret_form {env : Env} {fd : Int} {r : Res Unit} {L : List Event}
    (h : LoopRun env fd r L) : r = Res.ret () →
      ∃ L1, L = L1 ++ [Event.send Msg.EndMsg true]
        ∧ (∀ e ∈ L1, e.isFailedArtifact = false ∧ e.isStreamError = false) := by
  induction h with
  | stuck => intro h; cases h
  | eintr b errno r L hb he _ ih =>
    intro hr
    obtain ⟨L1, h1, h2⟩ := ih hr
    exact ⟨Event.sys_read fd b errno :: L1, by simp [h1], by
      simpa [Event.isFailedArtifact, Event.isStreamError, he] using h2⟩
  | chunk b errno r L hb _ ih =>
    intro hr
    obtain ⟨L1, h1, h2⟩ := ih hr
    refine ⟨Event.sys_read fd b errno :: Event.send (Msg.FileChunkMsg b.toNat) true :: L1,
      by simp [h1], ?_⟩
    have : ¬ b < 0 := by omega
    simpa [Event.isFailedArtifact, Event.isStreamError, this] using h2
  | eof_ok errno =>
    intro _
    exact ⟨[Event.sys_read fd 0 errno], by simp, by
      simp [Event.isFailedArtifact, Event.isStreamError]⟩
  | eof_fail errno => intro h; cases h
  | chunk_fail b errno _ => intro h; cases h
  | read_fail b errno _ _ => intro h; cases h

theorem LoopRun.no_end_delivered {env : Env} {fd : Int} {r : Res Unit} {L : List Event}
    (h : LoopRun env fd r L) : r ≠ Res.ret () → Msg.EndMsg ∉ delivered L := by
  induction h <;> simp_all [delivered]

theorem LoopRun.stuck_free {env : Env} {fd : Int} {r : Res Unit} {L : List Event}
    (h : LoopRun env fd r L) : r = Res.stuck →
      ∀ e ∈ L, e.isFailedArtifact = false ∧ e.isStreamError = false := by
  induction h with
  | stuck => intro _ e he; cases he
  | eintr b errno r L hb he _ ih =>
    intro hr
    simpa [Event.isFailedArtifact, Event.isStreamError, he] using ih hr
  | chunk b errno r L hb _ ih =>
    intro hr
    have : ¬ b < 0 := by omega
    simpa [Event.isFailedArtifact, Event.isStreamError, this] using ih hr
  | eof_ok errno => intro h; cases h
  | eof_fail errno => intro h; cases h
  | chunk_fail b errno _ => intro h; cases h
  | read_fail b errno _ _ => intro h; cases h

theorem LoopRun.throw_form {env : Env} {fd : Int} {r : Res Unit} {L : List Event}
    (h : LoopRun env fd r L) : ∀ code, r = Res.throw code →
      (∃ e ∈ L, e.isStreamError = true)
      ∧ ((∀ e ∈ L, e.isFailedArtifact = false)
        ∨ ∃ L1 m, L = L1 ++ [Event.send m false] ∧ m.isArtifact = true
            ∧ ∀ e ∈ L1, e.isFailedArtifact = false) := by
  induction h with
  | stuck => intro code h; cases h
  | eintr b errno r L hb he _ ih =>
    intro code hr
    obtain ⟨⟨e, he1, he2⟩, h2⟩ := ih code hr
    refine ⟨⟨e, by simp [he1], he2⟩, ?_⟩
    rcases h2 with h2 | ⟨L1, m, h3, h4, h5⟩
    · exact Or.inl (by simpa [Event.isFailedArtifact] using h2)
    · exact Or.inr ⟨Event.sys_read fd b errno :: L1, m, by simp [h3], h4, by
        simpa [Event.isFailedArtifact] using h5⟩
  | chunk b errno r L hb _ ih =>
    intro code hr
    obtain ⟨⟨e, he1, he2⟩, h2⟩ := ih code hr
    refine ⟨⟨e, by simp [he1], he2⟩, ?_⟩
    rcases h2 with h2 | ⟨L1, m, h3, h4, h5⟩
    · exact Or.inl (by simpa [Event.isFailedArtifact] using h2)
    · exact Or.inr ⟨Event.sys_read fd b errno
        :: Event.send (Msg.FileChunkMsg b.toNat) true :: L1, m, by simp [h3], h4, by
        simpa [Event.isFailedArtifact] using h5⟩
  | eof_ok errno => intro code h; cases h
  | eof_fail errno =>
    intro code _
    exact ⟨⟨Event.send Msg.EndMsg false, by simp,
        by simp [Event.isStreamError, Msg.isArtifact]⟩,
      Or.inr ⟨[Event.sys_read fd 0 errno], Msg.EndMsg, by simp, rfl, by
        simp [Event.isFailedArtifact]⟩⟩
  | chunk_fail b errno _ =>
    intro code _
    exact ⟨⟨Event.send (Msg.FileChunkMsg b.toNat) false, by simp,
        by simp [Event.isStreamError, Msg.isArtifact]⟩,
      Or.inr ⟨[Event.sys_read fd b errno], Msg.FileChunkMsg b.toNat, by simp, rfl, by
        simp [Event.isFailedArtifact]⟩⟩
  | read_fail b errno hb he =>
    intro code _
    exact ⟨⟨Event.sys_read fd b errno, by simp,
        by simp [Event.isStreamError, hb, he]⟩,
      Or.inl (by simp [Event.isFailedArtifact])⟩

end Segments

section Segments2

theorem Event.isStream_of_isLoop {e : Event} (h : e.isLoop = true) : e.isStream = true := by
  cases e <;> simp_all [Event.isLoop, Event.isStream]
  rename_i m ok
  cases m <;> simp_all [Event.isLoop, Event.isStream, Msg.isArtifact]

theorem Event.isLoop_not_isOpen {e : Event} (h : e.isLoop = true) : e.isOpen = false := by
  cases e <;> simp_all [Event.isLoop, Event.isOpen]

/-- What an event of `write_output_file` is not. -/
theorem Event.isStream_excl {e : Event} (h : e.isStream = true) :
    e.isPipeWrite = false ∧ e.isCleanup = false ∧ e.isResult = false
      ∧ e ≠ Event.pipe_close ∧ (∀ code, e ≠ Event.sys_exit code)
      ∧ (∀ ret name, e ≠ Event.make_tmpdir ret name) := by
  cases e <;> simp_all [Event.isStream, Event.isLoop, Event.isPipeWrite, Event.isCleanup,
    Event.isResult]
  rename_i m ok
  cases m <;> simp_all [Event.isStream, Event.isLoop, Msg.isArtifact, Event.isResult]

/-- What a setup event is not. -/
theorem Event.isSetup_excl {e : Event} (h : e.isSetup = true) :
    e.isPipeWrite = false ∧ e.isCleanup = false ∧ e.isResult = false
      ∧ e.isArtifact = false ∧ e.isOpen = false ∧ e.isFailedArtifact = false
      ∧ e.isStreamError = false ∧ e ≠ Event.pipe_close
      ∧ (∀ code, e ≠ Event.sys_exit code) := by
  cases e <;> simp_all [Event.isSetup, Event.isPipeWrite, Event.isCleanup,
    Event.isResult, Event.isArtifact, Event.isOpen, Event.isFailedArtifact,
    Event.isStreamError]
  rename_i m ok
  cases m <;> cases ok <;> simp_all [Event.isSetup, Msg.isArtifact, Event.isResult,
    Event.isFailedArtifact, Event.isStreamError]

theorem opened_append (a b : List Event) : opened (a ++ b) = opened a ++ opened b := by
  induction a with
  | nil => rfl
  | cons e a ih => cases e <;> simp [opened, ih]

theorem opened_eq_nil {L : List Event} (h : ∀ e ∈ L, e.isOpen = false) : opened L = [] := by
  induction L with
  | nil => rfl
  | cons e L ih =>
    have h1 := h e (by simp)
    have h2 := ih (fun x hx => h x (by simp [hx]))
    cases e <;> simp_all [opened, Event.isOpen]

theorem StreamRun.isStream {env : Env} {file : Str} {r : Res Unit} {S : List Event}
    (h : StreamRun env file r S) : ∀ e ∈ S, e.isStream = true := by
  cases h with
  | open_failed L ho hL =>
    rcases hL with rfl | ⟨ok, rfl⟩ <;> simp [Event.isStream]
  | threw L ho hL =>
    intro e he
    simp only [List.cons_append, List.mem_cons, List.mem_append, List.mem_singleton,
      List.not_mem_nil, or_false] at he
    rcases he with rfl | he | rfl
    · rfl
    · exact Event.isStream_of_isLoop (hL.isLoop e he)
    · rfl
  | returned L ho hL =>
    intro e he
    simp only [List.mem_cons] at he
    rcases he with rfl | he
    · rfl
    · exact Event.isStream_of_isLoop (hL.isLoop e he)
  | stuck L ho hL =>
    intro e he
    simp only [List.mem_cons] at he
    rcases he with rfl | he
    · rfl
    · exact Event.isStream_of_isLoop (hL.isLoop e he)

/-- A call of `write_output_file` opens its file first and opens nothing else. -/
theorem StreamRun.head {env : Env} {file : Str} {r : Res Unit} {S : List Event}
    (h : StreamRun env file r S) :
    ∃ L, S = Event.sys_open file (env.sys_open file) :: L ∧ ∀ e ∈ L, e.isOpen = false := by
  cases h with
  | open_failed L ho hL =>
    refine ⟨L, by rw [ho], ?_⟩
    rcases hL with rfl | ⟨ok, rfl⟩ <;> simp [Event.isOpen]
  | threw L ho hL =>
    refine ⟨L ++ [Event.sys_close (env.sys_open file)], by simp, ?_⟩
    intro e he
    simp only [List.mem_append, List.mem_singleton] at he
    rcases he with he | rfl
    · exact Event.isLoop_not_isOpen (hL.isLoop e he)
    · rfl
  | returned L ho hL => exact ⟨L, rfl, fun e he => Event.isLoop_not_isOpen (hL.isLoop e he)⟩
  | stuck L ho hL => exact ⟨L, rfl, fun e he => Event.isLoop_not_isOpen (hL.isLoop e he)⟩

theorem StreamRun.opened {env : Env} {file : Str} {r : Res Unit} {S : List Event}
    (h : StreamRun env file r S) : opened S = [file] := by
  obtain ⟨L, rfl, hL⟩ := h.head
  simp [Icecream.opened, opened_eq_nil hL]

/-- A call that returns has opened its file with success and ends with the
delivered end marker; nothing in it failed. -/
theorem StreamRun.ret_shape {env : Env} {file : Str} {r : Res Unit} {S : List Event}
    (h : StreamRun env file r S) (hr : r = Res.ret ()) :
    ∃ L1, S = Event.sys_open file (env.sys_open file) :: L1 ++ [Event.send Msg.EndMsg true]
      ∧ (∀ e ∈ S, e.isFailedArtifact = false ∧ e.isStreamError = false) := by
  cases h with
  | open_failed L ho hL => cases hr
  | threw L ho hL => cases hr
  | stuck L ho hL => cases hr
  | returned L ho hL =>
    obtain ⟨L1, rfl, h1⟩ := hL.ret_form rfl
    refine ⟨L1, by simp, ?_⟩
    intro e he
    simp only [List.mem_cons, List.mem_append, List.mem_singleton] at he
    rcases he with rfl | he | he
    · simp [Event.isFailedArtifact, Event.isStreamError, ho]
    · exact h1 e he
    · rcases he with rfl | he
      · simp [Event.isFailedArtifact, Event.isStreamError]
      · cases he

theorem StreamRun.end_delivered_iff {env : Env} {file : Str} {r : Res Unit}
    {S : List Event} (h : StreamRun env file r S) :
    Msg.EndMsg ∈ delivered S ↔ r = Res.ret () := by
  constructor
  · intro hd
    by_contra hr
    cases h with
    | open_failed L ho hL =>
      rcases hL with rfl | ⟨ok, rfl⟩
      · simp [delivered] at hd
      · cases ok <;> simp [delivered] at hd
    | threw L ho hL =>
      have := hL.no_end_delivered (by simp)
      simp [delivered, delivered_append, this] at hd
    | returned L ho hL => exact hr rfl
    | stuck L ho hL =>
      have := hL.no_end_delivered (by simp)
      simp [delivered, this] at hd
  · intro hr
    obtain ⟨L1, rfl, _⟩ := h.ret_shape hr
    simp [delivered, delivered_append]

theorem StreamRun.stuck_clean {env : Env} {file : Str} {r : Res Unit} {S : List Event}
    (h : StreamRun env file r S) (hr : r = Res.stuck) :
    ∀ e ∈ S, e.isFailedArtifact = false ∧ e.isStreamError = false := by
  cases h with
  | open_failed L ho hL => cases hr
  | threw L ho hL => cases hr
  | returned L ho hL => cases hr
  | stuck L ho hL =>
    intro e he
    simp only [List.mem_cons] at he
    rcases he with rfl | he
    · simp [Event.isFailedArtifact, Event.isStreamError, ho]
    · exact hL.stuck_free rfl e he

/-- A call that throws throws `EXIT_DISTCC_FAILED`, contains a failure, and a
failed send in it is followed by the `close` alone. -/
theorem StreamRun.throw_shape {env : Env} {file : Str} {r : Res Unit} {S : List Event}
    (h : StreamRun env file r S) (code : Int) (hr : r = Res.throw code) :
    code = env.EXIT_DISTCC_FAILED
      ∧ (∃ e ∈ S, e.isStreamError = true)
      ∧ ((∀ e ∈ S, e.isFailedArtifact = false)
        ∨ ∃ S1 m, S = S1 ++ [Event.send m false, Event.sys_close (env.sys_open file)]
            ∧ m.isArtifact = true ∧ ∀ e ∈ S1, e.isFailedArtifact = false) := by
  cases h with
  | returned L ho hL => cases hr
  | stuck L ho hL => cases hr
  | open_failed L ho hL =>
    refine ⟨by cases hr; rfl, ⟨Event.sys_open file (-1), by simp, by simp [Event.isStreamError]⟩,
      Or.inl ?_⟩
    rcases hL with rfl | ⟨ok, rfl⟩ <;> simp [Event.isFailedArtifact]
    cases ok <;> simp [Msg.isArtifact]
  | threw L ho hL =>
    obtain ⟨⟨e, he1, he2⟩, h2⟩ := hL.throw_form _ rfl
    refine ⟨by cases hr; rfl, ⟨e, by simp [he1], he2⟩, ?_⟩
    rcases h2 with h2 | ⟨L1, m, rfl, h4, h5⟩
    · refine Or.inl ?_
      intro x hx
      simp only [List.cons_append, List.mem_cons, List.mem_append, List.mem_singleton,
      List.not_mem_nil, or_false] at hx
      rcases hx with rfl | hx | rfl
      · rfl
      · exact h2 x hx
      · rfl
    · refine Or.inr ⟨Event.sys_open file (env.sys_open file) :: L1, m, by simp, h4, ?_⟩
      intro x hx
      simp only [List.mem_cons] at hx
      rcases hx with rfl | hx
      · rfl
      · exact h5 x hx

/-- The exception path of `write_output_file`: when the file was opened and
the call throws, the last event is the `close` of the descriptor. -/
theorem write_output_file_closes_on_throw (env : Env) (file : Str) (fuel : Nat)
    (tr : List Event) (code : Int) (hopen : env.sys_open file ≠ -1)
    (hthrow : (write_output_file env file fuel tr).1 = Res.throw code) :
    ∃ L, (write_output_file env file fuel tr).2
      = tr ++ L ++ [Event.sys_close (env.sys_open file)] := by
  obtain ⟨L, h1, h2⟩ := write_output_file_run env file fuel tr
  rw [hthrow] at h2
  rw [h1]
  cases h2 with
  | open_failed L0 ho _ => exact absurd ho hopen
  | threw L0 _ _ =>
    exact ⟨Event.sys_open file (env.sys_open file) :: L0, by simp⟩

/-- The normal path of `write_output_file`: a call that returns has made no
`close` at all. -/
theorem write_output_file_no_close_on_return (env : Env) (file : Str) (fuel : Nat)
    (tr : List Event) (hret : (write_output_file env file fuel tr).1 = Res.ret ()) :
    ∃ L, (write_output_file env file fuel tr).2 = tr ++ L
      ∧ ∀ fd, Event.sys_close fd ∉ L := by
  obtain ⟨L, h1, h2⟩ := write_output_file_run env file fuel tr
  rw [hret] at h2
  refine ⟨L, h1, ?_⟩
  cases h2 with
  | returned L0 _ hL =>
    intro fd hmem
    rcases List.mem_cons.mp hmem with h | h
    · cases h
    · have := hL.isLoop _ h
      cases this

end Segments2

section Claim3

/-- What an event of reporting is not. -/
theorem Event.isReport_excl {e : Event} (h : e.isReport = true) :
    e.isCleanup = false ∧ e.isArtifact = false ∧ e.isOpen = false
      ∧ e.isFailedArtifact = false ∧ e.isStreamError = false
      ∧ (∀ code, e ≠ Event.sys_exit code) := by
  cases e <;> simp_all [Event.isReport, Event.isCleanup, Event.isArtifact, Event.isOpen,
    Event.isFailedArtifact, Event.isStreamError]
  rename_i m ok
  cases m <;> cases ok <;> simp_all [Event.isReport, Msg.isArtifact, Event.isFailedArtifact,
    Event.isStreamError]

/-- What an event after the `try` block is not. -/
theorem Event.isClosing_excl {e : Event} (h : e.isClosing = true) :
    e.isPipeWrite = false ∧ e.isResult = false ∧ e.isArtifact = false ∧ e.isOpen = false
      ∧ e.isFailedArtifact = false ∧ e.isStreamError = false ∧ e.isSend = false
      ∧ e ≠ Event.pipe_close := by
  cases e <;> simp_all [Event.isClosing, Event.isCleanup, Event.isPipeWrite, Event.isResult,
    Event.isArtifact, Event.isOpen, Event.isFailedArtifact, Event.isStreamError, Event.isSend]

theorem report_events_isReport (env : Env) (s : State) (w : WorkItResult) (ok : Bool) :
    ∀ e ∈ report_events env s w ok, e.isReport = true := by
  simp [report_events, Event.isReport]

theorem pipe_events_isReport (env : Env) (s : State) (w : WorkItResult) :
    ∀ e ∈ pipe_events env s w, e.isReport = true := by
  simp [pipe_events, Event.isReport]

theorem hc_handler_isCleanup (s : State) : ∀ e ∈ hc_handler s, e.isCleanup = true := by
  intro e he
  simp only [hc_handler, List.mem_append, List.mem_singleton] at he
  rcases he with ((((rfl | he) | he) | he) | rfl)
  · rfl
  · split at he
    · cases he
    · simp only [List.mem_singleton] at he; subst he; rfl
  · split at he
    · cases he
    · simp only [List.mem_singleton] at he; subst he; rfl
  · split at he
    · cases he
    · simp only [List.mem_singleton] at he; subst he; rfl
  · rfl

theorem closing_isClosing (s : State) (r : Res Unit) :
    ∀ e ∈ closing s r, e.isClosing = true := by
  intro e he
  cases r with
  | ret a => simp [closing] at he; subst he; rfl
  | stuck => simp [closing] at he
  | throw code =>
    simp only [closing, List.mem_append, List.mem_singleton] at he
    rcases he with he | rfl
    · have := hc_handler_isCleanup s e he
      cases e <;> simp_all [Event.isClosing, Event.isCleanup]
    · rfl

/-- The trace of a run whose result message went out, cut at that message. -/
theorem report_split (env : Env) (s : State) (w : WorkItResult) (ok : Bool)
    (R C : List Event) :
    s.trace ++ (report_events env s w ok ++ R) ++ C
      = (s.trace ++ [Event.stat s.obj_file (env.stat s.obj_file),
          Event.stat s.dwo_file (env.stat s.dwo_file)])
        ++ Event.send (Msg.CompileResultMsg (reported_rmsg env s w).status
            (reported_rmsg env s w).was_out_of_memory
            (reported_rmsg env s w).have_dwo_file) ok :: (R ++ C) := by
  simp [report_events]

theorem setup_stat_excl (env : Env) (s : State)
    (hA : ∀ e ∈ s.trace, e.isSetup = true) :
    ∀ e ∈ s.trace ++ [Event.stat s.obj_file (env.stat s.obj_file),
        Event.stat s.dwo_file (env.stat s.dwo_file)],
      e.isArtifact = false ∧ e.isPipeWrite = false ∧ e.isOpen = false
        ∧ e.isFailedArtifact = false ∧ e.isResult = false ∧ e.isCleanup = false := by
  intro e he
  simp only [List.mem_append, List.mem_cons, List.mem_singleton, List.not_mem_nil,
    or_false] at he
  rcases he with he | rfl | rfl
  · have := Event.isSetup_excl (hA e he)
    simp [this]
  · simp [Event.isArtifact, Event.isPipeWrite, Event.isOpen, Event.isFailedArtifact,
      Event.isResult, Event.isCleanup]
  · simp [Event.isArtifact, Event.isPipeWrite, Event.isOpen, Event.isFailedArtifact,
      Event.isResult, Event.isCleanup]

/-- A run without streaming has no artifact message, no `open` and no failed
artifact send. -/
theorem no_stream_excl (s : State) (r : Res Unit) (F : List Event)
    (hA : ∀ e ∈ s.trace, e.isSetup = true) (hF : ∀ e ∈ F, e.isReport = true) :
    ∀ e ∈ s.trace ++ F ++ closing s r,
      e.isArtifact = false ∧ e.isOpen = false ∧ e.isFailedArtifact = false
        ∧ e.isStreamError = false := by
  intro e he
  simp only [List.mem_append] at he
  rcases he with (he | he) | he
  · have := Event.isSetup_excl (hA e he); simp [this]
  · have := Event.isReport_excl (hF e he); simp [this]
  · have := Event.isClosing_excl (closing_isClosing s r e he); simp [this]

/-- In lines 417-459 without streaming every event is one of reporting. -/
theorem FinishRun.isReport_or_stream {env : Env} {s : State} {w : WorkItResult}
    {r : Res Unit} {F : List Event} (h : FinishRun env s w r F) :
    ∀ e ∈ F, e.isReport = true ∨ e.isStream = true := by
  intro e he
  cases h with
  | hard_failure _ => cases he
  | result_failed _ => exact Or.inl (report_events_isReport env s w false e he)
  | not_streamed _ _ =>
    simp only [List.mem_append] at he
    rcases he with he | he
    · exact Or.inl (report_events_isReport env s w true e he)
    · exact Or.inl (pipe_events_isReport env s w e he)
  | primary r1 S1 _ _ hS1 _ =>
    simp only [List.mem_append] at he
    rcases he with (he | he) | he
    · exact Or.inl (report_events_isReport env s w true e he)
    · exact Or.inl (pipe_events_isReport env s w e he)
    · exact Or.inr (hS1.isStream e he)
  | both S1 r2 S2 _ _ _ hS1 hS2 =>
    simp only [List.mem_append] at he
    rcases he with ((he | he) | he) | he
    · exact Or.inl (report_events_isReport env s w true e he)
    · exact Or.inl (pipe_events_isReport env s w e he)
    · exact Or.inr (hS1.isStream e he)
    · exact Or.inr (hS2.isStream e he)

/-- Before streaming starts there is no `open`, no artifact message and no
failure of streaming. -/
theorem before_stream_excl (env : Env) (s : State) (w : WorkItResult) (ok : Bool)
    (hA : ∀ e ∈ s.trace, e.isSetup = true) :
    ∀ e ∈ s.trace ++ (report_events env s w ok ++ pipe_events env s w),
      e.isArtifact = false ∧ e.isOpen = false ∧ e.isFailedArtifact = false
        ∧ e.isStreamError = false ∧ e.isCleanup = false := by
  intro e he
  simp only [List.mem_append] at he
  rcases he with he | he | he
  · have := Event.isSetup_excl (hA e he); simp [this]
  · have := Event.isReport_excl (report_events_isReport env s w ok e he); simp [this]
  · have := Event.isReport_excl (pipe_events_isReport env s w e he); simp [this]

/-- C3: in every run of the child, of any length, (1) each send of a
`FileChunkMsg` or `EndMsg` comes after a delivered `CompileResultMsg`, and
(2) when a second file is opened for streaming it is the `.dwo` file and the
event just before its `open` is the delivered `EndMsg` of the primary file, so
that all `FileChunkMsg` of the `.dwo` file come after that `EndMsg`. -/
theorem C3_result_then_primary_then_dwo (env : Env) (basedir : Str) (job : CompileJob)
    (mem_limit fuel : Nat) :
    (∀ pre e post,
        (handle_connection_child env basedir job mem_limit fuel).2 = pre ++ e :: post →
        e.isArtifact = true →
        ∃ status oom dwo, Event.send (Msg.CompileResultMsg status oom dwo) true ∈ pre)
    ∧ (∀ pre f2 d2 post,
        (handle_connection_child env basedir job mem_limit fuel).2
          = pre ++ Event.sys_open f2 d2 :: post →
        (∃ f1 d1, Event.sys_open f1 d1 ∈ pre) →
        f2 = (handle_connection_try env basedir job mem_limit fuel).2.dwo_file
        ∧ ∃ p1, pre = p1 ++ [Event.send Msg.EndMsg true]) := by
  obtain ⟨s, r, F, hs, htry, hchild, hcase⟩ := child_shape env basedir job mem_limit fuel
  have hA : ∀ e ∈ s.trace, e.isSetup = true := by
    rw [← hs]; exact (hc_setup_facts env basedir job mem_limit).setup
  rw [hchild, htry]
  simp only
  have hnone : (∀ e ∈ F, e.isReport = true) →
      (∀ pre e post, s.trace ++ F ++ closing s r = pre ++ e :: post →
        e.isArtifact = true →
        ∃ status oom dwo, Event.send (Msg.CompileResultMsg status oom dwo) true ∈ pre)
      ∧ (∀ pre f2 d2 post,
        s.trace ++ F ++ closing s r = pre ++ Event.sys_open f2 d2 :: post →
        (∃ f1 d1, Event.sys_open f1 d1 ∈ pre) →
        f2 = s.dwo_file ∧ ∃ p1, pre = p1 ++ [Event.send Msg.EndMsg true]) := by
    intro hF
    have hex := no_stream_excl s r F hA hF
    constructor
    · intro pre e post h he
      exact (not_split_of_forall Event.isArtifact _ pre post e h he
        (fun x hx => (hex x hx).1)).elim
    · intro pre f2 d2 post h _
      exact (not_split_of_forall Event.isOpen _ pre post _ h rfl
        (fun x hx => (hex x hx).2.1)).elim
  rcases hcase with ⟨rfl, _⟩ | ⟨w, _, hrun⟩
  · exact hnone (by simp)
  · cases hrun with
    | hard_failure _ => exact hnone (by simp)
    | result_failed _ => exact hnone (report_events_isReport env s w false)
    | not_streamed _ _ =>
      refine hnone ?_
      intro e he
      simp only [List.mem_append] at he
      rcases he with he | he
      · exact report_events_isReport env s w true e he
      · exact pipe_events_isReport env s w e he
    | primary r1 S1 _ _ hS1 hd =>
      have hC := closing_isClosing s (thenThrow r1 0)
      constructor
      · intro pre e post h he
        rw [List.append_assoc (report_events env s w true), report_split] at h
        rcases split_first Event.isArtifact _ _ pre post _ e h he
          (fun x hx => (setup_stat_excl env s hA x hx).1) with ⟨_, h2, _⟩ | ⟨t, h2, _⟩
        · rw [h2] at he; cases he
        · exact ⟨(reported_rmsg env s w).status, (reported_rmsg env s w).was_out_of_memory,
            (reported_rmsg env s w).have_dwo_file, by rw [h2]; simp⟩
      · intro pre f2 d2 post h ⟨f1, d1, hpre⟩
        obtain ⟨L, rfl, hL⟩ := hS1.head
        have h2 : (s.trace ++ (report_events env s w true ++ pipe_events env s w))
            ++ Event.sys_open s.obj_file (env.sys_open s.obj_file)
              :: (L ++ closing s (thenThrow r1 0))
            = pre ++ Event.sys_open f2 d2 :: post := by
          rw [← h]; simp
        have h3 := split_unique Event.isOpen _ _ pre post _ _ h2 rfl
          (fun x hx => (before_stream_excl env s w true hA x hx).2.1)
          (fun x hx => by
            rcases List.mem_append.mp hx with hx | hx
            · exact hL x hx
            · exact (Event.isClosing_excl (hC x hx)).2.2.2.1)
        have := (before_stream_excl env s w true hA _ (h3.1 ▸ hpre)).2.1
        cases this
    | both S1 r2 S2 _ _ _ hS1 hS2 =>
      have hC := closing_isClosing s (thenThrow r2 0)
      constructor
      · intro pre e post h he
        rw [List.append_assoc (report_events env s w true ++ pipe_events env s w),
          List.append_assoc (report_events env s w true), report_split] at h
        rcases split_first Event.isArtifact _ _ pre post _ e h he
          (fun x hx => (setup_stat_excl env s hA x hx).1) with ⟨_, h2, _⟩ | ⟨t, h2, _⟩
        · rw [h2] at he; cases he
        · exact ⟨(reported_rmsg env s w).status, (reported_rmsg env s w).was_out_of_memory,
            (reported_rmsg env s w).have_dwo_file, by rw [h2]; simp⟩
      · intro pre f2 d2 post h ⟨f1, d1, hpre⟩
        obtain ⟨L, hS1eq, hL⟩ := hS1.head
        obtain ⟨L1, hS1eq2, _⟩ := hS1.ret_shape rfl
        obtain ⟨L2, rfl, hL2⟩ := hS2.head
        have hLL : L = L1 ++ [Event.send Msg.EndMsg true] := by
          rw [hS1eq] at hS1eq2
          simpa using hS1eq2
        subst hLL
        subst hS1eq
        have h2 : (s.trace ++ (report_events env s w true ++ pipe_events env s w))
            ++ Event.sys_open s.obj_file (env.sys_open s.obj_file)
              :: ((L1 ++ [Event.send Msg.EndMsg true])
                ++ Event.sys_open s.dwo_file (env.sys_open s.dwo_file)
                  :: (L2 ++ closing s (thenThrow r2 0)))
            = pre ++ Event.sys_open f2 d2 :: post := by
          rw [← h]; simp
        rcases split_first Event.isOpen _ _ pre post _ _ h2 rfl
          (fun x hx => (before_stream_excl env s w true hA x hx).2.1)
          with ⟨h3, _, _⟩ | ⟨t, h3, h4⟩
        · have := (before_stream_excl env s w true hA _ (h3 ▸ hpre)).2.1
          cases this
        · have h5 := split_unique Event.isOpen _ _ t post _ _ h4 rfl hL
            (fun x hx => by
              rcases List.mem_append.mp hx with hx | hx
              · exact hL2 x hx
              · exact (Event.isClosing_excl (hC x hx)).2.2.2.1)
          obtain ⟨h6, h7, _⟩ := h5
          refine ⟨by cases h7; rfl, ?_⟩
          refine ⟨s.trace ++ (report_events env s w true ++ pipe_events env s w)
            ++ Event.sys_open s.obj_file (env.sys_open s.obj_file) :: L1, ?_⟩
          rw [h3, h6]
          simp

end Claim3

section Claim4

/-- A runner result that is not reported ends the `try` block at line 426. -/
theorem FinishRun.hard {env : Env} {s : State} {w : WorkItResult} {r : Res Unit}
    {F : List Event} (h : FinishRun env s w r F) (hw : ¬ Soft env w) :
    r = Res.throw w.ret ∧ F = [] := by
  cases h with
  | hard_failure _ => exact ⟨rfl, rfl⟩
  | result_failed hs => exact absurd hs hw
  | not_streamed hs _ => exact absurd hs hw
  | primary r1 S1 hs _ _ _ => exact absurd hs hw
  | both S1 r2 S2 hs _ _ _ _ => exact absurd hs hw

/-- A reported runner result leads to the two `_stat` calls and the send of
the result message. -/
theorem FinishRun.soft {env : Env} {s : State} {w : WorkItResult} {r : Res Unit}
    {F : List Event} (h : FinishRun env s w r F) (hw : Soft env w) :
    ∃ ok R, F = report_events env s w ok ++ R := by
  cases h with
  | hard_failure hs => exact absurd hw hs
  | result_failed _ => exact ⟨false, [], by simp⟩
  | not_streamed _ _ => exact ⟨true, _, rfl⟩
  | primary r1 S1 _ _ _ _ => exact ⟨true, _, List.append_assoc _ _ _⟩
  | both S1 r2 S2 _ _ _ _ _ =>
    exact ⟨true, pipe_events env s w ++ S1 ++ S2, by simp⟩

/-- C4: let the run reach line 417 with return value `w.ret` and result
message `w.rmsg` (what `work_it` returned and filled in).  If `w.ret` is 0 the
worker goes on to report with `was_out_of_memory` as the runner left it; if it
is `EXIT_OUT_OF_MEMORY` or `EXIT_IO_ERROR` (and not 0) it goes on to report
with `was_out_of_memory = true`, the same for both codes; for any other value
it sends no `CompileResultMsg`, runs the handler and exits with `w.ret`. -/
theorem C4_runner_result (env : Env) (basedir : Str) (job : CompileJob)
    (mem_limit fuel : Nat) (w : WorkItResult) (s : State)
    (hrun : hc_setup env basedir job mem_limit = (Res.ret w, s)) :
    (w.ret = 0 → ∃ ok post,
        (handle_connection_child env basedir job mem_limit fuel).2
          = s.trace ++ [Event.stat s.obj_file (env.stat s.obj_file),
              Event.stat s.dwo_file (env.stat s.dwo_file),
              Event.send (Msg.CompileResultMsg w.rmsg.status w.rmsg.was_out_of_memory
                (env.stat s.dwo_file).isSome) ok] ++ post)
    ∧ (w.ret ≠ 0 → w.ret = env.EXIT_OUT_OF_MEMORY ∨ w.ret = env.EXIT_IO_ERROR →
        ∃ ok post,
        (handle_connection_child env basedir job mem_limit fuel).2
          = s.trace ++ [Event.stat s.obj_file (env.stat s.obj_file),
              Event.stat s.dwo_file (env.stat s.dwo_file),
              Event.send (Msg.CompileResultMsg w.rmsg.status true
                (env.stat s.dwo_file).isSome) ok] ++ post)
    ∧ (w.ret ≠ 0 → w.ret ≠ env.EXIT_OUT_OF_MEMORY → w.ret ≠ env.EXIT_IO_ERROR →
        handle_connection_child env basedir job mem_limit fuel
          = (Outcome.exited w.ret, s.trace ++ hc_handler s ++ [Event.sys_exit w.ret])
        ∧ ∀ e ∈ (handle_connection_child env basedir job mem_limit fuel).2,
            e.isResult = false) := by
  obtain ⟨s1, r, F, hs, htry, hchild, hcase⟩ := child_shape env basedir job mem_limit fuel
  have hfacts := hc_setup_facts env basedir job mem_limit
  rw [hrun] at hs hcase hfacts
  simp only at hs
  subst hs
  have hfin : FinishRun env s w r F := by
    rcases hcase with ⟨_, code, _, h⟩ | ⟨w1, h, hrun1⟩
    · cases h
    · cases h; exact hrun1
  rw [hchild]
  refine ⟨?_, ?_, ?_⟩
  · intro h0
    obtain ⟨ok, R, rfl⟩ := hfin.soft (Or.inl h0)
    exact ⟨ok, R ++ closing s r, by simp [report_events, reported_rmsg, h0]⟩
  · intro h0 h1
    obtain ⟨ok, R, rfl⟩ := hfin.soft (Or.inr h1)
    exact ⟨ok, R ++ closing s r, by simp [report_events, reported_rmsg, h0]⟩
  · intro h0 h1 h2
    obtain ⟨rfl, rfl⟩ := hfin.hard (by rintro (h | h | h) <;> contradiction)
    refine ⟨by simp [outcomeOf, closing], ?_⟩
    intro e he
    simp only [List.append_nil, List.mem_append] at he
    rcases he with he | he
    · exact (Event.isSetup_excl (hfacts.setup e he)).2.2.1
    · exact (Event.isClosing_excl (closing_isClosing s _ e he)).2.1

end Claim4

/-- Witness of C4: a runner that returns 3 for a job without DWARF fission. -/
theorem C4_runner_result_witness :
    hc_setup envHard (lit "/var/icecc") jobPlain 0
        = (Res.ret wHard, (hc_setup envHard (lit "/var/icecc") jobPlain 0).2)
    ∧ handle_connection_child envHard (lit "/var/icecc") jobPlain 0 1
        = (Outcome.exited 3,
            (hc_setup envHard (lit "/var/icecc") jobPlain 0).2.trace
              ++ hc_handler (hc_setup envHard (lit "/var/icecc") jobPlain 0).2
              ++ [Event.sys_exit 3]) :=
  ⟨by rfl,
    ((C4_runner_result envHard (lit "/var/icecc") jobPlain 0 1 wHard
      (hc_setup envHard (lit "/var/icecc") jobPlain 0).2 (by rfl)).2.2
        (by decide) (by decide) (by decide)).1⟩

section Claim5

theorem mem_delivered (m : Msg) (L : List Event) :
    m ∈ delivered L ↔ Event.send m true ∈ L := by
  induction L with
  | nil => simp [delivered]
  | cons e L ih =>
    cases e with
    | send m1 ok => cases ok <;> simp [delivered, ih]
    | _ => simp [delivered, ih]

/-- A delivered `CompileResultMsg` in the trace of a run is the one of line
440, and the run has gone on to the notification pipe and the status check. -/
theorem FinishRun.of_delivered {env : Env} {s : State} {w : WorkItResult} {r : Res Unit}
    {F : List Event} (h : FinishRun env s w r F) (hA : ∀ e ∈ s.trace, e.isSetup = true)
    (status : Int) (oom dwo : Bool)
    (hmem : Event.send (Msg.CompileResultMsg status oom dwo) true
      ∈ s.trace ++ F ++ closing s r) :
    status = w.rmsg.status ∧ oom = (reported_rmsg env s w).was_out_of_memory
      ∧ dwo = (env.stat s.dwo_file).isSome
      ∧ ((status ≠ 0 ∧ F = report_events env s w true ++ pipe_events env s w
            ∧ r = Res.throw status)
        ∨ (status = 0 ∧ ∃ r1 S1, StreamRun env s.obj_file r1 S1
            ∧ (r1 = Res.ret () → dwo = false)
            ∧ F = report_events env s w true ++ pipe_events env s w ++ S1
            ∧ r = thenThrow r1 0)
        ∨ (status = 0 ∧ dwo = true ∧ ∃ S1 r2 S2, StreamRun env s.obj_file (Res.ret ()) S1
            ∧ StreamRun env s.dwo_file r2 S2
            ∧ F = report_events env s w true ++ pipe_events env s w ++ S1 ++ S2
            ∧ r = thenThrow r2 0)) := by
  have hF : Event.send (Msg.CompileResultMsg status oom dwo) true ∈ F := by
    simp only [List.mem_append] at hmem
    rcases hmem with (hm | hm) | hm
    · have := (Event.isSetup_excl (hA _ hm)).2.2.1
      cases this
    · exact hm
    · have := (Event.isClosing_excl (closing_isClosing s r _ hm)).2.1
      cases this
  have hid : ∀ R : List Event, (∀ e ∈ R, e.isStream = true) →
      Event.send (Msg.CompileResultMsg status oom dwo) true
        ∈ report_events env s w true ++ pipe_events env s w ++ R →
      status = w.rmsg.status ∧ oom = (reported_rmsg env s w).was_out_of_memory
        ∧ dwo = (env.stat s.dwo_file).isSome := by
    intro R hR hm
    simp only [List.mem_append] at hm
    rcases hm with (hm | hm) | hm
    · simpa [report_events, reported_rmsg] using hm
    · simp [pipe_events] at hm
    · have := (Event.isStream_excl (hR _ hm)).2.2.1
      cases this
  cases h with
  | hard_failure _ => cases hF
  | result_failed _ => simp [report_events] at hF
  | not_streamed _ hst =>
    obtain ⟨h1, h2, h3⟩ := hid [] (by simp) (by simpa using hF)
    exact ⟨h1, h2, h3, Or.inl ⟨by rw [h1]; exact hst, rfl, by rw [h1]⟩⟩
  | primary r1 S1 _ hst hS1 hd =>
    obtain ⟨h1, h2, h3⟩ := hid S1 hS1.isStream hF
    exact ⟨h1, h2, h3, Or.inr (Or.inl ⟨by rw [h1]; exact hst, r1, S1, hS1,
      fun hr => by rw [h3]; exact hd hr, rfl, rfl⟩)⟩
  | both S1 r2 S2 _ hst hd hS1 hS2 =>
    have hR : ∀ e ∈ S1 ++ S2, e.isStream = true := by
      intro e he
      rcases List.mem_append.mp he with he | he
      · exact hS1.isStream e he
      · exact hS2.isStream e he
    obtain ⟨h1, h2, h3⟩ := hid (S1 ++ S2) hR (by simpa [List.append_assoc] using hF)
    exact ⟨h1, h2, h3, Or.inr (Or.inr ⟨by rw [h1]; exact hst, by rw [h3]; exact hd,
      S1, r2, S2, hS1, hS2, rfl, rfl⟩)⟩

/-- The shape of a run of the child in which a `CompileResultMsg` with the
fields `status`, `oom`, `dwo` was delivered. -/
theorem child_of_delivered (env : Env) (basedir : Str) (job : CompileJob)
    (mem_limit fuel : Nat) (status : Int) (oom dwo : Bool)
    (hsent : Event.send (Msg.CompileResultMsg status oom dwo) true
      ∈ (handle_connection_child env basedir job mem_limit fuel).2) :
    ∃ (s : State) (w : WorkItResult) (r : Res Unit) (F : List Event),
      hc_setup env basedir job mem_limit = (Res.ret w, s)
      ∧ handle_connection_try env basedir job mem_limit fuel
          = (r, { s with trace := s.trace ++ F })
      ∧ handle_connection_child env basedir job mem_limit fuel
          = (outcomeOf r, s.trace ++ F ++ closing s r)
      ∧ status = w.rmsg.status ∧ oom = (reported_rmsg env s w).was_out_of_memory
      ∧ dwo = (env.stat s.dwo_file).isSome
      ∧ ((status ≠ 0 ∧ F = report_events env s w true ++ pipe_events env s w
            ∧ r = Res.throw status)
        ∨ (status = 0 ∧ ∃ r1 S1, StreamRun env s.obj_file r1 S1
            ∧ (r1 = Res.ret () → dwo = false)
            ∧ F = report_events env s w true ++ pipe_events env s w ++ S1
            ∧ r = thenThrow r1 0)
        ∨ (status = 0 ∧ dwo = true ∧ ∃ S1 r2 S2, StreamRun env s.obj_file (Res.ret ()) S1
            ∧ StreamRun env s.dwo_file r2 S2
            ∧ F = report_events env s w true ++ pipe_events env s w ++ S1 ++ S2
            ∧ r = thenThrow r2 0)) := by
  obtain ⟨s, r, F, hs, htry, hchild, hcase⟩ := child_shape env basedir job mem_limit fuel
  have hA : ∀ e ∈ s.trace, e.isSetup = true := by
    rw [← hs]; exact (hc_setup_facts env basedir job mem_limit).setup
  rw [hchild] at hsent
  simp only at hsent
  rcases hcase with ⟨rfl, code, rfl, _⟩ | ⟨w, hw, hrun⟩
  · exfalso
    simp only [List.append_nil, List.mem_append] at hsent
    rcases hsent with hm | hm
    · have := (Event.isSetup_excl (hA _ hm)).2.2.1
      cases this
    · have := (Event.isClosing_excl (closing_isClosing s _ _ hm)).2.1
      cases this
  · obtain ⟨h1, h2, h3, h4⟩ := hrun.of_delivered hA status oom dwo hsent
    refine ⟨s, w, r, F, ?_, htry, hchild, h1, h2, h3, h4⟩
    rw [← hs, ← hw]

theorem opened_setup {L : List Event} (h : ∀ e ∈ L, e.isSetup = true) : opened L = [] :=
  opened_eq_nil (fun e he => (Event.isSetup_excl (h e he)).2.2.2.2.1)

theorem opened_closing (s : State) (r : Res Unit) : opened (closing s r) = [] :=
  opened_eq_nil (fun e he => (Event.isClosing_excl (closing_isClosing s r e he)).2.2.2.1)

theorem opened_report (env : Env) (s : State) (w : WorkItResult) (ok : Bool) :
    opened (report_events env s w ok) = [] := by
  simp [report_events, opened]

theorem opened_pipe (env : Env) (s : State) (w : WorkItResult) :
    opened (pipe_events env s w) = [] := by
  simp [pipe_events, opened]

/-- Before streaming, and after the `try` block, no `EndMsg` is delivered. -/
theorem no_end_outside (env : Env) (s : State) (w : WorkItResult) (r : Res Unit)
    (hA : ∀ e ∈ s.trace, e.isSetup = true) :
    Event.send Msg.EndMsg true ∉ s.trace
      ∧ Event.send Msg.EndMsg true ∉ report_events env s w true
      ∧ Event.send Msg.EndMsg true ∉ pipe_events env s w
      ∧ Event.send Msg.EndMsg true ∉ closing s r := by
  refine ⟨fun h => ?_, by simp [report_events], by simp [pipe_events], fun h => ?_⟩
  · have := (Event.isSetup_excl (hA _ h)).2.2.2.1
    cases this
  · have := (Event.isClosing_excl (closing_isClosing s r _ h)).2.2.1
    cases this

/-- C5: in a run in which the `CompileResultMsg`, with fields `status`, `oom`
and `dwo`, was delivered, the files handed to `write_output_file` are: none
when `status` is not 0; the primary output when `status` is 0, whatever `oom`
is; and after it the `.dwo` file exactly when moreover `dwo` is set and the
primary file went through to its delivered `EndMsg`. -/
theorem C5_streaming_gate (env : Env) (basedir : Str) (job : CompileJob)
    (mem_limit fuel : Nat) (status : Int) (oom dwo : Bool)
    (hsent : Event.send (Msg.CompileResultMsg status oom dwo) true
      ∈ (handle_connection_child env basedir job mem_limit fuel).2) :
    opened (handle_connection_child env basedir job mem_limit fuel).2
      = if status = 0 then
          (handle_connection_try env basedir job mem_limit fuel).2.obj_file
            :: (if dwo = true ∧ Event.send Msg.EndMsg true
                  ∈ (handle_connection_child env basedir job mem_limit fuel).2
                then [(handle_connection_try env basedir job mem_limit fuel).2.dwo_file]
                else [])
        else [] := by
  obtain ⟨s, w, r, F, hsu, htry, hchild, _, _, _, hcase⟩ :=
    child_of_delivered env basedir job mem_limit fuel status oom dwo hsent
  have hA : ∀ e ∈ s.trace, e.isSetup = true := by
    have := (hc_setup_facts env basedir job mem_limit).setup
    rw [hsu] at this; exact this
  obtain ⟨hn1, hn2, hn3, hn4⟩ := no_end_outside env s w r hA
  rw [hchild, htry]
  simp only
  rcases hcase with ⟨hst, rfl, rfl⟩ | ⟨hst, r1, S1, hS1, hd, rfl, rfl⟩
      | ⟨hst, hd, S1, r2, S2, hS1, hS2, rfl, rfl⟩
  · simp [hst, opened_append, opened_setup hA, opened_report, opened_pipe, opened_closing]
  · have hend : ¬ (dwo = true ∧ Event.send Msg.EndMsg true
        ∈ s.trace ++ (report_events env s w true ++ pipe_events env s w ++ S1)
          ++ closing s (thenThrow r1 0)) := by
      rintro ⟨h1, h2⟩
      simp only [List.mem_append] at h2
      rcases h2 with (h2 | (h2 | h2) | h2) | h2
      · exact hn1 h2
      · exact hn2 h2
      · exact hn3 h2
      · have := hd (hS1.end_delivered_iff.mp ((mem_delivered _ _).mpr h2))
        rw [h1] at this; cases this
      · exact hn4 h2
    rw [if_pos hst, if_neg hend]
    simp [opened_append, opened_setup hA, opened_report, opened_pipe, opened_closing,
      hS1.opened]
  · have hend : dwo = true ∧ Event.send Msg.EndMsg true
        ∈ s.trace ++ (report_events env s w true ++ pipe_events env s w ++ S1 ++ S2)
          ++ closing s (thenThrow r2 0) := by
      refine ⟨hd, ?_⟩
      have := (mem_delivered _ _).mp (hS1.end_delivered_iff.mpr rfl)
      simp [this]
    rw [if_pos hst, if_pos hend]
    simp [opened_append, opened_setup hA, opened_report, opened_pipe, opened_closing,
      hS1.opened, hS2.opened]

/-- Witness of C5: a DWARF fission job whose two output files are empty. -/
theorem C5_streaming_gate_witness :
    Event.send (Msg.CompileResultMsg 0 false true) true
        ∈ (handle_connection_child envEmptyFile (lit "/var/icecc") jobFission 0 2).2
    ∧ opened (handle_connection_child envEmptyFile (lit "/var/icecc") jobFission 0 2).2
      = if (0 : Int) = 0 then
          (handle_connection_try envEmptyFile (lit "/var/icecc") jobFission 0 2).2.obj_file
            :: (if true = true ∧ Event.send Msg.EndMsg true
                  ∈ (handle_connection_child envEmptyFile (lit "/var/icecc") jobFission 0 2).2
                then [(handle_connection_try envEmptyFile (lit "/var/icecc")
                  jobFission 0 2).2.dwo_file]
                else [])
        else [] :=
  ⟨by decide,
    C5_streaming_gate envEmptyFile (lit "/var/icecc") jobFission 0 2 0 false true (by decide)⟩

end Claim5

section Claim6

/-- With a read that ends the loop within the fuel, the loop is left. -/
theorem write_output_loop_not_stuck (env : Env) (fd : Int) :
    ∀ (fuel i : Nat) (tr : List Event),
      (∃ k, i ≤ k ∧ k < i + fuel ∧ ReadEnds env fd k) →
      (write_output_loop env fd fuel i tr).1 ≠ Res.stuck := by
  intro fuel
  induction fuel with
  | zero =>
    rintro i tr ⟨k, h1, h2, _⟩
    omega
  | succ fuel ih =>
    rintro i tr ⟨k, h1, h2, h3⟩
    have hnext : ¬ ReadEnds env fd i → ∃ k, i + 1 ≤ k ∧ k < i + 1 + fuel ∧ ReadEnds env fd k := by
      intro hi
      have hne : k ≠ i := fun h => hi (h ▸ h3)
      exact ⟨k, by omega, by omega, h3⟩
    simp only [write_output_loop, send_msg]
    by_cases hneg : (env.read fd i).bytes < 0
    · by_cases he : (env.read fd i).errno = EINTR
      · simp only [hneg, he, if_true]
        have := ih (i + 1) (tr ++ [Event.sys_read fd (env.read fd i).bytes (env.read fd i).errno])
          (hnext (by unfold ReadEnds; rintro (h | ⟨_, h⟩) <;> [omega; exact h he]))
        simpa [he] using this
      · simp [hneg, he]
    · by_cases hz : (env.read fd i).bytes = 0
      · cases hs : env.send_ok (sendCount
            (tr ++ [Event.sys_read fd (env.read fd i).bytes (env.read fd i).errno])) <;>
          simp [hz, hs]
      · cases hs : env.send_ok (sendCount
            (tr ++ [Event.sys_read fd (env.read fd i).bytes (env.read fd i).errno]))
        · simp [hneg, hz, hs]
        · simp only [hneg, hz, hs, if_false, Bool.true_eq_false]
          exact ih (i + 1) _
            (hnext (by unfold ReadEnds; rintro (h | ⟨h, _⟩) <;> [exact hz h; exact hneg h]))

theorem write_output_file_not_stuck (env : Env) (file : Str) (fuel : Nat) (tr : List Event)
    (h : ∃ k, k < fuel ∧ ReadEnds env (env.sys_open file) k) :
    (write_output_file env file fuel tr).1 ≠ Res.stuck := by
  obtain ⟨k, h1, h2⟩ := h
  by_cases ho : env.sys_open file = -1
  · simp [write_output_file, write_output_catch, ho]
  · have := write_output_loop_not_stuck env (env.sys_open file) fuel 0
      (tr ++ [Event.sys_open file (env.sys_open file)]) ⟨k, by omega, by omega, h2⟩
    simp only [write_output_file, ho, if_false, write_output_catch]
    generalize write_output_loop env (env.sys_open file) fuel 0
      (tr ++ [Event.sys_open file (env.sys_open file)]) = x at this
    obtain ⟨r, t⟩ := x
    cases r <;> simp_all

/-- With enough fuel for both files, lines 417-459 end with an exception. -/
theorem hc_finish_not_stuck (env : Env) (fuel : Nat) (w : WorkItResult) (s : State)
    (h1 : ∃ k, k < fuel ∧ ReadEnds env (env.sys_open s.obj_file) k)
    (h2 : ∃ k, k < fuel ∧ ReadEnds env (env.sys_open s.dwo_file) k) :
    (hc_finish env fuel w s).1 ≠ Res.stuck := by
  by_cases hsoft : Soft env w
  · unfold hc_finish
    rw [hc_interpret_soft env w s hsoft]
    simp only [andThen]
    rw [hc_report_run env w s]
    cases hok : env.send_ok (sendCount (s.trace ++
        [Event.stat s.obj_file (env.stat s.obj_file),
         Event.stat s.dwo_file (env.stat s.dwo_file)]))
    · simp
    · simp only [Bool.true_eq_false, if_false]
      unfold hc_stream
      by_cases hst : (reported_rmsg env s w).status = 0
      · simp only [hst, if_true, State.write_output_file]
        have n1 := write_output_file_not_stuck env s.obj_file fuel
          (s.trace ++ (report_events env s w true ++ pipe_events env s w)) h1
        generalize write_output_file env s.obj_file fuel
          (s.trace ++ (report_events env s w true ++ pipe_events env s w)) = x at n1
        obtain ⟨r1, t1⟩ := x
        cases r1 with
        | stuck => exact absurd rfl n1
        | throw code => simp [andThen]
        | ret a =>
          simp only [andThen]
          cases hd : (reported_rmsg env s w).have_dwo_file
          · simp
          · simp only [if_true]
            have n2 := write_output_file_not_stuck env s.dwo_file fuel t1 h2
            generalize write_output_file env s.dwo_file fuel t1 = y at n2
            obtain ⟨r2, t2⟩ := y
            cases r2 with
            | stuck => exact absurd rfl n2
            | throw code => simp
            | ret a => simp
      · simp [hst, andThen]
  · simp [hc_finish, hc_interpret_hard env w s hsoft, andThen]

/-- The `try` block never ends with a plain return. -/
theorem FinishRun.not_ret {env : Env} {s : State} {w : WorkItResult} {r : Res Unit}
    {F : List Event} (h : FinishRun env s w r F) : ∀ a, r ≠ Res.ret a := by
  intro a
  cases h with
  | hard_failure _ => simp
  | result_failed _ => simp
  | not_streamed _ _ => simp
  | primary r1 S1 _ _ _ _ => cases r1 <;> simp [thenThrow]
  | both S1 r2 S2 _ _ _ _ _ => cases r2 <;> simp [thenThrow]

/-- C6: the child never leaves the `try` block by a plain return: in every
run the block is left by one `myexception` whose code is the argument of the
final `_exit` (or, in the model, the fuel ran out inside a streaming loop).
When the `CompileResultMsg` was delivered and no `open`, `read` or send of the
streaming failed, that code is the `status` of the message, which is 0 when a
file was streamed.  When on each descriptor some `read` reports the end of the
file or a hard error, every run with enough fuel ends in `_exit`. -/
theorem C6_child_ends_in_exit (env : Env) (basedir : Str) (job : CompileJob)
    (mem_limit : Nat) :
    (∀ fuel,
      (∀ a, (handle_connection_try env basedir job mem_limit fuel).1 ≠ Res.ret a)
      ∧ (((handle_connection_try env basedir job mem_limit fuel).1 = Res.stuck
          ∧ (handle_connection_child env basedir job mem_limit fuel).1 = Outcome.running)
        ∨ ∃ code body,
            (handle_connection_try env basedir job mem_limit fuel).1 = Res.throw code
            ∧ handle_connection_child env basedir job mem_limit fuel
              = (Outcome.exited code, body ++ [Event.sys_exit code]))
      ∧ (∀ status oom dwo code,
          Event.send (Msg.CompileResultMsg status oom dwo) true
            ∈ (handle_connection_child env basedir job mem_limit fuel).2 →
          (handle_connection_child env basedir job mem_limit fuel).1 = Outcome.exited code →
          (∀ e ∈ (handle_connection_child env basedir job mem_limit fuel).2,
            e.isStreamError = false) →
          code = status
          ∧ ((∃ f d, Event.sys_open f d
              ∈ (handle_connection_child env basedir job mem_limit fuel).2) → code = 0)))
    ∧ ((∀ fd, ∃ k, ReadEnds env fd k) →
        ∃ fuel0, ∀ fuel, fuel0 ≤ fuel → ∃ code body,
          handle_connection_child env basedir job mem_limit fuel
            = (Outcome.exited code, body ++ [Event.sys_exit code])) := by
  have hmain : ∀ fuel,
      (∀ a, (handle_connection_try env basedir job mem_limit fuel).1 ≠ Res.ret a)
      ∧ (((handle_connection_try env basedir job mem_limit fuel).1 = Res.stuck
          ∧ (handle_connection_child env basedir job mem_limit fuel).1 = Outcome.running)
        ∨ ∃ code body,
            (handle_connection_try env basedir job mem_limit fuel).1 = Res.throw code
            ∧ handle_connection_child env basedir job mem_limit fuel
              = (Outcome.exited code, body ++ [Event.sys_exit code])) := by
    intro fuel
    obtain ⟨s, r, F, hs, htry, hchild, hcase⟩ := child_shape env basedir job mem_limit fuel
    have hnr : ∀ a, r ≠ Res.ret a := by
      rcases hcase with ⟨_, code, rfl, _⟩ | ⟨w, _, hrun⟩
      · simp
      · exact hrun.not_ret
    rw [htry, hchild]
    refine ⟨hnr, ?_⟩
    cases r with
    | ret a => exact absurd rfl (hnr a)
    | stuck => exact Or.inl ⟨rfl, rfl⟩
    | throw code =>
      exact Or.inr ⟨code, s.trace ++ F ++ hc_handler s, rfl, by simp [outcomeOf, closing]⟩
  refine ⟨fun fuel => ⟨(hmain fuel).1, (hmain fuel).2, ?_⟩, ?_⟩
  · intro status oom dwo code hsent hexit hclean
    obtain ⟨s, w, r, F, hsu, htry, hchild, _, _, _, hcase⟩ :=
      child_of_delivered env basedir job mem_limit fuel status oom dwo hsent
    have hA : ∀ e ∈ s.trace, e.isSetup = true := by
      have := (hc_setup_facts env basedir job mem_limit).setup
      rw [hsu] at this; exact this
    rw [hchild] at hexit hclean ⊢
    simp only at hexit hclean ⊢
    have hstream : ∀ (file : Str) (r1 : Res Unit) (S1 : List Event),
        StreamRun env file r1 S1 → (∀ e ∈ S1, e.isStreamError = false) →
        outcomeOf (thenThrow r1 0) = Outcome.exited code → code = 0 := by
      intro file r1 S1 hS1 hcl hout
      cases r1 with
      | ret a => simpa [outcomeOf, thenThrow] using hout.symm
      | stuck => simp [outcomeOf, thenThrow] at hout
      | throw c =>
        obtain ⟨_, ⟨e, he1, he2⟩, _⟩ := hS1.throw_shape c rfl
        rw [hcl e he1] at he2
        cases he2
    rcases hcase with ⟨hst, rfl, rfl⟩ | ⟨hst, r1, S1, hS1, hd, rfl, rfl⟩
        | ⟨hst, hd, S1, r2, S2, hS1, hS2, rfl, rfl⟩
    · have hc : code = status := by simpa [outcomeOf] using hexit.symm
      refine ⟨hc, ?_⟩
      rintro ⟨f, d, hopen⟩
      exfalso
      have := (no_stream_excl s (Res.throw status)
        (report_events env s w true ++ pipe_events env s w) hA (by
          intro e he
          rcases List.mem_append.mp he with he | he
          · exact report_events_isReport env s w true e he
          · exact pipe_events_isReport env s w e he) _ hopen).2.1
      cases this
    · have h0 := hstream _ r1 S1 hS1 (fun e he => hclean e (by simp [he])) hexit
      exact ⟨by rw [h0, hst], fun _ => h0⟩
    · have h0 := hstream _ r2 S2 hS2 (fun e he => hclean e (by simp [he])) hexit
      exact ⟨by rw [h0, hst], fun _ => h0⟩
  · intro hreads
    obtain ⟨k1, hk1⟩ := hreads (env.sys_open (hc_setup env basedir job mem_limit).2.obj_file)
    obtain ⟨k2, hk2⟩ := hreads (env.sys_open (hc_setup env basedir job mem_limit).2.dwo_file)
    refine ⟨max k1 k2 + 1, fun fuel hfuel => ?_⟩
    rcases (hmain fuel).2 with ⟨hstuck, _⟩ | h
    · exfalso
      rw [handle_connection_try_eq] at hstuck
      have hfacts := hc_setup_facts env basedir job mem_limit
      generalize hc_setup env basedir job mem_limit = su at hfacts hstuck hk1 hk2
      obtain ⟨r0, s⟩ := su
      cases r0 with
      | stuck => exact hfacts.not_stuck rfl
      | throw code => simp [andThen] at hstuck
      | ret w =>
        simp only [andThen] at hstuck
        exact hc_finish_not_stuck env fuel w s ⟨k1, by omega, hk1⟩ ⟨k2, by omega, hk2⟩ hstuck
    · obtain ⟨code, body, _, h2⟩ := h
      exact ⟨code, body, h2⟩

/-- Witness of C6: every read of `envEmptyFile` reports the end of the file. -/
theorem C6_child_ends_in_exit_witness :
    (∀ fd, ∃ k, ReadEnds envEmptyFile fd k)
    ∧ ∃ fuel0, ∀ fuel, fuel0 ≤ fuel → ∃ code body,
        handle_connection_child envEmptyFile (lit "/var/icecc") jobFission 0 fuel
          = (Outcome.exited code, body ++ [Event.sys_exit code]) :=
  ⟨fun _ => ⟨0, Or.inl rfl⟩,
    (C6_child_ends_in_exit envEmptyFile (lit "/var/icecc") jobFission 0).2
      (fun _ => ⟨0, Or.inl rfl⟩)⟩

end Claim6

section Claim7

theorem countP_eq_zero_of {p : Event → Bool} {L : List Event} (h : ∀ e ∈ L, p e = false) :
    L.countP p = 0 := by
  rw [List.countP_eq_zero]
  intro e he
  simp [h e he]

/-- C7: in every run of the child, of any length, the statistics array is
written to the notification pipe at most once.  When the `CompileResultMsg`
was delivered, the write and the close of the pipe follow that send at once,
before any `FileChunkMsg` or `EndMsg`, and there is no other write or close.
When no `CompileResultMsg` was delivered (the run failed before, or the send
itself failed) the pipe is neither written nor closed. -/
theorem C7_statistics_written_once (env : Env) (basedir : Str) (job : CompileJob)
    (mem_limit fuel : Nat) :
    (handle_connection_child env basedir job mem_limit fuel).2.countP Event.isPipeWrite ≤ 1
    ∧ (∀ status oom dwo,
        Event.send (Msg.CompileResultMsg status oom dwo) true
          ∈ (handle_connection_child env basedir job mem_limit fuel).2 →
        ∃ pre job_stat post,
          (handle_connection_child env basedir job mem_limit fuel).2
            = pre ++ [Event.send (Msg.CompileResultMsg status oom dwo) true,
                Event.pipe_write job_stat, Event.pipe_close] ++ post
          ∧ (∀ e ∈ pre, e.isPipeWrite = false ∧ e ≠ Event.pipe_close ∧ e.isArtifact = false)
          ∧ (∀ e ∈ post, e.isPipeWrite = false ∧ e ≠ Event.pipe_close))
    ∧ ((∀ status oom dwo, Event.send (Msg.CompileResultMsg status oom dwo) true
          ∉ (handle_connection_child env basedir job mem_limit fuel).2) →
        ∀ e ∈ (handle_connection_child env basedir job mem_limit fuel).2,
          e.isPipeWrite = false ∧ e ≠ Event.pipe_close) := by
  have hsent : ∀ status oom dwo,
      Event.send (Msg.CompileResultMsg status oom dwo) true
        ∈ (handle_connection_child env basedir job mem_limit fuel).2 →
      ∃ pre job_stat post,
        (handle_connection_child env basedir job mem_limit fuel).2
          = pre ++ [Event.send (Msg.CompileResultMsg status oom dwo) true,
              Event.pipe_write job_stat, Event.pipe_close] ++ post
        ∧ (∀ e ∈ pre, e.isPipeWrite = false ∧ e ≠ Event.pipe_close ∧ e.isArtifact = false)
        ∧ (∀ e ∈ post, e.isPipeWrite = false ∧ e ≠ Event.pipe_close) := by
    intro status oom dwo hmem
    obtain ⟨s, w, r, F, hsu, htry, hchild, h1, h2, h3, hcase⟩ :=
      child_of_delivered env basedir job mem_limit fuel status oom dwo hmem
    have hA : ∀ e ∈ s.trace, e.isSetup = true := by
      have := (hc_setup_facts env basedir job mem_limit).setup
      rw [hsu] at this; exact this
    have hpre : ∀ e ∈ s.trace ++ [Event.stat s.obj_file (env.stat s.obj_file),
        Event.stat s.dwo_file (env.stat s.dwo_file)],
        e.isPipeWrite = false ∧ e ≠ Event.pipe_close ∧ e.isArtifact = false := by
      intro e he
      simp only [List.mem_append, List.mem_cons, List.mem_singleton, List.not_mem_nil,
        or_false] at he
      rcases he with he | rfl | rfl
      · have := Event.isSetup_excl (hA e he)
        exact ⟨this.1, this.2.2.2.2.2.2.2.1, this.2.2.2.1⟩
      · simp [Event.isPipeWrite, Event.isArtifact]
      · simp [Event.isPipeWrite, Event.isArtifact]
    have hpost : ∀ (R : List Event), (∀ e ∈ R, e.isStream = true) →
        ∀ e ∈ R ++ closing s r, e.isPipeWrite = false ∧ e ≠ Event.pipe_close := by
      intro R hR e he
      rcases List.mem_append.mp he with he | he
      · have := Event.isStream_excl (hR e he)
        exact ⟨this.1, this.2.2.2.1⟩
      · have := Event.isClosing_excl (closing_isClosing s r e he)
        exact ⟨this.1, this.2.2.2.2.2.2.2⟩
    have hform : ∀ R : List Event,
        s.trace ++ (report_events env s w true ++ pipe_events env s w ++ R) ++ closing s r
          = (s.trace ++ [Event.stat s.obj_file (env.stat s.obj_file),
              Event.stat s.dwo_file (env.stat s.dwo_file)])
            ++ [Event.send (Msg.CompileResultMsg status oom dwo) true,
              Event.pipe_write (reported_stat env s w), Event.pipe_close]
            ++ (R ++ closing s r) := by
      intro R
      simp [report_events, pipe_events, h1, h2, h3, reported_rmsg]
    have key : ∀ R : List Event, (∀ e ∈ R, e.isStream = true) →
        F = report_events env s w true ++ pipe_events env s w ++ R →
        ∃ pre job_stat post,
          (handle_connection_child env basedir job mem_limit fuel).2
            = pre ++ [Event.send (Msg.CompileResultMsg status oom dwo) true,
                Event.pipe_write job_stat, Event.pipe_close] ++ post
          ∧ (∀ e ∈ pre, e.isPipeWrite = false ∧ e ≠ Event.pipe_close ∧ e.isArtifact = false)
          ∧ (∀ e ∈ post, e.isPipeWrite = false ∧ e ≠ Event.pipe_close) := by
      intro R hR hF
      refine ⟨s.trace ++ [Event.stat s.obj_file (env.stat s.obj_file),
        Event.stat s.dwo_file (env.stat s.dwo_file)], reported_stat env s w,
        R ++ closing s r, ?_, hpre, hpost R hR⟩
      rw [hchild, hF]
      exact hform R
    rcases hcase with ⟨_, hF, _⟩ | ⟨_, r1, S1, hS1, _, hF, _⟩
        | ⟨_, _, S1, r2, S2, hS1, hS2, hF, _⟩
    · exact key [] (by simp) (by simpa using hF)
    · exact key S1 hS1.isStream hF
    · refine key (S1 ++ S2) (fun e he => ?_) (by simpa [List.append_assoc] using hF)
      rcases List.mem_append.mp he with he | he
      · exact hS1.isStream e he
      · exact hS2.isStream e he
  have hnone : (∀ status oom dwo, Event.send (Msg.CompileResultMsg status oom dwo) true
        ∉ (handle_connection_child env basedir job mem_limit fuel).2) →
      ∀ e ∈ (handle_connection_child env basedir job mem_limit fuel).2,
        e.isPipeWrite = false ∧ e ≠ Event.pipe_close := by
    intro hno
    obtain ⟨s, r, F, hs, htry, hchild, hcase⟩ := child_shape env basedir job mem_limit fuel
    have hA : ∀ e ∈ s.trace, e.isSetup = true := by
      rw [← hs]; exact (hc_setup_facts env basedir job mem_limit).setup
    rw [hchild] at hno ⊢
    simp only at hno ⊢
    have hAC : ∀ e, e ∈ s.trace ∨ e ∈ closing s r →
        e.isPipeWrite = false ∧ e ≠ Event.pipe_close := by
      rintro e (he | he)
      · have := Event.isSetup_excl (hA e he)
        exact ⟨this.1, this.2.2.2.2.2.2.2.1⟩
      · have := Event.isClosing_excl (closing_isClosing s r e he)
        exact ⟨this.1, this.2.2.2.2.2.2.2⟩
    have hgoal : (∀ e ∈ F, e.isPipeWrite = false ∧ e ≠ Event.pipe_close) →
        ∀ e ∈ s.trace ++ F ++ closing s r, e.isPipeWrite = false ∧ e ≠ Event.pipe_close := by
      intro hF e he
      simp only [List.mem_append] at he
      rcases he with (he | he) | he
      · exact hAC e (Or.inl he)
      · exact hF e he
      · exact hAC e (Or.inr he)
    rcases hcase with ⟨rfl, _⟩ | ⟨w, _, hrun⟩
    · exact hgoal (by simp)
    · have hdel : ∀ R : List Event, F = report_events env s w true ++ R → False := by
        intro R hF
        refine hno (reported_rmsg env s w).status (reported_rmsg env s w).was_out_of_memory
          (reported_rmsg env s w).have_dwo_file ?_
        rw [hF]
        simp [report_events]
      cases hrun with
      | hard_failure _ => exact hgoal (by simp)
      | result_failed _ =>
        exact hgoal (by simp [report_events, Event.isPipeWrite])
      | not_streamed _ _ => exact (hdel _ rfl).elim
      | primary r1 S1 _ _ _ _ => exact (hdel _ (List.append_assoc _ _ _)).elim
      | both S1 r2 S2 _ _ _ _ _ =>
        exact (hdel (pipe_events env s w ++ S1 ++ S2) (by simp)).elim
  refine ⟨?_, hsent, hnone⟩
  by_cases hex : ∃ status oom dwo, Event.send (Msg.CompileResultMsg status oom dwo) true
      ∈ (handle_connection_child env basedir job mem_limit fuel).2
  · obtain ⟨status, oom, dwo, hmem⟩ := hex
    obtain ⟨pre, js, post, hT, hpre, hpost⟩ := hsent status oom dwo hmem
    rw [hT]
    simp only [List.countP_append, List.countP_cons, List.countP_nil]
    rw [countP_eq_zero_of (fun e he => (hpre e he).1),
      countP_eq_zero_of (fun e he => (hpost e he).1)]
    simp [Event.isPipeWrite]
  · have hno : ∀ status oom dwo, Event.send (Msg.CompileResultMsg status oom dwo) true
        ∉ (handle_connection_child env basedir job mem_limit fuel).2 :=
      fun status oom dwo h => hex ⟨status, oom, dwo, h⟩
    rw [countP_eq_zero_of (fun e he => (hnone hno e he).1)]
    exact Nat.zero_le 1

end Claim7

section Claim8

/-- What follows a failed send in `write_output_file`: the `close`, the
handler and `_exit`; among them no send and no `open`, and the unlinking of
each named output file and of the temp root. -/
theorem after_failed_send (s : State) (fd code : Int) :
    (∀ e ∈ Event.sys_close fd :: (hc_handler s ++ [Event.sys_exit code]),
        e.isSend = false ∧ e.isOpen = false)
    ∧ (s.obj_file ≠ [] →
        Event.unlink s.obj_file ∈ Event.sys_close fd :: (hc_handler s ++ [Event.sys_exit code]))
    ∧ (s.dwo_file ≠ [] →
        Event.unlink s.dwo_file ∈ Event.sys_close fd :: (hc_handler s ++ [Event.sys_exit code]))
    ∧ (s.tmp_path ≠ [] →
        Event.rmpath s.tmp_path ∈ Event.sys_close fd :: (hc_handler s ++ [Event.sys_exit code]))
    := by
  refine ⟨?_, ?_, ?_, ?_⟩
  · intro e he
    simp only [List.mem_cons, List.mem_append, List.mem_singleton, List.not_mem_nil,
      or_false] at he
    rcases he with rfl | he | rfl
    · exact ⟨rfl, rfl⟩
    · have := hc_handler_isCleanup s e he
      cases e <;> simp_all [Event.isCleanup, Event.isSend, Event.isOpen]
    · exact ⟨rfl, rfl⟩
  · intro h
    have : s.obj_file.isEmpty = false := by
      cases hs : s.obj_file <;> simp_all
    simp [hc_handler, this]
  · intro h
    have : s.dwo_file.isEmpty = false := by
      cases hs : s.dwo_file <;> simp_all
    simp [hc_handler, this]
  · intro h
    have : s.tmp_path.isEmpty = false := by
      cases hs : s.tmp_path <;> simp_all
    simp [hc_handler, this]

/-- A failed artifact send inside a call of `write_output_file` that follows a
trace without one: the call throws `EXIT_DISTCC_FAILED` and after the send
come the `close`, the handler and `_exit`. -/
theorem failed_send_in_stream (env : Env) (s : State) (file : Str) (r1 : Res Unit)
    (S1 X pre post : List Event) (m : Msg) (hS : StreamRun env file r1 S1)
    (hX : ∀ e ∈ X, e.isFailedArtifact = false) (hm : m.isArtifact = true)
    (h : X ++ S1 ++ closing s (thenThrow r1 0) = pre ++ Event.send m false :: post) :
    thenThrow r1 0 = Res.throw env.EXIT_DISTCC_FAILED
      ∧ post = Event.sys_close (env.sys_open file)
          :: (hc_handler s ++ [Event.sys_exit env.EXIT_DISTCC_FAILED]) := by
  have hfa : (Event.send m false).isFailedArtifact = true := hm
  have hC : ∀ e ∈ closing s (thenThrow r1 0), e.isFailedArtifact = false :=
    fun e he => (Event.isClosing_excl (closing_isClosing s _ e he)).2.2.2.2.1
  have hclean : (∀ e ∈ S1, e.isFailedArtifact = false) → False := by
    intro hS1
    refine not_split_of_forall Event.isFailedArtifact _ pre post _ h.symm.symm hfa ?_
    intro e he
    simp only [List.mem_append] at he
    rcases he with (he | he) | he
    · exact hX e he
    · exact hS1 e he
    · exact hC e he
  cases r1 with
  | ret a => exact (hclean (fun e he => ((hS.ret_shape rfl).choose_spec.2 e he).1)).elim
  | stuck => exact (hclean (fun e he => (hS.stuck_clean rfl e he).1)).elim
  | throw c =>
    obtain ⟨hc, _, hsh⟩ := hS.throw_shape c rfl
    subst hc
    rcases hsh with hsh | ⟨S0, m1, rfl, hm1, hS0⟩
    · exact (hclean hsh).elim
    · have h2 : (X ++ S0) ++ Event.send m1 false
          :: (Event.sys_close (env.sys_open file)
            :: closing s (thenThrow (Res.throw env.EXIT_DISTCC_FAILED) 0))
          = pre ++ Event.send m false :: post := by
        rw [← h]; simp
      have h3 := split_unique Event.isFailedArtifact _ _ pre post _ _ h2 hfa
        (fun e he => by
          rcases List.mem_append.mp he with he | he
          · exact hX e he
          · exact hS0 e he)
        (fun e he => by
          rcases List.mem_cons.mp he with rfl | he
          · rfl
          · exact hC e he)
      exact ⟨rfl, by rw [h3.2.2]; simp [closing, thenThrow]⟩

/-- C8: when in a run the send of a `FileChunkMsg` or `EndMsg` fails, at any
point of the streaming, what follows the failed send is the `close` of the
file, the handler and `_exit(EXIT_DISTCC_FAILED)`: no message is sent and no
file is opened after it, each output file that was named is unlinked, and the
temp root, if one was made, is removed.  In DWARF fission mode both output
files are named at that point. -/
theorem C8_failed_send_aborts (env : Env) (basedir : Str) (job : CompileJob)
    (mem_limit fuel : Nat) (pre post : List Event) (m : Msg)
    (hsplit : (handle_connection_child env basedir job mem_limit fuel).2
      = pre ++ Event.send m false :: post)
    (hm : m.isArtifact = true) :
    (handle_connection_child env basedir job mem_limit fuel).1
        = Outcome.exited env.EXIT_DISTCC_FAILED
    ∧ (∃ fd, post = Event.sys_close fd
        :: (hc_handler (handle_connection_try env basedir job mem_limit fuel).2
          ++ [Event.sys_exit env.EXIT_DISTCC_FAILED]))
    ∧ (∀ e ∈ post, e.isSend = false ∧ e.isOpen = false)
    ∧ ((handle_connection_try env basedir job mem_limit fuel).2.obj_file ≠ [] →
        Event.unlink (handle_connection_try env basedir job mem_limit fuel).2.obj_file ∈ post)
    ∧ ((handle_connection_try env basedir job mem_limit fuel).2.dwo_file ≠ [] →
        Event.unlink (handle_connection_try env basedir job mem_limit fuel).2.dwo_file ∈ post)
    ∧ (∀ name, Event.make_tmpdir 0 name ∈ pre → name ≠ [] → Event.rmpath name ∈ post)
    ∧ ((∃ name, Event.make_tmpdir 0 name ∈ pre) →
        (handle_connection_try env basedir job mem_limit fuel).2.obj_file ≠ []
        ∧ (handle_connection_try env basedir job mem_limit fuel).2.dwo_file ≠ []) := by
  obtain ⟨s, r, F, hs, htry, hchild, hcase⟩ := child_shape env basedir job mem_limit fuel
  have hfacts := hc_setup_facts env basedir job mem_limit
  have hA : ∀ e ∈ s.trace, e.isSetup = true := by
    rw [← hs]; exact hfacts.setup
  have hfa : (Event.send m false).isFailedArtifact = true := hm
  rw [hchild] at hsplit ⊢
  rw [htry]
  simp only at hsplit ⊢
  -- the runs without a failed send
  have hclean : (∀ e ∈ F, e.isFailedArtifact = false) → False := by
    intro hF
    refine not_split_of_forall Event.isFailedArtifact _ pre post _ hsplit hfa ?_
    intro e he
    simp only [List.mem_append] at he
    rcases he with (he | he) | he
    · exact (Event.isSetup_excl (hA e he)).2.2.2.2.2.1
    · exact hF e he
    · exact (Event.isClosing_excl (closing_isClosing s r e he)).2.2.2.2.1
  -- what the claim says, from the shape of what follows the failed send
  have hfinal : ∀ (file : Str) (w : WorkItResult),
      (hc_setup env basedir job mem_limit).1 = Res.ret w →
      r = Res.throw env.EXIT_DISTCC_FAILED →
      post = Event.sys_close (env.sys_open file)
        :: (hc_handler s ++ [Event.sys_exit env.EXIT_DISTCC_FAILED]) →
      (∀ e ∈ F, e.isReport = true ∨ e.isStream = true) →
      outcomeOf r = Outcome.exited env.EXIT_DISTCC_FAILED
      ∧ (∃ fd, post = Event.sys_close fd
          :: (hc_handler { s with trace := s.trace ++ F }
            ++ [Event.sys_exit env.EXIT_DISTCC_FAILED]))
      ∧ (∀ e ∈ post, e.isSend = false ∧ e.isOpen = false)
      ∧ (s.obj_file ≠ [] → Event.unlink s.obj_file ∈ post)
      ∧ (s.dwo_file ≠ [] → Event.unlink s.dwo_file ∈ post)
      ∧ (∀ name, Event.make_tmpdir 0 name ∈ pre → name ≠ [] → Event.rmpath name ∈ post)
      ∧ ((∃ name, Event.make_tmpdir 0 name ∈ pre) → s.obj_file ≠ [] ∧ s.dwo_file ≠ []) := by
    intro file w hw hr hpost hF
    obtain ⟨a1, a2, a3, a4⟩ := after_failed_send s (env.sys_open file) env.EXIT_DISTCC_FAILED
    have hpre : ∀ name, Event.make_tmpdir 0 name ∈ pre → Event.make_tmpdir 0 name ∈ s.trace := by
      intro name hn
      have hT : Event.make_tmpdir 0 name ∈ s.trace ++ F ++ closing s r := by
        rw [hsplit]; simp [hn]
      simp only [List.mem_append] at hT
      rcases hT with (hT | hT) | hT
      · exact hT
      · rcases hF _ hT with h | h <;> cases h
      · have := closing_isClosing s r _ hT
        cases this
    rw [hpost, hr]
    refine ⟨rfl, ⟨_, rfl⟩, a1, a2, a3, ?_, ?_⟩
    · intro name hn hne
      have := hfacts.tmp_path_of name (by rw [hs]; exact hpre name hn)
      rw [hs] at this
      rw [← this]
      exact a4 (by rw [this]; exact hne)
    · rintro ⟨name, hn⟩
      have := hfacts.named w hw ⟨name, by rw [hs]; exact hpre name hn⟩
      rw [hs] at this
      exact this
  rcases hcase with ⟨rfl, _⟩ | ⟨w, hw, hrun⟩
  · exact (hclean (by simp)).elim
  · have hrs := hrun.isReport_or_stream
    cases hrun with
    | hard_failure _ => exact (hclean (by simp)).elim
    | result_failed _ =>
      exact (hclean (fun e he =>
        (Event.isReport_excl (report_events_isReport env s w false e he)).2.2.2.1)).elim
    | not_streamed _ _ =>
      refine (hclean (fun e he => ?_)).elim
      rcases List.mem_append.mp he with he | he
      · exact (Event.isReport_excl (report_events_isReport env s w true e he)).2.2.2.1
      · exact (Event.isReport_excl (pipe_events_isReport env s w e he)).2.2.2.1
    | primary r1 S1 _ _ hS1 _ =>
      have h2 : (s.trace ++ (report_events env s w true ++ pipe_events env s w)) ++ S1
          ++ closing s (thenThrow r1 0) = pre ++ Event.send m false :: post := by
        rw [← hsplit]; simp
      obtain ⟨hr, hpost⟩ := failed_send_in_stream env s s.obj_file r1 S1 _ pre post m hS1
        (fun e he => (before_stream_excl env s w true hA e he).2.2.1) hm h2
      exact hfinal s.obj_file w hw hr hpost hrs
    | both S1 r2 S2 _ _ _ hS1 hS2 =>
      have h2 : (s.trace ++ (report_events env s w true ++ pipe_events env s w) ++ S1) ++ S2
          ++ closing s (thenThrow r2 0) = pre ++ Event.send m false :: post := by
        rw [← hsplit]; simp
      obtain ⟨hr, hpost⟩ := failed_send_in_stream env s s.dwo_file r2 S2 _ pre post m hS2
        (fun e he => by
          rcases List.mem_append.mp he with he | he
          · exact (before_stream_excl env s w true hA e he).2.2.1
          · exact ((hS1.ret_shape rfl).choose_spec.2 e he).1) hm h2
      exact hfinal s.dwo_file w hw hr hpost hrs

/-- Witness of C8: the client disconnects at the second `FileChunkMsg` of a
DWARF fission job. -/
theorem C8_failed_send_aborts_witness :
    (handle_connection_child envDisconnect (lit "/var/icecc") jobFission 0 5).2
        = traceDisconnect.take 16
          ++ Event.send (Msg.FileChunkMsg 100000) false :: traceDisconnect.drop 17
    ∧ (handle_connection_child envDisconnect (lit "/var/icecc") jobFission 0 5).1
        = Outcome.exited envDisconnect.EXIT_DISTCC_FAILED
    ∧ Event.rmpath (lit "/tmp/icecc-ab12cd") ∈ traceDisconnect.drop 17 :=
  ⟨by decide,
    (C8_failed_send_aborts envDisconnect (lit "/var/icecc") jobFission 0 5
      (traceDisconnect.take 16) (traceDisconnect.drop 17)
      (Msg.FileChunkMsg 100000) (by decide) rfl).1,
    (C8_failed_send_aborts envDisconnect (lit "/var/icecc") jobFission 0 5
      (traceDisconnect.take 16) (traceDisconnect.drop 17)
      (Msg.FileChunkMsg 100000) (by decide) rfl).2.2.2.2.2.1 (lit "/tmp/icecc-ab12cd")
      (by decide) (by decide)⟩

end Claim8

section Claim9

/-- C9 (as amended): when the environment version of the job is empty, or
`<basedir>/target=<targetPlatform>/<environmentVersion>/usr/bin/as` is not
executable, the run consists of the probe of `as` (if any), the diagnostic,
the handler with nothing to unlink or remove, and `_exit(EXIT_DISTCC_FAILED)`:
no allocator call, no `work_it`, and `tmp_path`, `obj_file`, `dwo_file` are
still empty.  The diagnostic is one `StatusTextMsg` when the client speaks
protocol 22 (`IS_PROTOCOL_22`), and nothing at all otherwise. -/
theorem C9_validation_failure (env : Env) (basedir : Str) (job : CompileJob)
    (mem_limit fuel : Nat)
    (hfail : job.environmentVersion = []
      ∨ env.access_X_OK (basedir ++ lit "/target=" ++ job.targetPlatform ++ lit "/"
          ++ job.environmentVersion ++ lit "/usr/bin/as") < 0) :
    ∃ probe diag,
      handle_connection_child env basedir job mem_limit fuel
        = (Outcome.exited env.EXIT_DISTCC_FAILED,
            probe ++ diag ++ [Event.delete_client, Event.delete_job,
              Event.sys_exit env.EXIT_DISTCC_FAILED])
      ∧ (∀ e ∈ probe, ∃ path r, e = Event.access_X path r)
      ∧ (env.is_protocol_22 = true → ∃ text ok, diag = [Event.send (Msg.StatusTextMsg text) ok])
      ∧ (env.is_protocol_22 = false → diag = [])
      ∧ (handle_connection_try env basedir job mem_limit fuel).2.tmp_path = []
      ∧ (handle_connection_try env basedir job mem_limit fuel).2.obj_file = []
      ∧ (handle_connection_try env basedir job mem_limit fuel).2.dwo_file = [] := by
  by_cases hv : job.environmentVersion.length = 0
  · cases hp : env.is_protocol_22
    · refine ⟨[], [], ?_, by simp, by simp, by simp, ?_, ?_, ?_⟩ <;>
        simp [handle_connection_child, handle_connection_try, hc_validate, andThen,
          State.error_client, error_client, hv, hp, hc_handler]
    · refine ⟨[], [Event.send (Msg.StatusTextMsg (lit "empty environment"))
          (env.send_ok 0)], ?_, by simp, fun _ => ⟨_, _, rfl⟩, by simp, ?_, ?_, ?_⟩ <;>
        simp [handle_connection_child, handle_connection_try, hc_validate, andThen,
          State.error_client, error_client, send_msg, sendCount, hv, hp, hc_handler]
  · have hx : env.access_X_OK (basedir ++ lit "/target=" ++ job.targetPlatform ++ lit "/"
        ++ job.environmentVersion ++ lit "/usr/bin/as") < 0 := by
      rcases hfail with h | h
      · exact absurd (by simp [h]) hv
      · exact h
    cases hp : env.is_protocol_22
    · refine ⟨[Event.access_X (basedir ++ lit "/target=" ++ job.targetPlatform ++ lit "/"
          ++ job.environmentVersion ++ lit "/usr/bin/as") (env.access_X_OK (basedir
          ++ lit "/target=" ++ job.targetPlatform ++ lit "/"
          ++ job.environmentVersion ++ lit "/usr/bin/as"))], [], ?_,
        by simp, by simp, by simp, ?_, ?_, ?_⟩ <;>
        (simp only [handle_connection_child, handle_connection_try, hc_validate, andThen,
          State.error_client, State.emit, error_client, send_msg, hv, hx, hp, hc_handler,
          if_true, if_false, ne_eq, not_false_eq_true, Bool.false_eq_true]; all_goals simp)
    · refine ⟨[Event.access_X (basedir ++ lit "/target=" ++ job.targetPlatform ++ lit "/"
          ++ job.environmentVersion ++ lit "/usr/bin/as") (env.access_X_OK (basedir
          ++ lit "/target=" ++ job.targetPlatform ++ lit "/"
          ++ job.environmentVersion ++ lit "/usr/bin/as"))],
        [Event.send (Msg.StatusTextMsg (basedir ++ lit "/target=" ++ job.targetPlatform
          ++ lit "/" ++ job.environmentVersion
          ++ lit "/usr/bin/as is not executable, installed environment removed?"))
          (env.send_ok 0)], ?_,
        by simp, fun _ => ⟨_, _, rfl⟩, by simp, ?_, ?_, ?_⟩ <;>
        (simp only [handle_connection_child, handle_connection_try, hc_validate, andThen,
          State.error_client, State.emit, error_client, send_msg, hv, hx, hp, hc_handler,
          if_true, if_false, ne_eq, not_false_eq_true, Bool.false_eq_true]; all_goals simp [sendCount])

/-- Witness of C9: a job with an empty environment version. -/
theorem C9_validation_failure_witness :
    (jobNoEnvironment.environmentVersion = []
      ∨ envEmptyFile.access_X_OK (lit "/var/icecc" ++ lit "/target="
          ++ jobNoEnvironment.targetPlatform ++ lit "/"
          ++ jobNoEnvironment.environmentVersion ++ lit "/usr/bin/as") < 0)
    ∧ ∃ probe diag,
      handle_connection_child envEmptyFile (lit "/var/icecc") jobNoEnvironment 0 1
        = (Outcome.exited envEmptyFile.EXIT_DISTCC_FAILED,
            probe ++ diag ++ [Event.delete_client, Event.delete_job,
              Event.sys_exit envEmptyFile.EXIT_DISTCC_FAILED])
      ∧ (∀ e ∈ probe, ∃ path r, e = Event.access_X path r)
      ∧ (envEmptyFile.is_protocol_22 = true →
          ∃ text ok, diag = [Event.send (Msg.StatusTextMsg text) ok])
      ∧ (envEmptyFile.is_protocol_22 = false → diag = [])
      ∧ (handle_connection_try envEmptyFile (lit "/var/icecc") jobNoEnvironment 0 1).2.tmp_path
          = []
      ∧ (handle_connection_try envEmptyFile (lit "/var/icecc") jobNoEnvironment 0 1).2.obj_file
          = []
      ∧ (handle_connection_try envEmptyFile (lit "/var/icecc") jobNoEnvironment 0 1).2.dwo_file
          = [] :=
  ⟨Or.inl rfl,
    C9_validation_failure envEmptyFile (lit "/var/icecc") jobNoEnvironment 0 1 (Or.inl rfl)⟩

/-- C9 (counterexample): for a client older than protocol 22 and a job with an
empty environment version the worker sends nothing at all: the run is the
handler and `_exit(100)`. -/
theorem C9_no_diagnostic_for_old_client :
    jobNoEnvironment.environmentVersion = []
    ∧ handle_connection_child envOldClient (lit "/var/icecc") jobNoEnvironment 0 1
        = (Outcome.exited 100, [Event.delete_client, Event.delete_job, Event.sys_exit 100])
    ∧ sent (handle_connection_child envOldClient (lit "/var/icecc") jobNoEnvironment 0 1).2
        = [] := by
  decide

end Claim9

section Claim10

/-- The `dcc_make_tmpdir` events of lines 318-415 carry what the allocator
returned. -/
theorem hc_compile_tmpdir_event (env : Env) (job : CompileJob) (mem_limit : Nat) (s : State) :
    ∃ A : List Event,
      (hc_compile env job mem_limit s).2.trace = s.trace ++ A
      ∧ ∀ ret name, Event.make_tmpdir ret name ∈ A →
          ret = env.dcc_make_tmpdir.1 ∧ name = env.dcc_make_tmpdir.2 := by
  cases hf : job.dwarfFissionEnabled
  · by_cases ha : (env.dcc_make_tmpnam (lit "icecc-" ++ format_u job.jobID) (lit ".o")).1 = 0
    · simp only [hc_compile, hf, ha, hc_plain, State.emit, if_true, if_false,
        Bool.false_eq_true]
      simp
    · simp only [hc_compile, hf, ha, hc_plain, State.emit, if_true, if_false,
        Bool.false_eq_true]
      simp
  · by_cases ha : env.dcc_make_tmpdir.1 = 0
    · by_cases h1 : env.mkpath (output_dir env env.dcc_make_tmpdir.2 job.workingDirectory
          job.outputFile) = false <;>
      by_cases h2 : env.mkpath (env.dcc_make_tmpdir.2 ++ job.workingDirectory) = false <;>
      cases hp : env.is_protocol_22 <;>
      simp only [hc_compile, hf, ha, hc_fission, State.emit, State.error_client,
        error_client, send_msg, h1, h2, hp, if_true, if_false, Bool.false_eq_true] <;>
      simp [ha]
    · simp only [hc_compile, hf, ha, State.emit, if_true, if_false]
      simp

theorem hc_setup_tmpdir_event (env : Env) (basedir : Str) (job : CompileJob)
    (mem_limit : Nat) :
    ∀ ret name, Event.make_tmpdir ret name ∈ (hc_setup env basedir job mem_limit).2.trace →
      ret = env.dcc_make_tmpdir.1 ∧ name = env.dcc_make_tmpdir.2 := by
  obtain ⟨A, hA, hprobe, _⟩ := hc_validate_run env basedir job
    { tmp_path := [], obj_file := [], dwo_file := [], trace := [] }
  unfold hc_setup
  generalize hc_validate env basedir job
    { tmp_path := [], obj_file := [], dwo_file := [], trace := [] } = v at hA
  obtain ⟨r, s1⟩ := v
  simp only [List.nil_append] at hA
  subst hA
  have hprobe2 : ∀ ret name, Event.make_tmpdir ret name ∉ A := fun ret name h => by
    simpa [Event.isProbe] using hprobe _ h
  intro ret name
  cases r with
  | stuck => simp only [andThen]; exact fun h => absurd h (hprobe2 ret name)
  | throw code => simp only [andThen]; exact fun h => absurd h (hprobe2 ret name)
  | ret a =>
    simp only [andThen]
    obtain ⟨B, hB, h1⟩ := hc_compile_tmpdir_event env job mem_limit
      { tmp_path := [], obj_file := [], dwo_file := [], trace := A }
    simp only at hB
    intro h
    rw [hB, List.mem_append] at h
    rcases h with h | h
    · exact absurd h (hprobe2 ret name)
    · exact h1 ret name h

theorem Event.isClosing_eq_false {e : Event} (h1 : e.isCleanup = false)
    (h2 : ∀ code, e ≠ Event.sys_exit code) : e.isClosing = false := by
  cases e <;> simp_all [Event.isClosing, Event.isCleanup]

theorem foldl_tempRootsStep_nil (L : List Event)
    (h : ∀ name, Event.make_tmpdir 0 name ∉ L) : L.foldl tempRootsStep [] = [] := by
  induction L with
  | nil => rfl
  | cons e L ih =>
    have h1 : tempRootsStep [] e = [] := by
      cases e with
      | make_tmpdir ret name =>
        by_cases hr : ret = 0
        · subst hr; exact absurd (List.mem_cons_self _ _) (h name)
        · simp [tempRootsStep, hr]
      | rmpath path => simp [tempRootsStep]
      | _ => rfl
    rw [List.foldl_cons, h1]
    exact ih (fun name hn => h name (List.mem_cons_of_mem _ hn))

theorem foldl_tempRootsStep_inv (p : Str) (L : List Event)
    (h : ∀ name, Event.make_tmpdir 0 name ∈ L → name = p) :
    ∀ live : List Str, (∀ x ∈ live, x = p) → ∀ x ∈ L.foldl tempRootsStep live, x = p := by
  induction L with
  | nil => intro live hl; simpa using hl
  | cons e L ih =>
    intro live hl
    rw [List.foldl_cons]
    refine ih (fun name hn => h name (List.mem_cons_of_mem _ hn)) _ ?_
    cases e with
    | make_tmpdir ret name =>
      by_cases hr : ret = 0
      · subst hr
        have := h name (List.mem_cons_self _ _)
        simp only [tempRootsStep, if_true]
        intro x hx
        rcases List.mem_cons.mp hx with rfl | hx
        · exact this
        · exact hl x hx
      · simpa [tempRootsStep, hr] using hl
    | rmpath path =>
      intro x hx
      simp only [tempRootsStep] at hx
      exact hl x (List.mem_of_mem_filter hx)
    | _ => exact hl

/-- The handler of a state with a non-empty `tmp_path` leaves no temp root of
that name. -/
theorem foldl_tempRootsStep_handler (s : State) (live : List Str)
    (hl : ∀ x ∈ live, x = s.tmp_path) (hp : s.tmp_path ≠ []) :
    (hc_handler s).foldl tempRootsStep live = [] := by
  have hf : live.filter (fun p => decide (p ≠ s.tmp_path)) = [] := by
    rw [List.filter_eq_nil_iff]
    intro x hx
    simp [hl x hx]
  have ht : s.tmp_path.isEmpty = false := by
    cases h : s.tmp_path <;> simp_all
  cases ho : s.obj_file.isEmpty <;> cases hd : s.dwo_file.isEmpty <;>
    simp [hc_handler, ho, hd, ht, tempRootsStep] <;> exact hl

/-- C10: on every path by which the child reaches `_exit(code)` the trace
ends with the events of the top-level handler, run once (nothing before them
is an event of the handler or an `_exit`), and `_exit(code)`.  The handler
unlinks `obj_file` and `dwo_file` when they are not empty and removes
`tmp_path` when it is not empty; `tmp_path` is the name of the temp root when
`dcc_make_tmpdir` made one (it stores a non-empty name), so that no temp root
made by the job is left when the process exits. -/
theorem C10_handler_runs_once (env : Env) (basedir : Str) (job : CompileJob)
    (mem_limit fuel : Nat) (code : Int)
    (hexit : (handle_connection_child env basedir job mem_limit fuel).1
      = Outcome.exited code)
    (hname : env.dcc_make_tmpdir.1 = 0 → env.dcc_make_tmpdir.2 ≠ []) :
    ∃ body,
      (handle_connection_child env basedir job mem_limit fuel).2
        = body ++ hc_handler (handle_connection_try env basedir job mem_limit fuel).2
          ++ [Event.sys_exit code]
      ∧ (∀ e ∈ body, e.isClosing = false)
      ∧ ((handle_connection_try env basedir job mem_limit fuel).2.obj_file ≠ [] →
          Event.unlink (handle_connection_try env basedir job mem_limit fuel).2.obj_file
            ∈ hc_handler (handle_connection_try env basedir job mem_limit fuel).2)
      ∧ ((handle_connection_try env basedir job mem_limit fuel).2.dwo_file ≠ [] →
          Event.unlink (handle_connection_try env basedir job mem_limit fuel).2.dwo_file
            ∈ hc_handler (handle_connection_try env basedir job mem_limit fuel).2)
      ∧ ((handle_connection_try env basedir job mem_limit fuel).2.tmp_path ≠ [] →
          Event.rmpath (handle_connection_try env basedir job mem_limit fuel).2.tmp_path
            ∈ hc_handler (handle_connection_try env basedir job mem_limit fuel).2)
      ∧ (∀ name, Event.make_tmpdir 0 name ∈ body →
          name = (handle_connection_try env basedir job mem_limit fuel).2.tmp_path
          ∧ Event.rmpath name
            ∈ hc_handler (handle_connection_try env basedir job mem_limit fuel).2)
      ∧ liveTempRoots (handle_connection_child env basedir job mem_limit fuel).2 = [] := by
  obtain ⟨s, r, F, hs, htry, hchild, hcase⟩ := child_shape env basedir job mem_limit fuel
  have hfacts := hc_setup_facts env basedir job mem_limit
  have hlink := hc_setup_tmpdir_event env basedir job mem_limit
  rw [hs] at hlink
  have hA : ∀ e ∈ s.trace, e.isSetup = true := by
    rw [← hs]; exact hfacts.setup
  have htmp : ∀ name, Event.make_tmpdir 0 name ∈ s.trace → s.tmp_path = name := by
    have := hfacts.tmp_path_of
    rw [hs] at this; exact this
  have hF : ∀ e ∈ F, e.isReport = true ∨ e.isStream = true := by
    rcases hcase with ⟨rfl, _⟩ | ⟨w, _, hrun⟩
    · simp
    · exact hrun.isReport_or_stream
  have hr : r = Res.throw code := by
    rw [hchild] at hexit
    have hnr : ∀ a, r ≠ Res.ret a := by
      rcases hcase with ⟨_, c, rfl, _⟩ | ⟨w, _, hrun⟩
      · simp
      · exact hrun.not_ret
    cases r with
    | ret a => exact absurd rfl (hnr a)
    | stuck => simp [outcomeOf] at hexit
    | throw c => simp [outcomeOf] at hexit; rw [hexit]
  subst hr
  have hbody : ∀ e ∈ s.trace ++ F, e.isClosing = false := by
    intro e he
    rcases List.mem_append.mp he with he | he
    · have := Event.isSetup_excl (hA e he)
      exact Event.isClosing_eq_false this.2.1 this.2.2.2.2.2.2.2.2
    · rcases hF e he with h | h
      · have := Event.isReport_excl h
        exact Event.isClosing_eq_false this.1 this.2.2.2.2.2
      · have := Event.isStream_excl h
        exact Event.isClosing_eq_false this.2.1 this.2.2.2.2.1
  have hmk : ∀ name, Event.make_tmpdir 0 name ∈ s.trace ++ F →
      name = s.tmp_path ∧ name ≠ [] := by
    intro name hn
    have hin : Event.make_tmpdir 0 name ∈ s.trace := by
      rcases List.mem_append.mp hn with hn | hn
      · exact hn
      · rcases hF _ hn with h | h <;> cases h
    obtain ⟨h1, h2⟩ := hlink 0 name hin
    exact ⟨(htmp name hin).symm, by rw [h2]; exact hname h1.symm⟩
  obtain ⟨_, a2, a3, a4⟩ := after_failed_send s 0 code
  have hmemh : ∀ e, e ≠ Event.sys_close 0 → (∀ c, e ≠ Event.sys_exit c) →
      e ∈ Event.sys_close 0 :: (hc_handler s ++ [Event.sys_exit code]) → e ∈ hc_handler s := by
    intro e h1 h2 he
    simp only [List.mem_cons, List.mem_append, List.mem_singleton, List.not_mem_nil,
      or_false] at he
    rcases he with he | he | he
    · exact absurd he h1
    · exact he
    · exact absurd he (h2 code)
  have hrm : s.tmp_path ≠ [] → Event.rmpath s.tmp_path ∈ hc_handler s :=
    fun h => hmemh _ (by simp) (by simp) (a4 h)
  rw [hchild, htry]
  refine ⟨s.trace ++ F, by simp [closing, hc_handler], hbody,
    fun h => hmemh _ (by simp) (by simp) (a2 h),
    fun h => hmemh _ (by simp) (by simp) (a3 h), hrm, ?_, ?_⟩
  · intro name hn
    obtain ⟨h1, h2⟩ := hmk name hn
    exact ⟨h1, by rw [h1]; exact hrm (by rw [← h1]; exact h2)⟩
  · simp only [liveTempRoots, closing, List.foldl_append]
    by_cases hp : s.tmp_path = []
    · have hno : ∀ name, Event.make_tmpdir 0 name ∉ s.trace := by
        intro name hn
        obtain ⟨h1, h2⟩ := hmk name (List.mem_append_left _ hn)
        exact h2 (h1.trans hp)
      have hnoF : ∀ name, Event.make_tmpdir 0 name ∉ F := by
        intro name hn
        rcases hF _ hn with h | h <;> cases h
      have hnoH : ∀ name, Event.make_tmpdir 0 name ∉ hc_handler s := by
        intro name hn
        have := hc_handler_isCleanup s _ hn
        cases this
      rw [foldl_tempRootsStep_nil _ hno, foldl_tempRootsStep_nil _ hnoF,
        foldl_tempRootsStep_nil _ hnoH]
      rfl
    · have hinv := foldl_tempRootsStep_inv s.tmp_path (s.trace ++ F)
        (fun name hn => (hmk name hn).1) [] (by simp)
      rw [List.foldl_append] at hinv
      rw [foldl_tempRootsStep_handler s _ hinv hp]
      rfl

/-- Witness of C10: a successful DWARF fission job. -/
theorem C10_handler_runs_once_witness :
    (handle_connection_child envEmptyFile (lit "/var/icecc") jobFission 0 2).1
        = Outcome.exited 0
    ∧ (envEmptyFile.dcc_make_tmpdir.1 = 0 → envEmptyFile.dcc_make_tmpdir.2 ≠ [])
    ∧ liveTempRoots (handle_connection_child envEmptyFile (lit "/var/icecc") jobFission 0 2).2
        = [] :=
  ⟨by decide, by decide,
    (C10_handler_runs_once envEmptyFile (lit "/var/icecc") jobFission 0 2 0
      (by decide) (by decide)).elim (fun _ h => h.2.2.2.2.2.2)⟩

end Claim10

section Claim11

/-- What the handler does for the locals that are not empty. -/
theorem hc_handler_mem (s : State) :
    (s.obj_file ≠ [] → Event.unlink s.obj_file ∈ hc_handler s)
    ∧ (s.dwo_file ≠ [] → Event.unlink s.dwo_file ∈ hc_handler s)
    ∧ (s.tmp_path ≠ [] → Event.rmpath s.tmp_path ∈ hc_handler s) := by
  refine ⟨fun h => ?_, fun h => ?_, fun h => ?_⟩
  · have : s.obj_file.isEmpty = false := by
      cases hs : s.obj_file <;> simp_all
    simp [hc_handler, this]
  · have : s.dwo_file.isEmpty = false := by
      cases hs : s.dwo_file <;> simp_all
    simp [hc_handler, this]
  · have : s.tmp_path.isEmpty = false := by
      cases hs : s.tmp_path <;> simp_all
    simp [hc_handler, this]

/-- An allocator event of a run lies in its setup part. -/
theorem alloc_event_mem_setup (env : Env) (s : State) (w : WorkItResult) (r : Res Unit)
    (F : List Event) (hrun : FinishRun env s w r F) (e : Event)
    (he : (∃ ret name, e = Event.make_tmpdir ret name)
      ∨ ∃ p sfx ret name, e = Event.make_tmpnam p sfx ret name)
    (hmem : e ∈ s.trace ++ F ++ closing s r) : e ∈ s.trace := by
  simp only [List.mem_append] at hmem
  rcases hmem with (h | h) | h
  · exact h
  · rcases hrun.isReport_or_stream e h with h1 | h1 <;>
      rcases he with ⟨_, _, rfl⟩ | ⟨_, _, _, _, rfl⟩ <;> cases h1
  · have := closing_isClosing s r e h
    rcases he with ⟨_, _, rfl⟩ | ⟨_, _, _, _, rfl⟩ <;> cases this

/-- C11 (as amended): in a run that completes without any failure (the
`CompileResultMsg` was delivered with status 0, nothing in the streaming
failed, the child reached `_exit`) the `try` block is left by
`throw myexception(0)`, so the handler runs as on every other path: the trace
ends with the handler and `_exit(0)`.  In DWARF fission mode the handler
unlinks `obj_file` and `dwo_file` and removes the temp root; without fission
it unlinks the temp output file. -/
theorem C11_cleanup_on_success (env : Env) (basedir : Str) (job : CompileJob)
    (mem_limit fuel : Nat) (oom dwo : Bool) (code : Int)
    (hsent : Event.send (Msg.CompileResultMsg 0 oom dwo) true
      ∈ (handle_connection_child env basedir job mem_limit fuel).2)
    (hclean : ∀ e ∈ (handle_connection_child env basedir job mem_limit fuel).2,
      e.isStreamError = false)
    (hexit : (handle_connection_child env basedir job mem_limit fuel).1
      = Outcome.exited code) :
    code = 0
    ∧ (∃ body, (handle_connection_child env basedir job mem_limit fuel).2
        = body ++ hc_handler (handle_connection_try env basedir job mem_limit fuel).2
          ++ [Event.sys_exit 0])
    ∧ (∀ name, Event.make_tmpdir 0 name
          ∈ (handle_connection_child env basedir job mem_limit fuel).2 → name ≠ [] →
        Event.rmpath name
          ∈ hc_handler (handle_connection_try env basedir job mem_limit fuel).2
        ∧ (handle_connection_try env basedir job mem_limit fuel).2.obj_file ≠ []
        ∧ Event.unlink (handle_connection_try env basedir job mem_limit fuel).2.obj_file
          ∈ hc_handler (handle_connection_try env basedir job mem_limit fuel).2
        ∧ (handle_connection_try env basedir job mem_limit fuel).2.dwo_file ≠ []
        ∧ Event.unlink (handle_connection_try env basedir job mem_limit fuel).2.dwo_file
          ∈ hc_handler (handle_connection_try env basedir job mem_limit fuel).2)
    ∧ (∀ p sfx name, Event.make_tmpnam p sfx 0 name
          ∈ (handle_connection_child env basedir job mem_limit fuel).2 → name ≠ [] →
        Event.unlink name
          ∈ hc_handler (handle_connection_try env basedir job mem_limit fuel).2) := by
  obtain ⟨s, w, r, F, hsu, htry, hchild, _, _, _, hcase⟩ :=
    child_of_delivered env basedir job mem_limit fuel 0 oom dwo hsent
  have hfacts := hc_setup_facts env basedir job mem_limit
  rw [hsu] at hfacts
  have hrun : FinishRun env s w r F := by
    obtain ⟨s1, r1, F1, hs1, htry1, _, hcase1⟩ := child_shape env basedir job mem_limit fuel
    rw [hsu] at hs1 hcase1
    simp only at hs1
    subst hs1
    rw [htry] at htry1
    have hr : r = r1 := by injection htry1
    have hF : F = F1 := by
      have := congrArg (fun x => x.2.trace) htry1
      simpa using this
    subst hr; subst hF
    rcases hcase1 with ⟨_, c, _, h⟩ | ⟨w1, h, hrun1⟩
    · cases h
    · cases h; exact hrun1
  rw [hchild] at hclean hexit ⊢
  rw [htry]
  simp only at hclean hexit ⊢
  have hstream : ∀ (file : Str) (r1 : Res Unit) (S1 : List Event),
      StreamRun env file r1 S1 → (∀ e ∈ S1, e.isStreamError = false) →
      outcomeOf (thenThrow r1 0) = Outcome.exited code → thenThrow r1 0 = Res.throw 0 := by
    intro file r1 S1 hS1 hcl hout
    cases r1 with
    | ret a => rfl
    | stuck => simp [outcomeOf, thenThrow] at hout
    | throw c =>
      obtain ⟨_, ⟨e, he1, he2⟩, _⟩ := hS1.throw_shape c rfl
      rw [hcl e he1] at he2
      cases he2
  have hr : r = Res.throw 0 := by
    rcases hcase with ⟨hst, _, _⟩ | ⟨_, r1, S1, hS1, _, hF, hr⟩
        | ⟨_, _, S1, r2, S2, hS1, hS2, hF, hr⟩
    · exact absurd rfl hst
    · rw [hr] at hexit ⊢
      exact hstream _ r1 S1 hS1 (fun e he => hclean e (by rw [hF]; simp [he])) hexit
    · rw [hr] at hexit ⊢
      exact hstream _ r2 S2 hS2 (fun e he => hclean e (by rw [hF]; simp [he])) hexit
  subst hr
  obtain ⟨m1, m2, m3⟩ := hc_handler_mem s
  refine ⟨by simpa [outcomeOf] using hexit.symm, ⟨s.trace ++ F, by simp [closing, hc_handler]⟩,
    ?_, ?_⟩
  · intro name hn hne
    have hin := alloc_event_mem_setup env s w _ F hrun _ (Or.inl ⟨_, _, rfl⟩) hn
    have htp := hfacts.tmp_path_of name hin
    have hnamed := hfacts.named w rfl ⟨name, hin⟩
    simp only at htp hnamed
    exact ⟨by rw [← htp]; exact m3 (by rw [htp]; exact hne), hnamed.1, m1 hnamed.1,
      hnamed.2, m2 hnamed.2⟩
  · intro p sfx name hn hne
    have hin := alloc_event_mem_setup env s w _ F hrun _ (Or.inr ⟨_, _, _, _, rfl⟩) hn
    have hobj := hfacts.obj_file_of p sfx name hin
    simp only at hobj
    rw [← hobj]
    exact m1 (by rw [hobj]; exact hne)

/-- Witness of C11: a successful DWARF fission job. -/
theorem C11_cleanup_on_success_witness :
    Event.send (Msg.CompileResultMsg 0 false true) true
        ∈ (handle_connection_child envEmptyFile (lit "/var/icecc") jobFission 0 2).2
    ∧ (handle_connection_child envEmptyFile (lit "/var/icecc") jobFission 0 2).1
        = Outcome.exited 0
    ∧ ∃ body, (handle_connection_child envEmptyFile (lit "/var/icecc") jobFission 0 2).2
        = body ++ hc_handler (handle_connection_try envEmptyFile (lit "/var/icecc")
            jobFission 0 2).2
          ++ [Event.sys_exit 0] :=
  ⟨by decide, by decide,
    (C11_cleanup_on_success envEmptyFile (lit "/var/icecc") jobFission 0 2 false true 0
      (by decide) (by decide) (by decide)).2.1⟩

/-- C11 (counterexample): a DWARF fission job and a job without fission that
both complete without any failure (runner result 0, every message delivered,
exit code 0).  The first run unlinks both output files and removes the temp
root, of which nothing is left; the second unlinks the temp output file. -/
theorem C11_cleanup_runs_on_success :
    (handle_connection_child envEmptyFile (lit "/var/icecc") jobFission 0 2).1
        = Outcome.exited 0
    ∧ delivered (handle_connection_child envEmptyFile (lit "/var/icecc") jobFission 0 2).2
        = [Msg.CompileResultMsg 0 false true, Msg.EndMsg, Msg.EndMsg]
    ∧ sent (handle_connection_child envEmptyFile (lit "/var/icecc") jobFission 0 2).2
        = [Msg.CompileResultMsg 0 false true, Msg.EndMsg, Msg.EndMsg]
    ∧ Event.unlink (lit "/tmp/icecc-ab12cd/home/u/proj/out/foo.o")
        ∈ (handle_connection_child envEmptyFile (lit "/var/icecc") jobFission 0 2).2
    ∧ Event.unlink (lit "/tmp/icecc-ab12cd/home/u/proj/out/foo.dwo")
        ∈ (handle_connection_child envEmptyFile (lit "/var/icecc") jobFission 0 2).2
    ∧ Event.rmpath (lit "/tmp/icecc-ab12cd")
        ∈ (handle_connection_child envEmptyFile (lit "/var/icecc") jobFission 0 2).2
    ∧ liveTempRoots (handle_connection_child envEmptyFile (lit "/var/icecc") jobFission 0 2).2
        = []
    ∧ (handle_connection_child envEmptyFile (lit "/var/icecc") jobPlain 0 2).1
        = Outcome.exited 0
    ∧ sent (handle_connection_child envEmptyFile (lit "/var/icecc") jobPlain 0 2).2
        = [Msg.CompileResultMsg 0 false false, Msg.EndMsg]
    ∧ Event.unlink (lit "/tmp/icecc-42_0000abcd.o")
        ∈ (handle_connection_child envEmptyFile (lit "/var/icecc") jobPlain 0 2).2 := by
  decide

end Claim11

section Claim18

end Claim18

section Paths

theorem rfind_split (s : Str) (c : Char) (i : Nat) (h : rfind s c = some i) :
    s = s.take i ++ c :: s.drop (i + 1) ∧ c ∉ s.drop (i + 1) ∧ i < s.length := by
  induction s generalizing i with
  | nil => simp [rfind] at h
  | cons x xs ih =>
    simp only [rfind] at h
    cases hr : rfind xs c with
    | some j =>
      rw [hr] at h
      simp only [Option.some.injEq] at h
      subst h
      obtain ⟨h1, h2, h3⟩ := ih j hr
      refine ⟨?_, ?_, ?_⟩
      · simp only [List.take_succ_cons, List.drop_succ_cons, List.cons_append]
        rw [← h1]
      · simpa using h2
      · simpa using h3
    | none =>
      rw [hr] at h
      by_cases hx : x = c
      · simp only [hx, if_true, Option.some.injEq] at h
        subst h
        subst hx
        refine ⟨by simp, ?_, by simp⟩
        simp only [zero_add, List.drop_succ_cons, List.drop_zero]
        clear ih
        induction xs with
        | nil => simp
        | cons y ys ih2 =>
          simp only [rfind] at hr
          cases hr2 : rfind ys x with
          | some j => rw [hr2] at hr; simp at hr
          | none =>
            rw [hr2] at hr
            by_cases hy : y = x
            · simp [hy] at hr
            · simp only [List.mem_cons, not_or]
              exact ⟨fun h => hy h.symm, ih2 hr2⟩
      · simp [hx] at h

theorem rfind_none (s : Str) (c : Char) (h : rfind s c = none) : c ∉ s := by
  induction s with
  | nil => simp
  | cons x xs ih =>
    simp only [rfind] at h
    cases hr : rfind xs c with
    | some j => rw [hr] at h; simp at h
    | none =>
      rw [hr] at h
      by_cases hx : x = c
      · simp [hx] at h
      · simp only [List.mem_cons, not_or]
        exact ⟨fun h => hx h.symm, ih hr⟩

/-- An output file with a `'/'` is its directory part, the last `'/'` and its
file name, and the file name has no `'/'`. -/
theorem file_dir_file_name (out : Str) (h : '/' ∈ out) :
    out = file_dir out ++ '/' :: file_name out ∧ '/' ∉ file_name out := by
  cases hr : rfind out '/' with
  | none => exact absurd h (rfind_none out '/' hr)
  | some i =>
    obtain ⟨h1, h2, _⟩ := rfind_split out '/' i hr
    simp only [file_dir, file_name, hr]
    exact ⟨h1, h2⟩

theorem segmentsAux_append (a b cur : Str) :
    segmentsAux cur (a ++ '/' :: b) = segmentsAux cur a ++ segmentsAux [] b := by
  induction a generalizing cur with
  | nil =>
    simp only [List.nil_append, segmentsAux, if_true]
    by_cases hc : cur.isEmpty = true <;> simp [hc]
  | cons c a ih =>
    simp only [List.cons_append, segmentsAux]
    by_cases hc : c = '/'
    · simp only [hc, if_true]
      by_cases hcur : cur.isEmpty = true
      · simp only [hcur, if_true]; exact ih []
      · simp only [hcur, if_false, Bool.false_eq_true, List.cons_append]
        exact congrArg (List.cons cur) (ih [])
    · simp only [hc, if_false]; exact ih _

theorem segmentsAux_segment (name cur : Str) (h : '/' ∉ name) (hne : cur ++ name ≠ []) :
    segmentsAux cur name = [cur ++ name] := by
  induction name generalizing cur with
  | nil =>
    simp only [List.append_nil] at hne
    have : cur.isEmpty = false := by cases cur <;> simp_all
    simp [segmentsAux, this]
  | cons c cs ih =>
    simp only [List.mem_cons, not_or] at h
    have hc : ¬ c = '/' := fun e => h.1 e.symm
    simp only [segmentsAux, hc, if_false]
    rw [ih (cur ++ [c]) h.2 (by simp)]
    simp

theorem segmentsAux_mem (p cur : Str) (hcur : '/' ∉ cur) :
    ∀ seg ∈ segmentsAux cur p, seg ≠ [] ∧ '/' ∉ seg := by
  induction p generalizing cur with
  | nil =>
    intro seg hseg
    by_cases hc : cur.isEmpty = true
    · simp [segmentsAux, hc] at hseg
    · simp only [segmentsAux, hc, if_false, Bool.false_eq_true, List.mem_singleton] at hseg
      subst hseg
      exact ⟨fun e => hc (by simp [e]), hcur⟩
  | cons c cs ih =>
    intro seg hseg
    simp only [segmentsAux] at hseg
    by_cases hc : c = '/'
    · simp only [hc, if_true] at hseg
      by_cases hcur2 : cur.isEmpty = true
      · simp only [hcur2, if_true] at hseg
        exact ih [] (by simp) seg hseg
      · simp only [hcur2, if_false, Bool.false_eq_true, List.mem_cons] at hseg
        rcases hseg with rfl | hseg
        · exact ⟨fun e => hcur2 (by simp [e]), hcur⟩
        · exact ih [] (by simp) seg hseg
    · simp only [hc, if_false] at hseg
      refine ih (cur ++ [c]) ?_ seg hseg
      simp only [List.mem_append, List.mem_singleton, not_or]
      exact ⟨hcur, fun e => hc e.symm⟩

theorem resolve_append (segs : List Str) (name : Str) (stack : List Str)
    (h1 : name ≠ ['.']) (h2 : name ≠ ['.', '.']) :
    resolve stack (segs ++ [name]) = resolve stack segs ++ [name] := by
  induction segs generalizing stack with
  | nil => simp [resolve, h1, h2]
  | cons seg rest ih =>
    simp only [List.cons_append, resolve]
    by_cases ha : seg = ['.', '.']
    · simp only [ha, if_true]; exact ih _
    · by_cases hb : seg = ['.']
      · simp only [ha, hb, if_true, if_false]; exact ih _
      · simp only [ha, hb, if_false]; exact ih _

theorem resolve_mem (segs stack : List Str) (P : Str → Prop)
    (hstack : ∀ seg ∈ stack, P seg) (hsegs : ∀ seg ∈ segs, P seg) :
    ∀ seg ∈ resolve stack segs, P seg ∧ (seg ∈ stack ∨ (seg ≠ ['.'] ∧ seg ≠ ['.', '.'])) := by
  induction segs generalizing stack with
  | nil =>
    intro seg hseg
    exact ⟨hstack seg hseg, Or.inl hseg⟩
  | cons x rest ih =>
    intro seg hseg
    simp only [resolve] at hseg
    have hrest : ∀ seg ∈ rest, P seg := fun s hs => hsegs s (List.mem_cons_of_mem _ hs)
    by_cases ha : x = ['.', '.']
    · simp only [ha, if_true] at hseg
      obtain ⟨h1, h2⟩ := ih stack.dropLast
        (fun s hs => hstack s (List.mem_of_mem_dropLast hs)) hrest seg hseg
      exact ⟨h1, h2.imp List.mem_of_mem_dropLast id⟩
    · by_cases hb : x = ['.']
      · simp only [ha, hb, if_true, if_false] at hseg
        exact ih stack hstack hrest seg hseg
      · simp only [ha, hb, if_false] at hseg
        obtain ⟨h1, h2⟩ := ih (stack ++ [x])
          (by
            intro s hs
            rcases List.mem_append.1 hs with hs | hs
            · exact hstack s hs
            · rw [List.mem_singleton.1 hs]; exact hsegs x (List.mem_cons_self _ _)) hrest seg hseg
        refine ⟨h1, ?_⟩
        rcases h2 with h2 | h2
        · rcases List.mem_append.1 h2 with h3 | h3
          · exact Or.inl h3
          · rw [List.mem_singleton.1 h3]; exact Or.inr ⟨hb, ha⟩
        · exact Or.inr h2

/-- Every segment of a canonicalized path is ordinary. -/
theorem resolve_segments_ordinary (p : Str) :
    ∀ seg ∈ resolve [] (segments p), OrdinarySegment seg := by
  intro seg hseg
  obtain ⟨h1, h2⟩ := resolve_mem (segments p) [] (fun s => s ≠ [] ∧ '/' ∉ s)
    (by simp) (segmentsAux_mem p [] (by simp)) seg hseg
  rcases h2 with h2 | h2
  · simp at h2
  · exact ⟨h1.1, h1.2, h2.1, h2.2⟩

theorem join_append (xs : List Str) (name : Str) :
    join (xs ++ [name]) = join xs ++ '/' :: name := by
  induction xs with
  | nil => simp [join]
  | cons x rest ih => simp [join, ih]

/-- Canonicalization of a directory that is not the root, followed by an
ordinary file name: the file name is appended as it is. -/
theorem canonicalize_dir_name (dir name : Str) (habs : dir.head? = some '/')
    (hdir : resolve [] (segments dir) ≠ []) (hname : OrdinarySegment name) :
    canonicalize dir = join (resolve [] (segments dir))
    ∧ canonicalize (dir ++ '/' :: name) = canonicalize dir ++ '/' :: name := by
  have h1 : canonicalize dir = join (resolve [] (segments dir)) := by
    simp only [canonicalize, habs, if_true]
  refine ⟨h1, ?_⟩
  have hhead : (dir ++ '/' :: name).head? = some '/' := by
    cases dir with
    | nil => simp at habs
    | cons c cs => simpa using habs
  have hseg : segments (dir ++ '/' :: name) = segments dir ++ [name] := by
    unfold segments
    rw [segmentsAux_append, segmentsAux_segment name [] hname.2.1 (by simpa using hname.1)]
    rfl
  rw [h1]
  simp only [canonicalize, hhead, if_true, hseg]
  rw [resolve_append _ _ _ hname.2.2.1 hname.2.2.2, ← join_append]
  cases hr : resolve [] (segments dir) ++ [name] with
  | nil => simp at hr
  | cons x xs => rfl

end Paths

section Claim12

/-- The branch for an absolute output directory (serve.cpp 384-387), with the
canonicalization of the spec: for every working directory and every absolute
output file whose directory part does not canonicalize to the root and whose
file name is an ordinary segment, `output_dir` is the temp root followed by a
non-empty list of ordinary segments, and once both directories are made
`obj_file = output_dir + '/' + file_name` is lexically equal to the temp root
followed by the canonicalized output file. -/
theorem absolute_output_remapped (env : Env) (job : CompileJob) (mem_limit : Nat)
    (tmp : Str) (s : State)
    (hcanon : env.get_canonicalized_path = canonicalize)
    (habs : job.outputFile.head? = some '/')
    (hdir : resolve [] (segments (file_dir job.outputFile)) ≠ [])
    (hname : OrdinarySegment (file_name job.outputFile))
    (hmk1 : env.mkpath (output_dir env tmp job.workingDirectory job.outputFile) = true)
    (hmk2 : env.mkpath (tmp ++ job.workingDirectory) = true) :
    (∃ segs, segs ≠ [] ∧ (∀ seg ∈ segs, OrdinarySegment seg)
      ∧ output_dir env tmp job.workingDirectory job.outputFile = tmp ++ join segs)
    ∧ (hc_fission env job mem_limit tmp s).2.obj_file
        = output_dir env tmp job.workingDirectory job.outputFile
          ++ '/' :: file_name job.outputFile
    ∧ (hc_fission env job mem_limit tmp s).2.obj_file
        = tmp ++ canonicalize job.outputFile := by
  have hmem : '/' ∈ job.outputFile := by
    cases hout : job.outputFile with
    | nil => rw [hout] at habs; simp at habs
    | cons c cs =>
      rw [hout] at habs
      simp only [List.head?_cons, Option.some.injEq] at habs
      simp [habs]
  obtain ⟨hsplit, _⟩ := file_dir_file_name job.outputFile hmem
  have hne : file_dir job.outputFile ≠ [] := by
    intro h
    rw [h] at hdir
    exact hdir rfl
  have hhead : (file_dir job.outputFile).head? = some '/' := by
    rw [hsplit] at habs
    cases hd : file_dir job.outputFile with
    | nil => exact absurd hd hne
    | cons c cs => rw [hd] at habs; simpa using habs
  have hisabs : output_dir_is_absolute job.outputFile = true := by
    simp only [output_dir_is_absolute, hhead]
    cases hd : file_dir job.outputFile with
    | nil => exact absurd hd hne
    | cons c cs => rfl
  obtain ⟨hc1, hc2⟩ := canonicalize_dir_name (file_dir job.outputFile)
    (file_name job.outputFile) hhead hdir hname
  have hod : output_dir env tmp job.workingDirectory job.outputFile
      = tmp ++ canonicalize (file_dir job.outputFile) := by
    simp only [output_dir, hisabs, if_true, hcanon]
  have hobj : (hc_fission env job mem_limit tmp s).2.obj_file
      = output_dir env tmp job.workingDirectory job.outputFile
        ++ '/' :: file_name job.outputFile := by
    simp only [hc_fission, State.emit, hmk1, hmk2, if_false, Bool.true_eq_false]
  refine ⟨⟨resolve [] (segments (file_dir job.outputFile)), hdir,
    resolve_segments_ordinary _, ?_⟩, hobj, ?_⟩
  · rw [hod, hc1]
  · rw [hobj, hod, List.append_assoc, ← hc2, ← hsplit]

/-- The output file `/home/u/proj/out/foo.o` goes through that branch. -/
theorem absolute_output_remapped_example :
    (hc_fission envCanon jobAbsolute 0 (lit "/tmp/icecc-ab12cd")
        { tmp_path := [], obj_file := [], dwo_file := [], trace := [] }).2.obj_file
      = lit "/tmp/icecc-ab12cd" ++ canonicalize jobAbsolute.outputFile :=
  (absolute_output_remapped envCanon jobAbsolute 0 (lit "/tmp/icecc-ab12cd")
    { tmp_path := [], obj_file := [], dwo_file := [], trace := [] } rfl (by decide)
    (by decide) ⟨by decide, by decide, by decide, by decide⟩ (by decide) (by decide)).2.2

end Claim12

section Claim13

/-- C13: the DWARF fission job with working directory `/a/../../etc` and output
file `foo.o`.  `output_dir` is made from the canonicalized working directory,
but the mirrored working directory is made from the working directory as the
client sent it, with its `..` segments: the path given to `mkpath` resolves to
`/tmp/etc`, outside the temp root `/tmp/icecc-ab12cd`, and the same working
directory goes to the compiler runner. -/
theorem C13_working_directory_not_canonicalized :
    Event.make_tmpdir 0 (lit "/tmp/icecc-ab12cd")
        ∈ (handle_connection_child envCanon (lit "/var/icecc") jobEscape 0 2).2
    ∧ Event.mkpath (lit "/tmp/icecc-ab12cd/etc") true
        ∈ (handle_connection_child envCanon (lit "/var/icecc") jobEscape 0 2).2
    ∧ Event.mkpath (lit "/tmp/icecc-ab12cd" ++ jobEscape.workingDirectory) true
        ∈ (handle_connection_child envCanon (lit "/var/icecc") jobEscape 0 2).2
    ∧ lit "/tmp/icecc-ab12cd" ++ jobEscape.workingDirectory
        = lit "/tmp/icecc-ab12cd/a/../../etc"
    ∧ canonicalize (lit "/tmp/icecc-ab12cd" ++ jobEscape.workingDirectory) = lit "/tmp/etc"
    ∧ Event.work_it (lit "/tmp/icecc-ab12cd") (lit "/a/../../etc") (lit "/etc/foo.o") 0
        ∈ (handle_connection_child envCanon (lit "/var/icecc") jobEscape 0 2).2 := by
  decide

end Claim13

section Claim14

/-- C14: the DWARF fission job with working directory `/home/u/proj.d` and
output file `foo`, a file name without extension.  The last `'.'` of the whole
object path is in the directory name, so `dwo_file` is cut there: it is
`proj.dwo` next to the directory `proj.d`, not `foo.dwo` inside it, and that
is the path the worker looks up and unlinks. -/
theorem C14_dwo_file_cut_in_directory_name :
    (handle_connection_try envCanon (lit "/var/icecc") jobNoExtension 0 2).2.obj_file
        = lit "/tmp/icecc-ab12cd/home/u/proj.d/foo"
    ∧ (handle_connection_try envCanon (lit "/var/icecc") jobNoExtension 0 2).2.dwo_file
        = lit "/tmp/icecc-ab12cd/home/u/proj.dwo"
    ∧ output_dir envCanon (lit "/tmp/icecc-ab12cd") jobNoExtension.workingDirectory
          jobNoExtension.outputFile
        ++ '/' :: substr_to_rfind (file_name jobNoExtension.outputFile) '.' ++ lit ".dwo"
        = lit "/tmp/icecc-ab12cd/home/u/proj.d/foo.dwo"
    ∧ Event.stat (lit "/tmp/icecc-ab12cd/home/u/proj.dwo") (some 0)
        ∈ (handle_connection_child envCanon (lit "/var/icecc") jobNoExtension 0 2).2
    ∧ Event.unlink (lit "/tmp/icecc-ab12cd/home/u/proj.dwo")
        ∈ (handle_connection_child envCanon (lit "/var/icecc") jobNoExtension 0 2).2 := by
  decide

end Claim14

section Hex

theorem hex_digit_value_digitChar (d : Nat) (h : d < 16) :
    hex_digit_value (Nat.digitChar d) = d ∧ Nat.digitChar d ∈ hex_digits := by
  interval_cases d <;> decide

theorem hex_value_append (a b : Str) :
    hex_value (a ++ b) = hex_value a * 16 ^ b.length + hex_value b := by
  induction b using List.reverseRecOn generalizing a with
  | nil => simp [hex_value]
  | append_singleton b c ih =>
    rw [← List.append_assoc]
    have h1 : ∀ s : Str, hex_value (s ++ [c]) = 16 * hex_value s + hex_digit_value c := by
      intro s; simp [hex_value, List.foldl_append]
    rw [h1, h1, ih]
    simp only [List.length_append, List.length_singleton, pow_succ]
    ring

theorem toDigitsCore_spec (fuel n : Nat) (ds : Str) (h : n < fuel) :
    ∃ pre, Nat.toDigitsCore 16 fuel n ds = pre ++ ds ∧ hex_value pre = n
      ∧ ∀ c ∈ pre, c ∈ hex_digits := by
  induction fuel generalizing n ds with
  | zero => omega
  | succ fuel ih =>
    simp only [Nat.toDigitsCore]
    obtain ⟨hd1, hd2⟩ := hex_digit_value_digitChar (n % 16) (Nat.mod_lt _ (by decide))
    by_cases h0 : n / 16 = 0
    · simp only [h0, if_true]
      refine ⟨[Nat.digitChar (n % 16)], rfl, ?_, ?_⟩
      · simp only [hex_value, List.foldl, hd1]
        omega
      · intro c hc
        rw [List.mem_singleton.1 hc]; exact hd2
    · simp only [h0, if_false]
      obtain ⟨pre, hpre, hval, hmem⟩ := ih (n / 16) (Nat.digitChar (n % 16) :: ds) (by omega)
      refine ⟨pre ++ [Nat.digitChar (n % 16)], ?_, ?_, ?_⟩
      · rw [hpre]; simp
      · rw [hex_value_append, hval]
        simp only [List.length_singleton, pow_one, hex_value, List.foldl, hd1]
        omega
      · intro c hc
        rcases List.mem_append.1 hc with hc | hc
        · exact hmem c hc
        · rw [List.mem_singleton.1 hc]; exact hd2

theorem hex_value_replicate_zero (k : Nat) : hex_value (List.replicate k '0') = 0 := by
  induction k with
  | zero => rfl
  | succ k ih =>
    rw [List.replicate_succ', hex_value_append, ih]
    decide

/-- The text of `%0<width>x` stands for the number printed, and is made of
lower-case hexadecimal digits. -/
theorem format_0x_spec (width v : Nat) :
    hex_value (format_0x width v) = v ∧ ∀ c ∈ format_0x width v, c ∈ hex_digits := by
  obtain ⟨pre, hpre, hval, hmem⟩ := toDigitsCore_spec (v + 1) v [] (by omega)
  simp only [List.append_nil] at hpre
  have hd : Nat.toDigits 16 v = pre := hpre
  refine ⟨?_, ?_⟩
  · rw [format_0x, hex_value_append, hex_value_replicate_zero, hd, hval]
    simp
  · intro c hc
    rw [format_0x, hd] at hc
    rcases List.mem_append.1 hc with hc | hc
    · rw [(List.mem_replicate.1 hc).2]; decide
    · exact hmem c hc

/-- The text of `%0<width>x` of a number below `16 ^ width` has exactly `width`
characters. -/
theorem format_0x_length (width v : Nat) (hw : 0 < width) (h : v < 16 ^ width) :
    (format_0x width v).length = width := by
  have := Nat.toDigitsCore_length 16 (by decide) (v + 1) v width h hw
  have hd : (Nat.toDigits 16 v).length ≤ width := this
  simp only [format_0x, List.length_append, List.length_replicate]
  omega

theorem format_0x_inj (width v1 v2 : Nat) (h : format_0x width v1 = format_0x width v2) :
    v1 = v2 := by
  rw [← (format_0x_spec width v1).1, ← (format_0x_spec width v2).1, h]

end Hex
section Tmpnam

variable {σ : Type}

theorem land_mask (v : Nat) : v &&& 0xffffffff = v % 2 ^ 32 :=
  Nat.and_pow_two_sub_one_eq_mod v 32

theorem tries_succ_mod (W tries : Nat) (hW : 20 ≤ W) (ht : tries ≤ 1000000) :
    (tries + 1) % 2 ^ W = tries + 1 := by
  apply Nat.mod_eq_of_lt
  have : 2 ^ 20 ≤ 2 ^ W := Nat.pow_le_pow_right (by decide) hW
  have h20 : (2 : Nat) ^ 20 = 1048576 := by norm_num
  omega

/-- The text of the name is never longer than the buffer holds: `snprintf`
cuts nothing off. -/
theorem tmpname_text_fits (sys : TempSys σ) (pfx sfx : Str) (relative : Int) (v : Nat) :
    (tmpname_text sys pfx sfx relative v).length + 1 ≤ tmpname_length sys pfx sfx
    ∧ tmpname_of sys pfx sfx relative v = tmpname_text sys pfx sfx relative v := by
  have h8 : (format_0x 8 (v &&& 0xffffffff)).length = 8 := by
    apply format_0x_length 8 _ (by decide)
    rw [land_mask]
    have : (16 : Nat) ^ 8 = 2 ^ 32 := by norm_num
    rw [this]
    exact Nat.mod_lt _ (by positivity)
  have hlen : (tmpname_text sys pfx sfx relative v).length + 1 ≤ tmpname_length sys pfx sfx := by
    unfold tmpname_text tmpname_length
    by_cases hr : relative ≠ 0
    · simp only [hr, if_true, ne_eq, not_false_eq_true, List.length_append, List.length_cons,
        List.length_drop, h8]
      omega
    · simp only [hr, if_false, List.length_append, List.length_cons, h8]
      omega
  refine ⟨hlen, ?_⟩
  unfold tmpname_of
  apply List.take_of_length_le
  omega

theorem tmpname_of_inj (sys : TempSys σ) (pfx sfx : Str) (relative : Int) (v1 v2 : Nat)
    (h : tmpname_of sys pfx sfx relative v1 = tmpname_of sys pfx sfx relative v2) :
    v1 % 2 ^ 32 = v2 % 2 ^ 32 := by
  rw [(tmpname_text_fits sys pfx sfx relative v1).2,
    (tmpname_text_fits sys pfx sfx relative v2).2] at h
  unfold tmpname_text at h
  simp only [List.append_assoc, List.cons_append] at h
  have h1 := List.append_cancel_left h
  simp only [List.cons.injEq, true_and] at h1
  have h2 := List.append_cancel_left h1
  simp only [List.cons.injEq, true_and] at h2
  have h3 := List.append_cancel_right h2
  have h4 := format_0x_inj 8 _ _ h3
  rw [land_mask, land_mask] at h4
  exact h4

theorem tmpname_of_congr (sys : TempSys σ) (pfx sfx : Str) (relative : Int) (v1 v2 : Nat)
    (h : v1 % 2 ^ 32 = v2 % 2 ^ 32) :
    tmpname_of sys pfx sfx relative v1 = tmpname_of sys pfx sfx relative v2 := by
  unfold tmpname_of tmpname_text
  rw [land_mask, land_mask, h]

theorem mod_mod_ulong (W v : Nat) (hW : 32 ≤ W) : v % 2 ^ W % 2 ^ 32 = v % 2 ^ 32 :=
  Nat.mod_mod_of_dvd v (Nat.pow_dvd_pow 2 hW)

/-- With enough fuel the loop of `dcc_make_tmpnam` makes a complete run. -/
theorem dcc_make_tmpnam_loop_run (sys : TempSys σ) (pfx sfx : Str) (relative : Int)
    (hW : 20 ≤ sys.ulong_bits) :
    ∀ (fuel tries random_bits : Nat) (w : σ) (tried : List Attempt),
      tries ≤ 1000000 → 1000001 - tries ≤ fuel →
      ∃ atts res w2, TmpnamRun sys pfx sfx relative tries random_bits w atts res w2
        ∧ dcc_make_tmpnam_loop sys pfx sfx relative fuel tries random_bits w tried
          = { ret := some res.1, name_ret := res.2, tried := tried ++ atts, world := w2 } := by
  intro fuel
  induction fuel with
  | zero => intro tries _ _ _ h1 h2; omega
  | succ fuel ih =>
    intro tries random_bits w tried h1 h2
    have hmod := tries_succ_mod sys.ulong_bits tries hW h1
    by_cases hs : sys.snprintf_fails (tmpname_text sys pfx sfx relative random_bits) = true
    · refine ⟨[], _, _, TmpnamRun.snprintf_failed tries random_bits w hs, ?_⟩
      simp only [dcc_make_tmpnam_loop, hs, if_true, List.append_nil]
    · have hs2 : sys.snprintf_fails (tmpname_text sys pfx sfx relative random_bits) = false := by
        simpa using hs
      by_cases hfd : (sys.sys_creat w (tmpname_of sys pfx sfx relative random_bits)).1.1 = -1
      · by_cases ht : 1000000 < tries + 1
        · refine ⟨_, _, _, TmpnamRun.exhausted tries random_bits w hs2 hfd ht, ?_⟩
          simp only [dcc_make_tmpnam_loop, hs2, hfd, hmod, ht, if_true, if_false,
            Bool.false_eq_true, gt_iff_lt]
        · by_cases he : try_again
              (sys.sys_creat w (tmpname_of sys pfx sfx relative random_bits)).1.2 = true
          · obtain ⟨atts, res, w2, hrun, heq⟩ := ih (tries + 1)
              ((random_bits + 7777) % 2 ^ sys.ulong_bits)
              (sys.sys_creat w (tmpname_of sys pfx sfx relative random_bits)).2
              (tried ++ [Attempt.mk (tmpname_of sys pfx sfx relative random_bits)
                (sys.sys_creat w (tmpname_of sys pfx sfx relative random_bits)).1.1
                (sys.sys_creat w (tmpname_of sys pfx sfx relative random_bits)).1.2])
              (by omega) (by omega)
            refine ⟨_, _, _, TmpnamRun.again tries random_bits w atts res w2 hs2 hfd
              (by omega) he hrun, ?_⟩
            simp only [dcc_make_tmpnam_loop, hs2, hmod, ht, he, if_true, if_false,
              Bool.false_eq_true, gt_iff_lt]
            rw [if_pos hfd, heq]
            simp
          · have he2 : try_again
                (sys.sys_creat w (tmpname_of sys pfx sfx relative random_bits)).1.2 = false := by
              simpa using he
            refine ⟨_, _, _, TmpnamRun.fatal tries random_bits w hs2 hfd (by omega) he2, ?_⟩
            simp only [dcc_make_tmpnam_loop, hs2, hfd, hmod, ht, he2, if_true, if_false,
              Bool.false_eq_true, gt_iff_lt]
      · by_cases hc : (sys.sys_close
            (sys.sys_creat w (tmpname_of sys pfx sfx relative random_bits)).2
            (sys.sys_creat w (tmpname_of sys pfx sfx relative random_bits)).1.1).1 = -1
        · refine ⟨_, _, _, TmpnamRun.close_failed tries random_bits w hs2 hfd hc, ?_⟩
          simp only [dcc_make_tmpnam_loop, hs2, hfd, hc, if_true, if_false, Bool.false_eq_true]
        · refine ⟨_, _, _, TmpnamRun.created tries random_bits w hs2 hfd hc, ?_⟩
          simp only [dcc_make_tmpnam_loop, hs2, hfd, hc, if_true, if_false, Bool.false_eq_true]

end Tmpnam
section TmpnamRuns

variable {σ : Type}

theorem TmpnamRun.length_le {sys : TempSys σ} {pfx sfx : Str} {relative : Int}
    {tries random_bits : Nat} {w w2 : σ} {atts : List Attempt} {res : Int × Option Str}
    (h : TmpnamRun sys pfx sfx relative tries random_bits w atts res w2)
    (ht : tries ≤ 1000000) : atts.length + tries ≤ 1000001 := by
  induction h with
  | snprintf_failed => simp only [List.length_nil]; omega
  | created => simp only [List.length_singleton]; omega
  | close_failed => simp only [List.length_singleton]; omega
  | exhausted => simp only [List.length_singleton]; omega
  | fatal => simp only [List.length_singleton]; omega
  | again tries random_bits w atts res w2 hs hfd ht2 he next ih =>
    have := ih ht2
    simp only [List.length_cons]; omega

/-- The name of the `i`-th call of `open` in a run: the random component is
the initial one plus `7777 * i`. -/
theorem TmpnamRun.name_at {sys : TempSys σ} {pfx sfx : Str} {relative : Int}
    {tries random_bits : Nat} {w w2 : σ} {atts : List Attempt} {res : Int × Option Str}
    (h : TmpnamRun sys pfx sfx relative tries random_bits w atts res w2)
    (hW : 32 ≤ sys.ulong_bits) (i : Nat) (a : Attempt) (ha : atts[i]? = some a) :
    a.name = tmpname_of sys pfx sfx relative (random_bits + 7777 * i) := by
  induction h generalizing i with
  | snprintf_failed => simp at ha
  | created | close_failed | exhausted | fatal =>
    cases i with
    | zero =>
      simp only [List.getElem?_cons_zero, Option.some.injEq] at ha
      rw [← ha]; rfl
    | succ i => simp at ha
  | again tries random_bits w atts res w2 hs hfd ht2 he next ih =>
    cases i with
    | zero =>
      simp only [List.getElem?_cons_zero, Option.some.injEq] at ha
      rw [← ha]; rfl
    | succ i =>
      simp only [List.getElem?_cons_succ] at ha
      rw [ih i ha]
      apply tmpname_of_congr
      rw [Nat.add_mod, mod_mod_ulong _ _ hW, ← Nat.add_mod]
      congr 1
      ring

theorem TmpnamRun.first_call {sys : TempSys σ} {pfx sfx : Str} {relative : Int}
    {tries random_bits : Nat} {w w2 : σ} {atts : List Attempt} {res : Int × Option Str}
    (h : TmpnamRun sys pfx sfx relative tries random_bits w atts res w2) :
    (∃ b, atts[0]? = some b)
    ∨ ((∃ v, sys.snprintf_fails (tmpname_text sys pfx sfx relative v) = true)
      ∧ res = (sys.EXIT_OUT_OF_MEMORY, none) ∧ atts = []) := by
  cases h with
  | snprintf_failed tries random_bits w hs => exact Or.inr ⟨⟨_, hs⟩, rfl, rfl⟩
  | created | close_failed | exhausted | fatal | again =>
    exact Or.inl ⟨_, List.getElem?_cons_zero⟩

/-- What follows a failed call of `open` in a run while the counter of tries
is within its bound: after a "try again" error either the next round makes
another call or its `snprintf` fails; after any other error the run ends. -/
theorem TmpnamRun.after_failure {sys : TempSys σ} {pfx sfx : Str} {relative : Int}
    {tries random_bits : Nat} {w w2 : σ} {atts : List Attempt} {res : Int × Option Str}
    (h : TmpnamRun sys pfx sfx relative tries random_bits w atts res w2)
    (i : Nat) (a : Attempt) (ha : atts[i]? = some a) (hfail : a.fd = -1)
    (hb : tries + i + 1 ≤ 1000000) :
    (try_again a.errno = true →
      (∃ b, atts[i + 1]? = some b)
      ∨ ((∃ v, sys.snprintf_fails (tmpname_text sys pfx sfx relative v) = true)
        ∧ res = (sys.EXIT_OUT_OF_MEMORY, none) ∧ atts.length = i + 1))
    ∧ (try_again a.errno = false →
      res = (sys.EXIT_IO_ERROR, none) ∧ atts.length = i + 1) := by
  induction h generalizing i with
  | snprintf_failed => simp at ha
  | created tries random_bits w hs hfd hc =>
    cases i with
    | zero =>
      simp only [List.getElem?_cons_zero, Option.some.injEq] at ha
      rw [← ha] at hfail
      exact absurd hfail hfd
    | succ i => simp at ha
  | close_failed tries random_bits w hs hfd hc =>
    cases i with
    | zero =>
      simp only [List.getElem?_cons_zero, Option.some.injEq] at ha
      rw [← ha] at hfail
      exact absurd hfail hfd
    | succ i => simp at ha
  | exhausted tries random_bits w hs hfd ht =>
    cases i with
    | zero => omega
    | succ i => simp at ha
  | fatal tries random_bits w hs hfd ht he =>
    cases i with
    | zero =>
      simp only [List.getElem?_cons_zero, Option.some.injEq] at ha
      subst ha
      refine ⟨fun h1 => ?_, fun _ => ⟨rfl, rfl⟩⟩
      simp only at h1
      rw [he] at h1
      cases h1
    | succ i => simp at ha
  | again tries random_bits w atts res w2 hs hfd ht2 he next ih =>
    cases i with
    | zero =>
      simp only [List.getElem?_cons_zero, Option.some.injEq] at ha
      subst ha
      refine ⟨fun _ => ?_, fun h1 => ?_⟩
      · rcases next.first_call with ⟨b, hb2⟩ | ⟨h0, h2, h3⟩
        · exact Or.inl ⟨b, by rw [zero_add, List.getElem?_cons_succ, hb2]⟩
        · exact Or.inr ⟨h0, h2, by rw [h3]; rfl⟩
      · simp only at h1
        rw [he] at h1
        cases h1
    | succ i =>
      simp only [List.getElem?_cons_succ] at ha
      obtain ⟨h1, h2⟩ := ih i ha (by omega)
      refine ⟨fun h3 => ?_, fun h3 => ?_⟩
      · rcases h1 h3 with ⟨b, hb2⟩ | ⟨h0, hres, hlen⟩
        · exact Or.inl ⟨b, by simpa using hb2⟩
        · exact Or.inr ⟨h0, hres, by simp [hlen]⟩
      · obtain ⟨hres, hlen⟩ := h2 h3
        exact ⟨hres, by simp [hlen]⟩

/-- A run in which `snprintf` never fails and every call of `open` fails with
a "try again" error: it makes calls until the counter of tries passes
1000000 and returns `EXIT_IO_ERROR`. -/
theorem TmpnamRun.all_fail {sys : TempSys σ} {pfx sfx : Str} {relative : Int}
    {tries random_bits : Nat} {w w2 : σ} {atts : List Attempt} {res : Int × Option Str}
    (h : TmpnamRun sys pfx sfx relative tries random_bits w atts res w2)
    (hs : ∀ t, sys.snprintf_fails t = false)
    (hall : ∀ w name, (sys.sys_creat w name).1.1 = -1
      ∧ try_again (sys.sys_creat w name).1.2 = true)
    (ht : tries ≤ 1000000) :
    atts.length + tries = 1000001 ∧ res = (sys.EXIT_IO_ERROR, none) := by
  induction h with
  | snprintf_failed tries random_bits w hs2 => rw [hs] at hs2; cases hs2
  | created tries random_bits w hs2 hfd hc => exact absurd (hall _ _).1 hfd
  | close_failed tries random_bits w hs2 hfd hc => exact absurd (hall _ _).1 hfd
  | exhausted tries random_bits w hs2 hfd ht2 =>
    refine ⟨?_, rfl⟩
    simp only [List.length_singleton]; omega
  | fatal tries random_bits w hs2 hfd ht2 he => rw [(hall _ _).2] at he; cases he
  | again tries random_bits w atts res w2 hs2 hfd ht2 he next ih =>
    obtain ⟨h1, h2⟩ := ih ht2
    refine ⟨?_, h2⟩
    simp only [List.length_cons]; omega

/-- With enough fuel `dcc_make_tmpnam` returns, and its calls of `open` are
those of a complete run from the initial `random_bits`. -/
theorem dcc_make_tmpnam_run (sys : TempSys σ) (fuel : Nat) (pfx sfx : Str) (relative : Int)
    (w : σ) (hW : 20 ≤ sys.ulong_bits) (hfuel : 1000001 ≤ fuel)
    (hm : sys.malloc (tmpname_length sys pfx sfx) = true) :
    ∃ atts res w2, TmpnamRun sys pfx sfx relative 0 (random_bits_init sys) w atts res w2
      ∧ dcc_make_tmpnam sys fuel pfx sfx relative w
        = { ret := some res.1, name_ret := res.2, tried := atts, world := w2 } := by
  obtain ⟨atts, res, w2, hrun, heq⟩ := dcc_make_tmpnam_loop_run sys pfx sfx relative hW fuel 0
    (random_bits_init sys) w [] (by omega) (by omega)
  refine ⟨atts, res, w2, hrun, ?_⟩
  simp only [dcc_make_tmpnam, hm, if_false, Bool.true_eq_false, heq, List.nil_append]

theorem dcc_make_tmpnam_no_memory (sys : TempSys σ) (fuel : Nat) (pfx sfx : Str)
    (relative : Int) (w : σ) (hm : sys.malloc (tmpname_length sys pfx sfx) = false) :
    dcc_make_tmpnam sys fuel pfx sfx relative w
      = { ret := some sys.EXIT_OUT_OF_MEMORY, name_ret := none, tried := [], world := w } := by
  simp only [dcc_make_tmpnam, hm, if_true]

end TmpnamRuns

section Claim15

variable {σ : Type}

theorem try_again_iff (errno : Int) :
    try_again errno = true
      ↔ errno = EACCES ∨ errno = EEXIST ∨ errno = EISDIR ∨ errno = ELOOP := by
  simp [try_again, or_assoc]

/-- C15: in a call of `dcc_make_tmpnam` that returns (enough fuel), take the
`i`-th call of `open`, counted from 0, and let it fail (`fd = -1`) while the
budget is not exhausted (`tries`, then `i + 1`, is at most 1000000).  Its name
has the random component `random_bits + 7777 * i`.  If `errno` is `EACCES`,
`EEXIST`, `EISDIR` or `ELOOP`, the next round formats the same root, prefix
and suffix with the random component increased by 7777 and calls `open` with
that name (unless the `snprintf` of that round fails, which ends the call with
`EXIT_OUT_OF_MEMORY`).  For every other `errno` the call returns
`EXIT_IO_ERROR` with no further call of `open` and `*name_ret` unwritten.
The random component is printed modulo `2 ^ 32` (see `tmpname_text`). -/
theorem C15_retry_or_abort (sys : TempSys σ) (fuel : Nat) (pfx sfx : Str) (relative : Int)
    (w : σ) (hW : 32 ≤ sys.ulong_bits) (hfuel : 1000001 ≤ fuel) (i : Nat) (a : Attempt)
    (ha : (dcc_make_tmpnam sys fuel pfx sfx relative w).tried[i]? = some a)
    (hfail : a.fd = -1) (hbudget : i + 1 ≤ 1000000) :
    a.name = tmpname_of sys pfx sfx relative (random_bits_init sys + 7777 * i)
    ∧ (a.errno = EACCES ∨ a.errno = EEXIST ∨ a.errno = EISDIR ∨ a.errno = ELOOP →
      (∃ b, (dcc_make_tmpnam sys fuel pfx sfx relative w).tried[i + 1]? = some b
        ∧ b.name
          = tmpname_of sys pfx sfx relative (random_bits_init sys + 7777 * i + 7777))
      ∨ ((∃ v, sys.snprintf_fails (tmpname_text sys pfx sfx relative v) = true)
        ∧ (dcc_make_tmpnam sys fuel pfx sfx relative w).ret = some sys.EXIT_OUT_OF_MEMORY
        ∧ (dcc_make_tmpnam sys fuel pfx sfx relative w).name_ret = none
        ∧ (dcc_make_tmpnam sys fuel pfx sfx relative w).tried.length = i + 1))
    ∧ (¬ (a.errno = EACCES ∨ a.errno = EEXIST ∨ a.errno = EISDIR ∨ a.errno = ELOOP) →
      (dcc_make_tmpnam sys fuel pfx sfx relative w).ret = some sys.EXIT_IO_ERROR
      ∧ (dcc_make_tmpnam sys fuel pfx sfx relative w).name_ret = none
      ∧ (dcc_make_tmpnam sys fuel pfx sfx relative w).tried.length = i + 1) := by
  by_cases hm : sys.malloc (tmpname_length sys pfx sfx) = true
  · obtain ⟨atts, res, w2, hrun, heq⟩ := dcc_make_tmpnam_run sys fuel pfx sfx relative w
      (by omega) hfuel hm
    rw [heq] at ha ⊢
    simp only at ha ⊢
    obtain ⟨h1, h2⟩ := hrun.after_failure i a ha hfail (by omega)
    refine ⟨hrun.name_at hW i a ha, fun he => ?_, fun he => ?_⟩
    · rcases h1 ((try_again_iff _).2 he) with ⟨b, hb⟩ | ⟨h0, hres, hlen⟩
      · refine Or.inl ⟨b, hb, ?_⟩
        rw [hrun.name_at hW (i + 1) b hb]
        have h3 : random_bits_init sys + 7777 * (i + 1)
            = random_bits_init sys + 7777 * i + 7777 := by ring
        rw [h3]
      · exact Or.inr ⟨h0, by rw [hres], by rw [hres], hlen⟩
    · have he2 : try_again a.errno = false := by
        cases h : try_again a.errno with
        | false => rfl
        | true => exact absurd ((try_again_iff _).1 h) he
      obtain ⟨hres, hlen⟩ := h2 he2
      exact ⟨by rw [hres], by rw [hres], hlen⟩
  · have hm2 : sys.malloc (tmpname_length sys pfx sfx) = false := by simpa using hm
    rw [dcc_make_tmpnam_no_memory sys fuel pfx sfx relative w hm2] at ha
    simp at ha

/-- Witness of C15: the first name exists already, so the first call of `open`
fails with `EEXIST` and the second call is made with the random component
increased by 7777. -/
theorem C15_retry_or_abort_witness :
    (dcc_make_tmpnam fsSys 1000001 (lit "icecc-42") (lit ".o") 0
        [lit "/tmp/icecc-42_9781f100.o"]).tried[0]?
      = some { name := lit "/tmp/icecc-42_9781f100.o", fd := -1, errno := EEXIST }
    ∧ (dcc_make_tmpnam fsSys 1000001 (lit "icecc-42") (lit ".o") 0
        [lit "/tmp/icecc-42_9781f100.o"]).name_ret = some (lit "/tmp/icecc-42_97820f61.o")
    ∧ ((∃ b, (dcc_make_tmpnam fsSys 1000001 (lit "icecc-42") (lit ".o") 0
          [lit "/tmp/icecc-42_9781f100.o"]).tried[0 + 1]? = some b
        ∧ b.name = tmpname_of fsSys (lit "icecc-42") (lit ".o") 0
          (random_bits_init fsSys + 7777 * 0 + 7777))
      ∨ ((∃ v, fsSys.snprintf_fails (tmpname_text fsSys (lit "icecc-42") (lit ".o") 0 v) = true)
        ∧ (dcc_make_tmpnam fsSys 1000001 (lit "icecc-42") (lit ".o") 0
          [lit "/tmp/icecc-42_9781f100.o"]).ret = some fsSys.EXIT_OUT_OF_MEMORY
        ∧ (dcc_make_tmpnam fsSys 1000001 (lit "icecc-42") (lit ".o") 0
          [lit "/tmp/icecc-42_9781f100.o"]).name_ret = none
        ∧ (dcc_make_tmpnam fsSys 1000001 (lit "icecc-42") (lit ".o") 0
          [lit "/tmp/icecc-42_9781f100.o"]).tried.length = 0 + 1)) :=
  ⟨by decide, by decide,
    (C15_retry_or_abort fsSys 1000001 (lit "icecc-42") (lit ".o") 0
      [lit "/tmp/icecc-42_9781f100.o"] (by decide) (by decide) 0
      { name := lit "/tmp/icecc-42_9781f100.o", fd := -1, errno := EEXIST }
      (by decide) (by decide) (by decide)).2.1 (by decide)⟩

end Claim15

section Claim16

variable {σ : Type}

/-- With enough fuel the loop of `dcc_make_tmpdir` returns after at most
`1000001 - tries` calls of `mkdtemp`, and after exactly that many, with
`EXIT_IO_ERROR`, when every call fails with a "try again" error. -/
theorem dcc_make_tmpdir_loop_bound (sys : TempSys σ) (hW : 20 ≤ sys.ulong_bits) :
    ∀ (fuel tries : Nat) (tmpname : Str) (w : σ) (tried : List (Str × MkdtempResult)),
      tries ≤ 1000000 → 1000001 - tries ≤ fuel →
      (dcc_make_tmpdir_loop sys fuel tries tmpname w tried).ret ≠ none
      ∧ ∃ calls, (dcc_make_tmpdir_loop sys fuel tries tmpname w tried).tried = tried ++ calls
        ∧ calls.length + tries ≤ 1000001
        ∧ ((∀ w t, (sys.mkdtemp w t).1.returned = false
            ∧ try_again (sys.mkdtemp w t).1.errno = true) →
          (dcc_make_tmpdir_loop sys fuel tries tmpname w tried).ret = some sys.EXIT_IO_ERROR
          ∧ (dcc_make_tmpdir_loop sys fuel tries tmpname w tried).name_ret = none
          ∧ calls.length + tries = 1000001) := by
  intro fuel
  induction fuel with
  | zero => intro tries _ _ _ h1 h2; omega
  | succ fuel ih =>
    intro tries tmpname w tried h1 h2
    have hmod := tries_succ_mod sys.ulong_bits tries hW h1
    by_cases hr : (sys.mkdtemp w tmpname).1.returned = false
    · by_cases ht : 1000000 < tries + 1
      · simp only [dcc_make_tmpdir_loop, hr, hmod, ht, if_true, gt_iff_lt]
        refine ⟨by simp, [(tmpname, (sys.mkdtemp w tmpname).1)], rfl, ?_, fun _ => ⟨trivial, trivial, ?_⟩⟩
        · simp only [List.length_singleton]; omega
        · simp only [List.length_singleton]; omega
      · by_cases he : try_again (sys.mkdtemp w tmpname).1.errno = true
        · simp only [dcc_make_tmpdir_loop, hr, hmod, ht, he, if_true, if_false, gt_iff_lt]
          obtain ⟨h3, calls, h4, h5, h6⟩ := ih (tries + 1) (sys.mkdtemp w tmpname).1.template
            (sys.mkdtemp w tmpname).2 (tried ++ [(tmpname, (sys.mkdtemp w tmpname).1)])
            (by omega) (by omega)
          refine ⟨h3, (tmpname, (sys.mkdtemp w tmpname).1) :: calls, ?_, ?_, fun hall => ?_⟩
          · rw [h4]; simp
          · simp only [List.length_cons]; omega
          · obtain ⟨h7, h8, h9⟩ := h6 hall
            refine ⟨h7, h8, ?_⟩
            simp only [List.length_cons]; omega
        · have he2 : try_again (sys.mkdtemp w tmpname).1.errno = false := by simpa using he
          simp only [dcc_make_tmpdir_loop, hr, hmod, ht, he2, if_true, if_false, gt_iff_lt,
            Bool.false_eq_true]
          refine ⟨by simp, [(tmpname, (sys.mkdtemp w tmpname).1)], rfl, ?_, fun hall => ?_⟩
          · simp only [List.length_singleton]; omega
          · rw [(hall w tmpname).2] at he2; cases he2
    · have hr2 : (sys.mkdtemp w tmpname).1.returned = true := by simpa using hr
      simp only [dcc_make_tmpdir_loop, hr2, if_false, Bool.true_eq_false]
      refine ⟨by simp, [(tmpname, (sys.mkdtemp w tmpname).1)], rfl, ?_, fun hall => ?_⟩
      · simp only [List.length_singleton]; omega
      · rw [(hall w tmpname).1] at hr2; cases hr2

/-- With enough fuel `dcc_make_tmpnam` returns after at most 1000001 calls of
`open`, and after exactly that many, with `EXIT_IO_ERROR`, when every call
fails with a "try again" error. -/
theorem dcc_make_tmpnam_bound (sys : TempSys σ) (fuel : Nat) (pfx sfx : Str) (relative : Int)
    (w : σ) (hW : 20 ≤ sys.ulong_bits) (hfuel : 1000001 ≤ fuel) :
    (dcc_make_tmpnam sys fuel pfx sfx relative w).ret ≠ none
    ∧ (dcc_make_tmpnam sys fuel pfx sfx relative w).tried.length ≤ 1000001
    ∧ (sys.malloc (tmpname_length sys pfx sfx) = true →
        (∀ t, sys.snprintf_fails t = false) →
        (∀ w name, (sys.sys_creat w name).1.1 = -1
          ∧ try_again (sys.sys_creat w name).1.2 = true) →
        (dcc_make_tmpnam sys fuel pfx sfx relative w).ret = some sys.EXIT_IO_ERROR
        ∧ (dcc_make_tmpnam sys fuel pfx sfx relative w).name_ret = none
        ∧ (dcc_make_tmpnam sys fuel pfx sfx relative w).tried.length = 1000001) := by
  by_cases hm : sys.malloc (tmpname_length sys pfx sfx) = true
  · obtain ⟨atts, res, w2, hrun, heq⟩ := dcc_make_tmpnam_run sys fuel pfx sfx relative w
      hW hfuel hm
    rw [heq]
    have hlen := hrun.length_le (by omega)
    refine ⟨by simp, by simpa using hlen, fun _ hs hall => ?_⟩
    obtain ⟨h1, h2⟩ := hrun.all_fail hs hall (by omega)
    simp only [h2]
    exact ⟨trivial, trivial, by omega⟩
  · have hm2 : sys.malloc (tmpname_length sys pfx sfx) = false := by simpa using hm
    rw [dcc_make_tmpnam_no_memory sys fuel pfx sfx relative w hm2]
    exact ⟨by simp, by simp, fun h => absurd h hm⟩

theorem dcc_make_tmpdir_bound (sys : TempSys σ) (fuel : Nat) (w : σ)
    (hW : 20 ≤ sys.ulong_bits) (hfuel : 1000001 ≤ fuel) :
    (dcc_make_tmpdir sys fuel w).ret ≠ none
    ∧ (dcc_make_tmpdir sys fuel w).tried.length ≤ 1000001
    ∧ (sys.malloc (sys.temp_dir_path.length + 1 + (lit "icecc-XXXXXX").length + 1) = true →
        (∀ t, sys.snprintf_fails t = false) →
        (∀ w t, (sys.mkdtemp w t).1.returned = false
          ∧ try_again (sys.mkdtemp w t).1.errno = true) →
        (dcc_make_tmpdir sys fuel w).ret = some sys.EXIT_IO_ERROR
        ∧ (dcc_make_tmpdir sys fuel w).name_ret = none
        ∧ (dcc_make_tmpdir sys fuel w).tried.length = 1000001) := by
  by_cases hm : sys.malloc (sys.temp_dir_path.length + 1 + (lit "icecc-XXXXXX").length + 1)
      = true
  · by_cases hs : sys.snprintf_fails (sys.temp_dir_path ++ '/' :: lit "icecc-XXXXXX") = true
    · simp only [dcc_make_tmpdir, hm, hs, if_true, if_false, Bool.true_eq_false]
      refine ⟨by simp, by simp, fun _ hs2 => ?_⟩
      rw [hs2] at hs; cases hs
    · have hs2 : sys.snprintf_fails (sys.temp_dir_path ++ '/' :: lit "icecc-XXXXXX") = false := by
        simpa using hs
      obtain ⟨h3, calls, h4, h5, h6⟩ := dcc_make_tmpdir_loop_bound sys hW fuel 0
        (tmpdir_template sys) w [] (by omega) (by omega)
      simp only [dcc_make_tmpdir, hm, hs2, if_false, Bool.true_eq_false, Bool.false_eq_true]
      rw [h4] at *
      refine ⟨h3, by simpa using h5, fun _ _ hall => ?_⟩
      obtain ⟨h7, h8, h9⟩ := h6 hall
      exact ⟨h7, h8, by simpa using h9⟩
  · have hm2 : sys.malloc (sys.temp_dir_path.length + 1 + (lit "icecc-XXXXXX").length + 1)
        = false := by simpa using hm
    simp only [dcc_make_tmpdir, hm2, if_true]
    exact ⟨by simp, by simp, fun h => by cases h⟩

/-- C16 (as amended): for every outcome of the creation calls (any world and
any `open`, `close` and `mkdtemp`), `dcc_make_tmpnam` and `dcc_make_tmpdir`
terminate (with fuel for 1000001 rounds the model returns): each makes at most
1000001 creation calls in total, and when every call fails with a "try again"
error (and `malloc` and `snprintf` succeed) it returns `EXIT_IO_ERROR`, with
`*name_ret` unwritten, after exactly 1000001 calls. -/
theorem C16_attempts_bounded (sys : TempSys σ) (fuel : Nat) (pfx sfx : Str) (relative : Int)
    (w : σ) (hW : 20 ≤ sys.ulong_bits) (hfuel : 1000001 ≤ fuel) :
    ((dcc_make_tmpnam sys fuel pfx sfx relative w).ret ≠ none
      ∧ (dcc_make_tmpnam sys fuel pfx sfx relative w).tried.length ≤ 1000001
      ∧ (sys.malloc (tmpname_length sys pfx sfx) = true →
          (∀ t, sys.snprintf_fails t = false) →
          (∀ w name, (sys.sys_creat w name).1.1 = -1
            ∧ try_again (sys.sys_creat w name).1.2 = true) →
          (dcc_make_tmpnam sys fuel pfx sfx relative w).ret = some sys.EXIT_IO_ERROR
          ∧ (dcc_make_tmpnam sys fuel pfx sfx relative w).name_ret = none
          ∧ (dcc_make_tmpnam sys fuel pfx sfx relative w).tried.length = 1000001))
    ∧ ((dcc_make_tmpdir sys fuel w).ret ≠ none
      ∧ (dcc_make_tmpdir sys fuel w).tried.length ≤ 1000001
      ∧ (sys.malloc (sys.temp_dir_path.length + 1 + (lit "icecc-XXXXXX").length + 1) = true →
          (∀ t, sys.snprintf_fails t = false) →
          (∀ w t, (sys.mkdtemp w t).1.returned = false
            ∧ try_again (sys.mkdtemp w t).1.errno = true) →
          (dcc_make_tmpdir sys fuel w).ret = some sys.EXIT_IO_ERROR
          ∧ (dcc_make_tmpdir sys fuel w).name_ret = none
          ∧ (dcc_make_tmpdir sys fuel w).tried.length = 1000001)) :=
  ⟨dcc_make_tmpnam_bound sys fuel pfx sfx relative w hW hfuel,
    dcc_make_tmpdir_bound sys fuel w hW hfuel⟩

/-- Witness of C16: a world in which every name exists. -/
theorem C16_attempts_bounded_witness :
    ((dcc_make_tmpnam fullSys 1000001 (lit "icecc-42") (lit ".o") 0 ()).ret
        = some fullSys.EXIT_IO_ERROR
      ∧ (dcc_make_tmpnam fullSys 1000001 (lit "icecc-42") (lit ".o") 0 ()).name_ret = none
      ∧ (dcc_make_tmpnam fullSys 1000001 (lit "icecc-42") (lit ".o") 0 ()).tried.length
        = 1000001)
    ∧ (dcc_make_tmpdir fullSys 1000001 ()).tried.length ≤ 1000001 :=
  ⟨(C16_attempts_bounded fullSys 1000001 (lit "icecc-42") (lit ".o") 0 () (by decide)
      (by decide)).1.2.2 rfl (fun _ => rfl) (fun _ _ => ⟨rfl, rfl⟩),
    (C16_attempts_bounded fullSys 1000001 (lit "icecc-42") (lit ".o") 0 () (by decide)
      (by decide)).2.2.1⟩

/-- C16 (counterexample): in a world in which every name exists, both
allocators make 1000001 creation calls, one more than 1000000, before they
return `EXIT_IO_ERROR`. -/
theorem C16_one_more_attempt :
    (dcc_make_tmpnam fullSys 1000001 (lit "icecc-42") (lit ".o") 0 ()).tried.length = 1000001
    ∧ (dcc_make_tmpnam fullSys 1000001 (lit "icecc-42") (lit ".o") 0 ()).ret
      = some fullSys.EXIT_IO_ERROR
    ∧ (dcc_make_tmpdir fullSys 1000001 ()).tried.length = 1000001
    ∧ (dcc_make_tmpdir fullSys 1000001 ()).ret = some fullSys.EXIT_IO_ERROR
    ∧ 1000000 < (dcc_make_tmpnam fullSys 1000001 (lit "icecc-42") (lit ".o") 0 ()).tried.length
    ∧ 1000000 < (dcc_make_tmpdir fullSys 1000001 ()).tried.length := by
  obtain ⟨h1, _, h3⟩ := (dcc_make_tmpnam_bound fullSys 1000001 (lit "icecc-42") (lit ".o") 0 ()
    (by decide) (by decide)).2.2 rfl (fun _ => rfl) (fun _ _ => ⟨rfl, rfl⟩)
  obtain ⟨h4, _, h6⟩ := (dcc_make_tmpdir_bound fullSys 1000001 () (by decide) (by decide)).2.2
    rfl (fun _ => rfl) (fun _ _ => ⟨rfl, rfl⟩)
  refine ⟨h3, h1, h6, h4, ?_, ?_⟩
  · rw [h3]; decide
  · rw [h6]; decide

end Claim16
section Claim17

/-- In a filesystem that is a set of names, a run of the loop of
`dcc_make_tmpnam` that returns 0 has made exactly one name, which was absent
before, and that is the name it returns. -/
theorem dcc_make_tmpnam_loop_exclusive (sys : TempSys (List Str)) (pfx sfx : Str)
    (relative : Int) (hx : ExclusiveCreate sys) (hio : sys.EXIT_IO_ERROR ≠ 0)
    (hoom : sys.EXIT_OUT_OF_MEMORY ≠ 0) :
    ∀ (fuel tries random_bits : Nat) (fs : List Str) (tried : List Attempt),
      (dcc_make_tmpnam_loop sys pfx sfx relative fuel tries random_bits fs tried).ret = some 0 →
      ∃ a, (dcc_make_tmpnam_loop sys pfx sfx relative fuel tries random_bits fs tried).name_ret
          = some a.name
        ∧ a.name ∉ fs
        ∧ (dcc_make_tmpnam_loop sys pfx sfx relative fuel tries random_bits fs tried).world
          = a.name :: fs
        ∧ (dcc_make_tmpnam_loop sys pfx sfx relative fuel tries random_bits fs tried).tried.getLast?
          = some a
        ∧ a.fd ≠ -1 := by
  obtain ⟨hx1, hx2, hx3⟩ := hx
  intro fuel
  induction fuel with
  | zero =>
    intro tries random_bits fs tried h
    simp [dcc_make_tmpnam_loop] at h
  | succ fuel ih =>
    intro tries random_bits fs tried h
    by_cases hs : sys.snprintf_fails (tmpname_text sys pfx sfx relative random_bits) = true
    · simp only [dcc_make_tmpnam_loop, hs, if_true, Option.some.injEq] at h
      exact absurd h hoom
    · have hs2 : sys.snprintf_fails (tmpname_text sys pfx sfx relative random_bits) = false := by
        simpa using hs
      by_cases hfd : (sys.sys_creat fs (tmpname_of sys pfx sfx relative random_bits)).1.1 = -1
      · have hmem : tmpname_of sys pfx sfx relative random_bits ∈ fs := by
          by_contra hn
          exact (hx2 fs _ hn).1 hfd
        have hw := (hx1 fs _ hmem).2
        by_cases ht : 1000000 < (tries + 1) % 2 ^ sys.ulong_bits
        · simp only [dcc_make_tmpnam_loop, hs2, hfd, ht, if_true, if_false, gt_iff_lt,
            Bool.false_eq_true, Option.some.injEq] at h
          exact absurd h hio
        · by_cases he : try_again
              (sys.sys_creat fs (tmpname_of sys pfx sfx relative random_bits)).1.2 = true
          · simp only [dcc_make_tmpnam_loop, hs2, ht, he, if_true, if_false, gt_iff_lt,
              Bool.false_eq_true] at h ⊢
            rw [if_pos hfd] at h ⊢
            rw [hw] at h ⊢
            exact ih _ _ fs _ h
          · have he2 : try_again
                (sys.sys_creat fs (tmpname_of sys pfx sfx relative random_bits)).1.2 = false := by
              simpa using he
            simp only [dcc_make_tmpnam_loop, hs2, hfd, ht, he2, if_true, if_false, gt_iff_lt,
              Bool.false_eq_true, Option.some.injEq] at h
            exact absurd h hio
      · have hnot : tmpname_of sys pfx sfx relative random_bits ∉ fs := by
          intro hmem
          exact hfd (hx1 fs _ hmem).1
        have hw := (hx2 fs _ hnot).2
        by_cases hc : (sys.sys_close
            (sys.sys_creat fs (tmpname_of sys pfx sfx relative random_bits)).2
            (sys.sys_creat fs (tmpname_of sys pfx sfx relative random_bits)).1.1).1 = -1
        · simp only [dcc_make_tmpnam_loop, hs2, hfd, hc, if_true, if_false,
            Bool.false_eq_true, Option.some.injEq] at h
          exact absurd h hio
        · simp only [dcc_make_tmpnam_loop, hs2, hfd, hc, if_false, Bool.false_eq_true]
          refine ⟨Attempt.mk (tmpname_of sys pfx sfx relative random_bits)
            (sys.sys_creat fs (tmpname_of sys pfx sfx relative random_bits)).1.1
            (sys.sys_creat fs (tmpname_of sys pfx sfx relative random_bits)).1.2,
            rfl, hnot, ?_, List.getLast?_concat _, hfd⟩
          rw [hx3, hw]

/-- C17: with the filesystem a set of existing names in which an exclusive
create succeeds if and only if the name is absent and then adds it: for every
prefix, suffix and initial filesystem `fs`, whenever `dcc_make_tmpnam` returns
0 the name it returns was absent from `fs`, it is the name of the last call of
`open`, the one that succeeded, and the filesystem afterwards is `fs` with
that name alone added (the failed calls before it changed nothing, so `fs` is
the filesystem immediately before the successful create); and a second call
that follows in that filesystem, with any prefix and suffix and at any time of
day (the system `sys2`), returns a different name when it returns 0. -/
theorem C17_exclusive_names (sys sys2 : TempSys (List Str)) (fuel : Nat) (pfx sfx : Str)
    (relative : Int) (fs : List Str)
    (hx : ExclusiveCreate sys) (hio : sys.EXIT_IO_ERROR ≠ 0) (hoom : sys.EXIT_OUT_OF_MEMORY ≠ 0)
    (hx2 : ExclusiveCreate sys2) (hio2 : sys2.EXIT_IO_ERROR ≠ 0)
    (hoom2 : sys2.EXIT_OUT_OF_MEMORY ≠ 0)
    (hret : (dcc_make_tmpnam sys fuel pfx sfx relative fs).ret = some 0) :
    ∃ a, (dcc_make_tmpnam sys fuel pfx sfx relative fs).name_ret = some a.name
      ∧ a.name ∉ fs
      ∧ (dcc_make_tmpnam sys fuel pfx sfx relative fs).world = a.name :: fs
      ∧ (dcc_make_tmpnam sys fuel pfx sfx relative fs).tried.getLast? = some a
      ∧ a.fd ≠ -1
      ∧ ∀ (fuel2 : Nat) (pfx2 sfx2 : Str) (relative2 : Int),
          (dcc_make_tmpnam sys2 fuel2 pfx2 sfx2 relative2
            (dcc_make_tmpnam sys fuel pfx sfx relative fs).world).ret = some 0 →
          ∃ name2, (dcc_make_tmpnam sys2 fuel2 pfx2 sfx2 relative2
              (dcc_make_tmpnam sys fuel pfx sfx relative fs).world).name_ret = some name2
            ∧ name2 ≠ a.name := by
  have key : ∀ (s : TempSys (List Str)) (fl : Nat) (p q : Str) (rel : Int) (f : List Str),
      ExclusiveCreate s → s.EXIT_IO_ERROR ≠ 0 → s.EXIT_OUT_OF_MEMORY ≠ 0 →
      (dcc_make_tmpnam s fl p q rel f).ret = some 0 →
      ∃ a, (dcc_make_tmpnam s fl p q rel f).name_ret = some a.name
        ∧ a.name ∉ f
        ∧ (dcc_make_tmpnam s fl p q rel f).world = a.name :: f
        ∧ (dcc_make_tmpnam s fl p q rel f).tried.getLast? = some a
        ∧ a.fd ≠ -1 := by
    intro s fl p q rel f h1 h2 h3 h4
    by_cases hm : s.malloc (tmpname_length s p q) = false
    · simp only [dcc_make_tmpnam, hm, if_true, Option.some.injEq] at h4
      exact absurd h4 h3
    · simp only [dcc_make_tmpnam, hm, if_false] at h4 ⊢
      exact dcc_make_tmpnam_loop_exclusive s p q rel h1 h2 h3 fl 0 _ f [] h4
  obtain ⟨a, h1, h2, h3, h4, h5⟩ := key sys fuel pfx sfx relative fs hx hio hoom hret
  refine ⟨a, h1, h2, h3, h4, h5, fun fuel2 pfx2 sfx2 relative2 hret2 => ?_⟩
  obtain ⟨b, g1, g2, _, _, _⟩ := key sys2 fuel2 pfx2 sfx2 relative2 _ hx2 hio2 hoom2 hret2
  refine ⟨b.name, g1, fun heq => g2 ?_⟩
  rw [h3, heq]
  exact List.mem_cons_self _ _

theorem fsSys_exclusive : ExclusiveCreate fsSys := by
  refine ⟨fun fs name h => ?_, fun fs name h => ?_, fun _ _ => rfl⟩
  · simp [fsSys, h]
  · simp only [fsSys, h, if_false]
    exact ⟨by decide, trivial⟩

/-- Witness of C17: two calls one after the other in an empty filesystem. -/
theorem C17_exclusive_names_witness :
    ∃ a, (dcc_make_tmpnam fsSys 1000001 (lit "icecc-42") (lit ".o") 0 []).name_ret
        = some a.name
      ∧ a.name ∉ ([] : List Str)
      ∧ (dcc_make_tmpnam fsSys 1000001 (lit "icecc-42") (lit ".o") 0 []).world = a.name :: []
      ∧ (dcc_make_tmpnam fsSys 1000001 (lit "icecc-42") (lit ".o") 0 []).tried.getLast?
        = some a
      ∧ a.fd ≠ -1
      ∧ ∀ (fuel2 : Nat) (pfx2 sfx2 : Str) (relative2 : Int),
          (dcc_make_tmpnam fsSys fuel2 pfx2 sfx2 relative2
            (dcc_make_tmpnam fsSys 1000001 (lit "icecc-42") (lit ".o") 0 []).world).ret
              = some 0 →
          ∃ name2, (dcc_make_tmpnam fsSys fuel2 pfx2 sfx2 relative2
              (dcc_make_tmpnam fsSys 1000001 (lit "icecc-42") (lit ".o") 0 []).world).name_ret
                = some name2
            ∧ name2 ≠ a.name :=
  C17_exclusive_names fsSys fsSys 1000001 (lit "icecc-42") (lit ".o") 0 [] fsSys_exclusive
    (by decide) (by decide) fsSys_exclusive (by decide) (by decide) (by decide)

end Claim17

section Claim19

variable {σ : Type}

theorem random_component_inj (r j k : Nat) (hj : j ≤ 1000000) (hk : k ≤ 1000000)
    (h : (r + 7777 * j) % 2 ^ 32 = (r + 7777 * k) % 2 ^ 32) : j = k := by
  have h32 : (2 : Nat) ^ 32 = 4294967296 := by norm_num
  rw [h32] at h
  omega

/-- C19: within one call of `dcc_make_tmpnam`, for every initial value of
`random_bits`: the random components `(random_bits + 7777 * k) mod 2 ^ 32` for
`k = 0 .. 1000000` are pairwise different; each is printed as exactly 8
lower-case hexadecimal digits; the text of a name has at most
`tmpname_length - 1` characters, so with its terminator it fits the buffer and
`snprintf` cuts nothing off; and the names given to `open` in a call that
returns are pairwise distinct. -/
theorem C19_candidate_names_distinct (sys : TempSys σ) (pfx sfx : Str) (relative : Int)
    (hW : 32 ≤ sys.ulong_bits) :
    (∀ random_bits j k, j ≤ 1000000 → k ≤ 1000000 →
      (random_bits + 7777 * j) % 2 ^ 32 = (random_bits + 7777 * k) % 2 ^ 32 → j = k)
    ∧ (∀ random_bits,
        (format_0x 8 (random_bits &&& 0xffffffff)).length = 8
        ∧ (∀ c ∈ format_0x 8 (random_bits &&& 0xffffffff), c ∈ hex_digits)
        ∧ hex_value (format_0x 8 (random_bits &&& 0xffffffff)) = random_bits % 2 ^ 32)
    ∧ (∀ random_bits,
        (tmpname_text sys pfx sfx relative random_bits).length + 1
          ≤ sys.temp_dir_path.length + 1 + pfx.length + 1 + 8 + sfx.length + 1
        ∧ tmpname_of sys pfx sfx relative random_bits
          = tmpname_text sys pfx sfx relative random_bits)
    ∧ (∀ random_bits j k, j ≤ 1000000 → k ≤ 1000000 →
        tmpname_of sys pfx sfx relative (random_bits + 7777 * j)
          = tmpname_of sys pfx sfx relative (random_bits + 7777 * k) → j = k)
    ∧ (∀ fuel w, 1000001 ≤ fuel →
        (dcc_make_tmpnam sys fuel pfx sfx relative w).ret ≠ none
        ∧ (∀ i a, (dcc_make_tmpnam sys fuel pfx sfx relative w).tried[i]? = some a →
            i ≤ 1000000
            ∧ a.name = tmpname_of sys pfx sfx relative (random_bits_init sys + 7777 * i))
        ∧ ((dcc_make_tmpnam sys fuel pfx sfx relative w).tried.map Attempt.name).Nodup) := by
  have hnames : ∀ random_bits j k, j ≤ 1000000 → k ≤ 1000000 →
      tmpname_of sys pfx sfx relative (random_bits + 7777 * j)
        = tmpname_of sys pfx sfx relative (random_bits + 7777 * k) → j = k :=
    fun r j k hj hk h =>
      random_component_inj r j k hj hk (tmpname_of_inj sys pfx sfx relative _ _ h)
  refine ⟨random_component_inj, fun r => ⟨?_, (format_0x_spec 8 _).2, ?_⟩,
    fun r => tmpname_text_fits sys pfx sfx relative r, hnames, fun fuel w hfuel => ?_⟩
  · apply format_0x_length 8 _ (by decide)
    rw [land_mask]
    have : (16 : Nat) ^ 8 = 2 ^ 32 := by norm_num
    rw [this]
    exact Nat.mod_lt _ (by positivity)
  · rw [(format_0x_spec 8 _).1, land_mask]
  · by_cases hm : sys.malloc (tmpname_length sys pfx sfx) = true
    · obtain ⟨atts, res, w2, hrun, heq⟩ := dcc_make_tmpnam_run sys fuel pfx sfx relative w
        (by omega) hfuel hm
      rw [heq]
      have hlen := hrun.length_le (by omega)
      have hidx : ∀ i a, atts[i]? = some a → i ≤ 1000000
          ∧ a.name = tmpname_of sys pfx sfx relative (random_bits_init sys + 7777 * i) := by
        intro i a ha
        have hi : i < atts.length := (List.getElem?_eq_some.1 ha).1
        exact ⟨by omega, hrun.name_at hW i a ha⟩
      refine ⟨by simp, hidx, ?_⟩
      rw [List.nodup_iff_getElem?_ne_getElem?]
      intro i j hij hj
      simp only [List.length_map] at hj
      have hi : i < atts.length := by omega
      simp only [List.getElem?_map, List.getElem?_eq_getElem hi, List.getElem?_eq_getElem hj,
        Option.map_some', ne_eq, Option.some.injEq]
      obtain ⟨h1, h2⟩ := hidx i atts[i] (List.getElem?_eq_getElem hi)
      obtain ⟨h3, h4⟩ := hidx j atts[j] (List.getElem?_eq_getElem hj)
      rw [h2, h4]
      intro h
      have := hnames _ i j h1 h3 h
      omega
    · have hm2 : sys.malloc (tmpname_length sys pfx sfx) = false := by simpa using hm
      rw [dcc_make_tmpnam_no_memory sys fuel pfx sfx relative w hm2]
      exact ⟨by simp, by simp, by simp⟩

/-- Witness of C19: a call whose first name exists already. -/
theorem C19_candidate_names_distinct_witness :
    ((dcc_make_tmpnam fsSys 1000001 (lit "icecc-42") (lit ".o") 0
        [lit "/tmp/icecc-42_9781f100.o"]).tried.map Attempt.name).Nodup
    ∧ (dcc_make_tmpnam fsSys 1000001 (lit "icecc-42") (lit ".o") 0
        [lit "/tmp/icecc-42_9781f100.o"]).tried.map Attempt.name
      = [lit "/tmp/icecc-42_9781f100.o", lit "/tmp/icecc-42_97820f61.o"] :=
  ⟨((C19_candidate_names_distinct fsSys (lit "icecc-42") (lit ".o") 0 (by decide)).2.2.2.2
      1000001 [lit "/tmp/icecc-42_9781f100.o"] (by decide)).2.2, by decide⟩

end Claim19

section Claim20

variable {σ : Type}

theorem tmpdir_template_eq (sys : TempSys σ) :
    tmpdir_template sys = sys.temp_dir_path ++ lit "/icecc-XXXXXX" := by
  unfold tmpdir_template
  apply List.take_of_length_le
  simp only [List.length_append, List.length_cons]
  omega

theorem windows_malloc (sys : TempSys σ) : (windows sys).malloc = sys.malloc := by
  unfold windows; with_reducible rfl

theorem windows_temp_dir_path (sys : TempSys σ) :
    (windows sys).temp_dir_path = sys.temp_dir_path := by
  unfold windows; with_reducible rfl

theorem windows_snprintf_fails (sys : TempSys σ) :
    (windows sys).snprintf_fails = sys.snprintf_fails := by
  unfold windows; with_reducible rfl

theorem windows_ulong_bits (sys : TempSys σ) : (windows sys).ulong_bits = sys.ulong_bits := by
  unfold windows; with_reducible rfl

theorem windows_EXIT_IO_ERROR (sys : TempSys σ) :
    (windows sys).EXIT_IO_ERROR = sys.EXIT_IO_ERROR := by
  unfold windows; with_reducible rfl

theorem windows_mkdtemp_eq (sys : TempSys σ) :
    (windows sys).mkdtemp = windows_mkdtemp sys := by
  unfold windows; with_reducible rfl

theorem windows_template (sys : TempSys σ) :
    tmpdir_template (windows sys) = tmpdir_template sys := by
  unfold tmpdir_template
  rw [windows_temp_dir_path]

/-- C20: the bundled `mkdtemp` rejects the template that `dcc_make_tmpdir`
builds, `temp_dir_path + "/icecc-XXXXXX"`, with `EINVAL` for every
`temp_dir_path` (of a length that fits `unsigned int`): its loop starts at
`len - 7` and so looks at seven characters, of which the first is the `'-'`
before the six `'X'`.  It changes nothing and makes no directory, and
`dcc_make_tmpdir` of the Windows build then returns `EXIT_IO_ERROR` after this
one call whenever `malloc` and `snprintf` succeed.  A template that ends in
seven `'X'` is accepted; the name made from it is two characters shorter than
the template and has five hexadecimal digits where the seven `'X'` were. -/
theorem C20_fallback_rejects_template (sys : TempSys σ) (w : σ) (fuel : Nat)
    (hlen : sys.temp_dir_path.length + 13 < 4294967296) :
    tmpdir_template sys = sys.temp_dir_path ++ lit "/icecc-XXXXXX"
    ∧ mkdtemp_fallback sys w (tmpdir_template sys)
      = some ({ returned := false, errno := EINVAL, template := tmpdir_template sys }, w)
    ∧ (sys.malloc (sys.temp_dir_path.length + 1 + (lit "icecc-XXXXXX").length + 1) = true →
        sys.snprintf_fails (sys.temp_dir_path ++ '/' :: lit "icecc-XXXXXX") = false →
        (dcc_make_tmpdir (windows sys) (fuel + 1) w).ret = some sys.EXIT_IO_ERROR
        ∧ (dcc_make_tmpdir (windows sys) (fuel + 1) w).name_ret = none
        ∧ (dcc_make_tmpdir (windows sys) (fuel + 1) w).tried
          = [(tmpdir_template sys,
              { returned := false, errno := EINVAL, template := tmpdir_template sys })]
        ∧ (dcc_make_tmpdir (windows sys) (fuel + 1) w).world = w)
    ∧ mkdtemp_fallback fsSys [] (lit "/tmp/iceccXXXXXXX")
      = some ({ returned := true, errno := 0, template := lit "/tmp/icecc81f10" },
          [lit "/tmp/icecc81f10"]) := by
  have h1 := tmpdir_template_eq sys
  have h2 : mkdtemp_fallback sys w (tmpdir_template sys)
      = some ({ returned := false, errno := EINVAL, template := tmpdir_template sys }, w) := by
    have hl : (tmpdir_template sys).length = sys.temp_dir_path.length + 13 := by
      rw [h1]; simp [lit]
    have hmod : (sys.temp_dir_path.length + 13) % 2 ^ 32 = sys.temp_dir_path.length + 13 :=
      Nat.mod_eq_of_lt (by norm_num; exact hlen)
    have hstart : (sys.temp_dir_path.length + 13 + 2 ^ 32 - 7) % 2 ^ 32
        = sys.temp_dir_path.length + 6 := by
      have h32 : (2 : Nat) ^ 32 = 4294967296 := by norm_num
      rw [h32]
      omega
    have hget : (tmpdir_template sys)[sys.temp_dir_path.length + 6]? = some '-' := by
      rw [h1, List.getElem?_append_right (by omega)]
      have : sys.temp_dir_path.length + 6 - sys.temp_dir_path.length = 6 := by omega
      rw [this]
      rfl
    have hcount : sys.temp_dir_path.length + 13 - (sys.temp_dir_path.length + 6) = 7 := by
      omega
    have hall : (List.range' (sys.temp_dir_path.length + 6) 7).all
        (fun i => (tmpdir_template sys).get? i == some 'X') = false := by
      simp only [List.range'_succ, List.all_cons, List.get?_eq_getElem?, hget]
      rfl
    simp only [mkdtemp_fallback, hl, hmod, hstart, hcount, hall, if_true]
  refine ⟨h1, h2, fun hm hs => ?_, by decide⟩
  have hw : (windows sys).mkdtemp w (tmpdir_template sys)
      = ({ returned := false, errno := EINVAL, template := tmpdir_template sys }, w) := by
    rw [windows_mkdtemp_eq, windows_mkdtemp, h2, Option.getD_some]
  have hev : try_again EINVAL = false := by decide
  have h0b : ¬ (0 + 1) % 2 ^ sys.ulong_bits > 1000000 := by
    have := Nat.mod_le (0 + 1) (2 ^ sys.ulong_bits)
    omega
  simp only [dcc_make_tmpdir, dcc_make_tmpdir_loop, windows_malloc, windows_temp_dir_path,
    windows_snprintf_fails, windows_ulong_bits, windows_EXIT_IO_ERROR, windows_template,
    hm, hs, hw, hev, h0b, if_true, if_false, Bool.true_eq_false, Bool.false_eq_true,
    List.nil_append]
  exact ⟨trivial, trivial, trivial, trivial⟩

/-- Witness of C20: the template `/tmp/icecc-XXXXXX`. -/
theorem C20_fallback_rejects_template_witness :
    mkdtemp_fallback fsSys [] (tmpdir_template fsSys)
      = some ({ returned := false, errno := EINVAL, template := tmpdir_template fsSys }, []) :=
  (C20_fallback_rejects_template fsSys [] 0 (by simp [fsSys, lit])).2.1

end Claim20

section Claim21

theorem find_none (s : Str) (c : Char) : find s c = none ↔ c ∉ s := by
  induction s with
  | nil => simp [find]
  | cons x xs ih =>
    by_cases hx : x = c
    · simp [find, hx]
    · have hx2 : ¬ c = x := fun h => hx h.symm
      simp [find, hx, hx2, ih]

theorem find_some (s : Str) (c : Char) (i : Nat) (h : find s c = some i) :
    s.take i = s.takeWhile (fun d => d != c)
    ∧ (s.eraseIdx i).filter (fun d => d != c) = s.filter (fun d => d != c)
    ∧ (s.eraseIdx i).length + 1 = s.length := by
  induction s generalizing i with
  | nil => simp [find] at h
  | cons x xs ih =>
    by_cases hx : x = c
    · simp only [find, hx, if_true, Option.some.injEq] at h
      subst h
      subst hx
      simp
    · simp only [find, hx, if_false, Option.map_eq_some'] at h
      obtain ⟨j, hj, rfl⟩ := h
      obtain ⟨h1, h2, h3⟩ := ih j hj
      refine ⟨?_, ?_, ?_⟩
      · simp [List.takeWhile_cons, hx, h1]
      · simp [List.filter_cons, hx, h2]
      · simp only [List.eraseIdx_cons_succ, List.length_cons]
        omega

/-- With more fuel than characters the loop returns the text without its
spaces. -/
theorem erase_spaces_run (fuel : Nat) (platform : Str) (h : platform.length < fuel) :
    erase_spaces fuel platform = PlatformRes.ret (platform.filter (fun d => d != ' ')) := by
  induction fuel generalizing platform with
  | zero => omega
  | succ fuel ih =>
    cases hf : find platform ' ' with
    | none =>
      simp only [erase_spaces, hf]
      have hn := (find_none platform ' ').1 hf
      congr 1
      symm
      rw [List.filter_eq_self]
      intro a ha
      have : a ≠ ' ' := fun e => hn (e ▸ ha)
      simpa using this
    | some pos =>
      obtain ⟨_, h2, h3⟩ := find_some platform ' ' pos hf
      simp only [erase_spaces, hf]
      rw [ih _ (by omega), h2]

/-- C21: for every result of `uname` in the build that is not for Windows,
with fuel for more rounds than `sysname`, `release` and `machine` have
characters: `determine_platform_once` throws exactly when `uname` fails or
`sysname` is `Darwin` and `release` has no `'.'`; otherwise it returns, and
what it returns has no space and is, with all spaces taken out, `machine` when
`sysname` is `Linux`, `Darwin` with the release up to its first `'.'`, `'_'`
and `machine` when `sysname` is `Darwin`, and `sysname`, `'_'` and `machine`
otherwise. -/
theorem C21_platform_name (uname_ret : Int) (uname_buf : utsname) (fuel : Nat)
    (hfuel : uname_buf.sysname.length + uname_buf.release.length
      + uname_buf.machine.length + 2 ≤ fuel) :
    determine_platform_once uname_ret uname_buf fuel ≠ PlatformRes.stuck
    ∧ ((∃ what, determine_platform_once uname_ret uname_buf fuel = PlatformRes.throw what)
      ↔ (uname_ret ≠ 0 ∨ (uname_buf.sysname = lit "Darwin" ∧ '.' ∉ uname_buf.release)))
    ∧ (uname_ret = 0 →
        ¬ (uname_buf.sysname = lit "Darwin" ∧ '.' ∉ uname_buf.release) →
        determine_platform_once uname_ret uname_buf fuel
          = PlatformRes.ret ((platform_name uname_buf).filter (fun d => d != ' '))
        ∧ ' ' ∉ (platform_name uname_buf).filter (fun d => d != ' ')) := by
  have hnosp : ' ' ∉ (platform_name uname_buf).filter (fun d => d != ' ') := by
    simp [List.mem_filter]
  by_cases hu : uname_ret ≠ 0
  · have hres : determine_platform_once uname_ret uname_buf fuel = PlatformRes.throw
        (lit "determine_platform: cannot determine OS version and machine architecture") := by
      simp only [determine_platform_once, hu, if_true, ne_eq, not_false_eq_true]
    rw [hres]
    exact ⟨by simp, ⟨fun _ => Or.inl hu, fun _ => ⟨_, rfl⟩⟩, fun h0 => absurd h0 hu⟩
  · have hu0 : uname_ret = 0 := by simpa using hu
    by_cases hd : uname_buf.sysname = lit "Darwin"
    · have hnl : ¬ uname_buf.sysname = lit "Linux" := by rw [hd]; decide
      cases hf : find uname_buf.release '.' with
      | none =>
        have hn := (find_none _ _).1 hf
        simp only [determine_platform_once, hu, hd, hf, if_true, if_false]
        refine ⟨by simp, ⟨fun _ => Or.inr ⟨trivial, hn⟩, fun _ => ⟨_, rfl⟩⟩,
          fun _ h => absurd ⟨trivial, hn⟩ h⟩
      | some pos =>
        have hmem : '.' ∈ uname_buf.release := by
          by_contra hne
          rw [(find_none _ _).2 hne] at hf
          cases hf
        obtain ⟨h1, _, _⟩ := find_some _ _ pos hf
        have hne : lit "Darwin" ++ List.take pos uname_buf.release ≠ lit "Linux" := by
          intro h
          have := congrArg List.head? h
          simp [lit] at this
        have hlen : (lit "Darwin" ++ List.take pos uname_buf.release
            ++ '_' :: uname_buf.machine).length < fuel := by
          have h6 : (lit "Darwin").length = 6 := rfl
          rw [hd] at hfuel
          simp only [List.length_append, List.length_cons, List.length_take, h6] at hfuel ⊢
          omega
        have hres : determine_platform_once uname_ret uname_buf fuel
            = PlatformRes.ret ((platform_name uname_buf).filter (fun d => d != ' ')) := by
          simp only [determine_platform_once, hu, hd, hf, hne, if_true, if_false, ne_eq,
            not_false_eq_true]
          rw [erase_spaces_run _ _ hlen]
          simp only [platform_name, hd, hnl, if_true, if_false, h1]
          have : ¬ lit "Darwin" = lit "Linux" := by decide
          simp only [this, if_false]
        rw [hres]
        refine ⟨by simp, ⟨fun h => ?_, fun h => ?_⟩, fun _ _ => ⟨rfl, hnosp⟩⟩
        · obtain ⟨what, hw⟩ := h
          cases hw
        · rcases h with h | ⟨_, h⟩
          · exact absurd h hu
          · exact absurd hmem h
    · have hres : determine_platform_once uname_ret uname_buf fuel
          = PlatformRes.ret ((platform_name uname_buf).filter (fun d => d != ' ')) := by
        by_cases hl : uname_buf.sysname = lit "Linux"
        · have hld : ¬ lit "Linux" = lit "Darwin" := by decide
          simp only [determine_platform_once, hu, hl, hld, if_true, if_false, ne_eq,
            not_true_eq_false]
          rw [erase_spaces_run _ _ (by omega)]
          simp only [platform_name, hl, if_true]
        · simp only [determine_platform_once, hu, hd, hl, if_true, if_false, ne_eq,
            not_false_eq_true]
          rw [erase_spaces_run _ _ (by simp only [List.length_append, List.length_cons]; omega)]
          simp only [platform_name, hl, hd, if_false]
      rw [hres]
      refine ⟨by simp, ⟨fun h => ?_, fun h => ?_⟩, fun _ _ => ⟨rfl, hnosp⟩⟩
      · obtain ⟨what, hw⟩ := h
        cases hw
      · rcases h with h | ⟨h, _⟩
        · exact absurd h hu
        · exact absurd h hd

/-- Witness of C21: a PowerPC Mac, whose machine name has a space. -/
theorem C21_platform_name_witness :
    determine_platform_once 0 unamePowerMac 100 = PlatformRes.ret (lit "Darwin8_PowerMacintosh")
    ∧ determine_platform_once 0 unamePowerMac 100
      = PlatformRes.ret ((platform_name unamePowerMac).filter (fun d => d != ' ')) :=
  ⟨by decide,
    ((C21_platform_name 0 unamePowerMac 100 (by decide)).2.2 rfl (by decide)).1⟩

end Claim21

end Icecream
